import Mathlib

/-!
# View-line arithmetic of KateViewInternal

A shallow embedding of the coordinate translator, the scroll/viewport
controller, the calculating cursors, the selection modes, the dirty regions and
the edit sessions of `src/view/kateviewinternal.cpp`, of the layered
configuration of `src/utils/kateconfig.cpp` and of the minimap groove of
`src/view/kateviewhelpers.cpp`.

C++ `int` values are embedded as `Int`; signed overflow is undefined behaviour
in the source and is not modelled, but for the scroll bar's `minimapYToStdY`,
whose sums, difference and product are taken modulo `2^32` as the machine
computes them.  C++ `/` and `%` on `int` are `Int.tdiv` and `Int.tmod`
(truncation towards zero).
-/

namespace Kate

/-! ## Cursors -/

/-- Modelled from the spec: `KTextEditor::Cursor` (its header is not part of
the sources at hand), a `(line, column)` position. -/
structure Cursor where
  line : Int
  column : Int
deriving DecidableEq, Repr

namespace Cursor

/-- Modelled from the spec: `KTextEditor::Cursor::invalid()`, the sentinel
position `(-1, -1)`. -/
def invalid : Cursor := ⟨-1, -1⟩

/-- Modelled from the spec: `operator<` of `KTextEditor::Cursor`, positions are
ordered by line and then by column. -/
def lt (a b : Cursor) : Bool :=
  decide (a.line < b.line) || (decide (a.line = b.line) && decide (a.column < b.column))

/-- Modelled from the spec: `operator>` of `KTextEditor::Cursor`. -/
def gt (a b : Cursor) : Bool := lt b a

/-- Modelled from the spec: `operator<=` of `KTextEditor::Cursor`. -/
def le (a b : Cursor) : Bool := !(lt b a)

end Cursor

/-! ## Collaborators -/

/-- The collaborators a view reads: configuration, folding state, document,
line layouts and widget geometry.  None of them is changed by the functions
embedded below. -/
structure View where
  /-- Embeds `view()->dynWordWrap()`. -/
  dynWordWrap : Bool
  /-- Embeds `view()->config()->scrollPastEnd()`. -/
  scrollPastEnd : Bool
  /-- Embeds `view()->textFolding().visibleLines()`. -/
  visibleLines : Int
  /-- Embeds `view()->textFolding().visibleLineToLine(v)`. -/
  visibleLineToLine : Int → Int
  /-- Embeds `view()->textFolding().lineToVisibleLine(r)`. -/
  lineToVisibleLine : Int → Int
  /-- Embeds `view()->textFolding().isLineVisible(r)`. -/
  isLineVisible : Int → Bool
  /-- Embeds `doc()->lines()`. -/
  lines : Int
  /-- Embeds `doc()->lineLength(r)`. -/
  lineLength : Int → Int
  /-- the start columns of the view lines a real line is laid out in when
  dynamic word wrap is on -/
  layout : Int → List Int
  /-- Embeds `renderer()->xToCursor(textLayout(r, i), m_preservedX, ...).column()`. -/
  xToColumn : Int → Int → Int
  /-- Embeds `height()` of the widget, in pixels -/
  height : Int
  /-- Embeds `renderer()->lineHeight()`, in pixels -/
  lineHeight : Int
  /-- the wrap width `updateView` computes from `width()` -/
  wrapWidth : Int
  /-- Embeds `isVisible()` of the widget -/
  isVisible : Bool
  /-- whether one of the floating message widgets is shown -/
  messageVisible : Bool

/-! ## Layout cache -/

/-- Modelled from the spec: the view-line segments `KateLayoutCache` holds for a
real line (`katelayoutcache.cpp` is not part of the sources at hand), as the
list of their start columns; with wrapping disabled a line is one segment. -/
def segments (v : View) (realLine : Int) : List Int :=
  if v.dynWordWrap then v.layout realLine else [0]

/-- Modelled from the spec: `KateLineLayout::viewLineCount()`, the number of
segments of a laid-out line. -/
def viewLineCount (v : View) (realLine : Int) : Int :=
  ((segments v realLine).length : Int)

/-- Modelled from the spec: `KateLayoutCache::lastViewLine(realLine)`, the
number of segments minus one. -/
def lastViewLine (v : View) (realLine : Int) : Int :=
  viewLineCount v realLine - 1

/-- Modelled from the spec: the start column of `textLayout(realLine, viewLine)`;
a negative index counts from the last segment and an index without a segment
gives column 0. -/
def startCol (v : View) (realLine viewLine : Int) : Int :=
  let i := if viewLine < 0 then viewLine + viewLineCount v realLine else viewLine
  if i < 0 then 0 else (segments v realLine).getD i.toNat 0

/-- Index of the segment that holds `column` in a list of segment start
columns: the last segment that starts at or before it. -/
def segIndex : List Int → Int → Nat
  | [], _ => 0
  | [_], _ => 0
  | _ :: b :: rest, column =>
    if column < b then 0 else segIndex (b :: rest) column + 1

/-- Modelled from the spec: `KateLayoutCache::viewLine(realCursor)`, the index
of the view line of its line a real cursor lies on. -/
def cacheViewLine (v : View) (realCursor : Cursor) : Int :=
  (segIndex (segments v realCursor.line) realCursor.column : Int)

/-- Modelled from the spec: `KateLayoutCache::line(realLine, virtualLine)` gives
no layout for a line outside `[0, lines)`. -/
def hasLayout (v : View) (realLine : Int) : Bool :=
  decide (0 ≤ realLine) && decide (realLine < v.lines)

/-! ## Coordinate translation -/

/-- Embeds `KateViewInternal::toRealCursor`. -/
def toRealCursor (v : View) (virtualCursor : Cursor) : Cursor :=
  ⟨v.visibleLineToLine virtualCursor.line, virtualCursor.column⟩

/-- Embeds `KateViewInternal::toVirtualCursor`. -/
def toVirtualCursor (v : View) (realCursor : Cursor) : Cursor :=
  if realCursor.line < 0 then Cursor.invalid
  else ⟨v.lineToVisibleLine realCursor.line, realCursor.column⟩

/-! ## Viewport height -/

/-- The divisor `fh` of `KateViewInternal::linesDisplayed`, which catches zero
line heights. -/
def linesDisplayedDivisor (lineHeight : Int) : Int := max 1 lineHeight

/-- Embeds `KateViewInternal::linesDisplayed`, as a function of the widget
height and the line height of the renderer. -/
def linesDisplayedOf (h lineHeight : Int) : Int :=
  let fh := linesDisplayedDivisor lineHeight
  max 1 ((h - h.tmod fh).tdiv fh)

/-- Embeds `KateViewInternal::linesDisplayed`. -/
def linesDisplayed (v : View) : Int :=
  linesDisplayedOf v.height v.lineHeight

/-! ## viewLineOffset -/

/-- The end of the last visible line, as `maxStartPos`, `scrollPos` and
`viewLineOffset` build it. -/
def lastLineEnd (v : View) : Cursor :=
  ⟨v.visibleLines - 1, v.lineLength (v.visibleLineToLine (v.visibleLines - 1))⟩

/-- The result of `viewLineOffset` once its walk has left the document. -/
def walkedOff (v : View) (forwards : Bool) : Cursor :=
  if forwards then lastLineEnd v else ⟨0, 0⟩

/-- The `for` loop of `viewLineOffset` over the view lines of one line: the
index at which `offset == currentOffset`, if any, and `currentOffset` after the
loop.  `count` view lines are still to be looked at, the next one is `i`. -/
def scanViewLines (offset : Int) : Nat → Nat → Int → Option Nat × Int
  | 0, _, currentOffset => (none, currentOffset)
  | count + 1, i, currentOffset =>
    if offset = currentOffset then (some i, currentOffset)
    else scanViewLines offset count (i + 1) (currentOffset + 1)

/-- The `while` loop of `viewLineOffset`.  Every round moves `virtualLine` by
one, so `visibleLines + 1` rounds of fuel are never used up. -/
def walk (v : View) (forwards keepX : Bool) (offset : Int) : Nat → Int → Int → Cursor
  | 0, _, _ => walkedOff v forwards
  | fuel + 1, virtualLine, currentOffset =>
    if 0 ≤ virtualLine ∧ virtualLine < v.visibleLines then
      let realLine := v.visibleLineToLine virtualLine
      if hasLayout v realLine then
        match scanViewLines offset (viewLineCount v realLine).toNat 0 currentOffset with
        | (some i, _) =>
          let required : Int := if forwards then (i : Int) else lastViewLine v realLine - (i : Int)
          if keepX then ⟨virtualLine, v.xToColumn realLine required⟩
          else ⟨virtualLine, startCol v realLine required⟩
        | (none, currentOffset') =>
          walk v forwards keepX offset fuel
            (if forwards then virtualLine + 1 else virtualLine - 1) currentOffset'
      else walkedOff v forwards
    else walkedOff v forwards

/-- Embeds `KateViewInternal::viewLineOffset`. -/
def viewLineOffset (v : View) (virtualCursor : Cursor) (offset : Int) (keepX : Bool) : Cursor :=
  if !v.dynWordWrap then
    let ret : Cursor := ⟨min (v.visibleLines - 1) (virtualCursor.line + offset), 0⟩
    let ret : Cursor := if ret.line < 0 then ⟨0, ret.column⟩ else ret
    if keepX then ⟨ret.line, v.xToColumn (v.visibleLineToLine ret.line) 0⟩ else ret
  else
    let realLine := v.visibleLineToLine (v.lineToVisibleLine virtualCursor.line)
    let cursorViewLine := cacheViewLine v ⟨realLine, virtualCursor.column⟩
    if offset > 0 then
      let currentOffset := lastViewLine v realLine - cursorViewLine
      if offset ≤ currentOffset then
        ⟨virtualCursor.line, startCol v realLine (cursorViewLine + offset)⟩
      else
        walk v true keepX offset (v.visibleLines.toNat + 1) (virtualCursor.line + 1)
          (currentOffset + 1)
    else
      let offset := -offset
      let currentOffset := cursorViewLine
      if offset ≤ currentOffset then
        ⟨virtualCursor.line, startCol v realLine (cursorViewLine - offset)⟩
      else
        walk v false keepX offset (v.visibleLines.toNat + 1) (virtualCursor.line - 1)
          (currentOffset + 1)

/-! ## Rows -/

/-- Number of view lines of the visible lines before virtual line `n`. -/
def rowsBefore (v : View) : Nat → Int
  | 0 => 0
  | n + 1 => rowsBefore v n + viewLineCount v (v.visibleLineToLine (n : Int))

/-- Total number of view lines of the document. -/
def totalRows (v : View) : Int := rowsBefore v v.visibleLines.toNat

/-- The view row of a virtual cursor, counted over the view lines of all
visible lines in document order. -/
def rowOf (v : View) (c : Cursor) : Int :=
  rowsBefore v c.line.toNat + cacheViewLine v ⟨v.visibleLineToLine c.line, c.column⟩

/-! ## View cache -/

/-- Modelled from the spec: `KateTextLayout`, one view line of a laid-out line;
`line` is `-1` for the invalid layout. -/
structure TextLayout where
  line : Int
  virtualLine : Int
  viewLine : Int
  startCol : Int
  endCol : Int
  wrap : Bool
deriving DecidableEq, Repr

/-- Modelled from the spec: `KateTextLayout::invalid()`. -/
def TextLayout.invalid : TextLayout := ⟨-1, -1, 0, 0, 0, false⟩

/-- Modelled from the spec: the view line `viewLine` of virtual line
`virtualLine`; it ends where the next segment starts, or at the line end. -/
def textLayoutAt (v : View) (virtualLine viewLine : Int) : TextLayout :=
  let realLine := v.visibleLineToLine virtualLine
  let isLast := decide (viewLineCount v realLine ≤ viewLine + 1)
  { line := realLine
    virtualLine := virtualLine
    viewLine := viewLine
    startCol := startCol v realLine viewLine
    endCol := if isLast then v.lineLength realLine else startCol v realLine (viewLine + 1)
    wrap := !isLast }

/-- Modelled from the spec: the rows `updateViewCache` lays out, `count` of them
from view line `viewLine` of virtual line `virtualLine` on; rows past the last
visible line are invalid. -/
def buildViewCache (v : View) : Nat → Int → Int → List TextLayout
  | 0, _, _ => []
  | count + 1, virtualLine, viewLine =>
    if 0 ≤ virtualLine ∧ virtualLine < v.visibleLines then
      textLayoutAt v virtualLine viewLine ::
        (if viewLine + 1 < viewLineCount v (v.visibleLineToLine virtualLine) then
          buildViewCache v count virtualLine (viewLine + 1)
        else buildViewCache v count (virtualLine + 1) 0)
    else TextLayout.invalid :: buildViewCache v count virtualLine viewLine

/-- Outward effects of the view: calls into the widget layer and signals. -/
inductive Effect where
  | updateView (changed : Bool) (viewLinesScrolled : Int)
  | updateDirty
  | scroll (dy : Int)
  | leftBorderScroll (dy : Int)
  | update
  | leftBorderUpdate
  | verticalScrollPositionChanged (c : Cursor)
  | displayRangeChanged
deriving DecidableEq, Repr

/-- The mutable state of a `KateViewInternal` the scroll controller works on,
with the view cache of its `KateLayoutCache` and the effects issued so far. -/
structure ViewState where
  m_startPos : Cursor
  m_madeVisible : Bool
  m_minLinesVisible : Int
  m_cachedMaxStartPos : Cursor
  m_visibleLineCount : Int
  /-- rows of the view cache, `m_textLayouts` of the layout cache -/
  viewCache : List TextLayout
  /-- width the layout cache was last given, `cache()->viewWidth()` -/
  viewWidth : Int
  /-- flag set by `cache()->setAcceptDirtyLayouts` -/
  acceptDirtyLayouts : Bool
  /-- effects issued so far, oldest first -/
  effects : List Effect
deriving DecidableEq, Repr

/-- Embeds `startPos()`. -/
def startPos (s : ViewState) : Cursor := s.m_startPos

/-- Embeds `startLine()`. -/
def startLine (s : ViewState) : Int := s.m_startPos.line

/-- Modelled from the spec: `KateLayoutCache::viewCacheLineCount()`. -/
def viewCacheLineCount (s : ViewState) : Int := (s.viewCache.length : Int)

/-- Modelled from the spec: `KateLayoutCache::viewLine(row)`, the invalid layout
where the cache has no such row. -/
def cacheRow (s : ViewState) (row : Nat) : TextLayout :=
  s.viewCache.getD row TextLayout.invalid

/-- Modelled from the spec: `KateLayoutCache::viewCacheStart()`, as a virtual
cursor: where the first row of the view cache starts. -/
def viewCacheStart (s : ViewState) : Cursor :=
  match s.viewCache with
  | [] => ⟨0, 0⟩
  | t :: _ => ⟨t.virtualLine, t.startCol⟩

/-- Modelled from the spec: `KateLayoutCache::displayViewLine(c)` without the
limit to visible rows: the row of a virtual cursor relative to the first row of
the view cache, `-1` for an invalid cursor. -/
def displayViewLine (v : View) (s : ViewState) (c : Cursor) : Int :=
  if c.line < 0 ∨ c.column < 0 then -1
  else
    let work := viewCacheStart s
    if work.line < 0 ∨ work.column < 0 then c.line
    else if !v.dynWordWrap then c.line - work.line
    else rowOf v c - rowOf v work

/-- The loop of `endPos` over the rows `i - 1, ..., 0` of the view cache. -/
def endPosScan (v : View) (s : ViewState) : Nat → Cursor
  | 0 => ⟨0, 0⟩
  | i + 1 =>
    let thisLine := cacheRow s i
    if thisLine.line = -1 then endPosScan v s i
    else if thisLine.virtualLine ≥ v.visibleLines then lastLineEnd v
    else ⟨thisLine.virtualLine, if thisLine.wrap then thisLine.endCol - 1 else thisLine.endCol⟩

/-- Embeds `KateViewInternal::endPos`. -/
def endPos (v : View) (s : ViewState) : Cursor :=
  if viewCacheLineCount s = 0 then ⟨0, 0⟩
  else endPosScan v s (min (linesDisplayed v - 1) (viewCacheLineCount s - 1) + 1).toNat

/-- Embeds `KateViewInternal::endLine`. -/
def endLine (v : View) (s : ViewState) : Int := (endPos v s).line

/-! ## Scroll controller -/

/-- The position `maxStartPos` computes when its cache is not used. -/
def freshMaxStartPos (v : View) (s : ViewState) : Cursor :=
  if v.scrollPastEnd then viewLineOffset v (lastLineEnd v) (-s.m_minLinesVisible) false
  else viewLineOffset v (lastLineEnd v) (-(linesDisplayed v - 1)) false

/-- Embeds `KateViewInternal::maxStartPos`: the state afterwards and the
position returned. -/
def maxStartPos (v : View) (s : ViewState) (changed : Bool) : ViewState × Cursor :=
  let s := { s with acceptDirtyLayouts := true }
  let s :=
    if s.m_cachedMaxStartPos.line = -1 ∨ changed = true then
      { s with m_cachedMaxStartPos := freshMaxStartPos v s }
    else s
  let s := { s with acceptDirtyLayouts := false }
  (s, s.m_cachedMaxStartPos)

/-- Embeds `KateViewInternal::updateView`, up to the scroll bars and the
horizontal scroll offset, which are left to the widget layer.  With a line
height of 0 the source divides by zero; `Int.tdiv` gives 0 there. -/
def updateView (v : View) (s : ViewState) (changed : Bool) (viewLinesScrolled : Int) :
    ViewState :=
  if !v.isVisible && decide (viewLinesScrolled = 0) && !changed then s
  else
    let s := { s with effects := s.effects ++ [Effect.updateView changed viewLinesScrolled] }
    let changed := changed || decide (v.wrapWidth ≠ s.viewWidth)
    let s := { s with viewWidth := v.wrapWidth }
    let newSize := (max 0 v.height).tdiv v.lineHeight + 1
    let s := { s with
      viewCache := buildViewCache v newSize.toNat s.m_startPos.line
        (cacheViewLine v ⟨v.visibleLineToLine s.m_startPos.line, s.m_startPos.column⟩) }
    let s := { s with m_visibleLineCount := newSize }
    let s := (maxStartPos v s changed).1
    { s with effects := s.effects ++ (if changed then [Effect.updateDirty] else []) }

/-- The step `if (c.line() < 0) c.setLine(0)` of `scrollPos`. -/
def lineAtLeastZero (c : Cursor) : Cursor :=
  if c.line < 0 then ⟨0, c.column⟩ else c

/-- The test of `scrollPos` for a scroll to the place the view is at. -/
def samePlace (v : View) (s : ViewState) (c : Cursor) : Bool :=
  (!v.dynWordWrap && decide (c.line = startLine s)) || decide (c = startPos s)

/-- The signals `scrollPos` emits. -/
def scrollSignals (emitSignals : Bool) (c : Cursor) : List Effect :=
  if emitSignals then [Effect.verticalScrollPositionChanged c, Effect.displayRangeChanged]
  else []

/-- The part of `scrollPos` after the target has been clamped. -/
def scrollPosTo (v : View) (s : ViewState) (c : Cursor)
    (force calledExternally emitSignals : Bool) : ViewState :=
  let viewLinesScrolledUsable :=
    !force && decide (c.line ≥ startLine s - linesDisplayed v - 1)
      && decide (c.line ≤ endLine v s + linesDisplayed v + 1)
  let viewLinesScrolled := if viewLinesScrolledUsable then displayViewLine v s c else 0
  let s := { s with m_startPos := c }
  let s := { s with m_madeVisible := false }
  let lines :=
    if v.visibleLines < linesDisplayed v then
      min (linesDisplayed v) (displayViewLine v s (lastLineEnd v) + 1)
    else linesDisplayed v
  if viewLinesScrolledUsable && !calledExternally && decide (|viewLinesScrolled| < lines)
      && !v.messageVisible then
    let s := updateView v s false viewLinesScrolled
    let scrollHeight := -(viewLinesScrolled * v.lineHeight)
    { s with effects := s.effects ++
        [Effect.scroll scrollHeight, Effect.leftBorderScroll scrollHeight]
        ++ scrollSignals emitSignals c }
  else
    let s := updateView v s false 0
    { s with effects := s.effects ++ [Effect.update, Effect.leftBorderUpdate]
        ++ scrollSignals emitSignals c }

/-- Embeds `KateViewInternal::scrollPos`: the state afterwards, and the cursor
`c` as the call leaves it (it is passed by reference). -/
def scrollPos (v : View) (s : ViewState) (c : Cursor)
    (force calledExternally emitSignals : Bool) : ViewState × Cursor :=
  if !force && samePlace v s c then (s, c)
  else
    let c := lineAtLeastZero c
    let (s, limit) := maxStartPos v s false
    if Cursor.gt c limit then
      let c := limit
      if !force && samePlace v s c then (s, c)
      else (scrollPosTo v s c force calledExternally emitSignals, c)
    else (scrollPosTo v s c force calledExternally emitSignals, c)

/-- Embeds `KateViewInternal::makeVisible` for `endCol = -1`, up to the
horizontal scroll offset, which is left to the widget layer. -/
def makeVisible (v : View) (s : ViewState) (c : Cursor) (force center calledExternally : Bool) :
    ViewState :=
  let s :=
    if force then (scrollPos v s c force calledExternally true).1
    else if center && (Cursor.lt c (startPos s) || Cursor.gt c (endPos v s)) then
      let scroll := viewLineOffset v c ((-(linesDisplayed v)).tdiv 2) false
      (scrollPos v s scroll false calledExternally true).1
    else if Cursor.gt c
        (viewLineOffset v (startPos s) (linesDisplayed v - s.m_minLinesVisible - 1) false) then
      let scroll := viewLineOffset v c (-(linesDisplayed v - s.m_minLinesVisible - 1)) false
      (scrollPos v s scroll false calledExternally true).1
    else if Cursor.lt c (viewLineOffset v (startPos s) s.m_minLinesVisible false) then
      let scroll := viewLineOffset v c (-s.m_minLinesVisible) false
      (scrollPos v s scroll false calledExternally true).1
    else
      let (s, max) := maxStartPos v s false
      if Cursor.gt (startPos s) max then
        (scrollPos v s max (decide (max.column ≠ 0)) calledExternally true).1
      else s
  { s with m_madeVisible := !force }

/-! ## Well-formed collaborators -/

/-- The invariant of the folding state: `visibleLineToLine` and
`lineToVisibleLine` are mutual inverses on visible lines, and every virtual
line stands for a visible real line. -/
def foldingInverse (v : View) : Prop :=
  (∀ r : Int, 0 ≤ r → v.isLineVisible r = true →
      v.visibleLineToLine (v.lineToVisibleLine r) = r) ∧
  (∀ l : Int, 0 ≤ l → l < v.visibleLines →
      0 ≤ v.visibleLineToLine l ∧ v.isLineVisible (v.visibleLineToLine l) = true ∧
      v.lineToVisibleLine (v.visibleLineToLine l) = l)

/-- A document of five lines of 25 columns whose real line 1 is folded away:
the visible real lines are 0, 2, 3, 4; with word wrap real line 2 is laid out in
the view lines starting at columns 0, 10 and 20 and every other line in one
view line. -/
def foldedView (wrap : Bool) : View :=
  { dynWordWrap := wrap
    scrollPastEnd := false
    visibleLines := 4
    visibleLineToLine := (fun l => if l ≤ 0 then l else l + 1)
    lineToVisibleLine := (fun r => if r ≤ 0 then r else r - 1)
    isLineVisible := (fun r => decide (r ≠ 1))
    lines := 5
    lineLength := (fun _ => 25)
    layout := (fun r => if r = 2 then [0, 10, 20] else [0])
    xToColumn := (fun _ _ => 0)
    height := 200
    lineHeight := 10
    wrapWidth := 100
    isVisible := true
    messageVisible := false }

/-- A document of `n` lines of 25 columns without folding, every line laid out
in the view lines starting at columns 0, 10 and 20, in a widget `h` pixels high
with lines 10 pixels high. -/
def plainView (wrap scrollPastEnd : Bool) (n h : Int) : View :=
  { dynWordWrap := wrap
    scrollPastEnd := scrollPastEnd
    visibleLines := n
    visibleLineToLine := id
    lineToVisibleLine := id
    isLineVisible := (fun _ => true)
    lines := n
    lineLength := (fun _ => 25)
    layout := (fun _ => [0, 10, 20])
    xToColumn := (fun _ _ => 0)
    height := h
    lineHeight := 10
    wrapWidth := 100
    isVisible := true
    messageVisible := false }

/-- The state of a view right after construction, scrolled to `start` and with
`minLines` as `m_minLinesVisible`. -/
def initialState (start : Cursor) (minLines : Int) : ViewState :=
  { m_startPos := start
    m_madeVisible := false
    m_minLinesVisible := minLines
    m_cachedMaxStartPos := ⟨-1, -1⟩
    m_visibleLineCount := 0
    viewCache := []
    viewWidth := 100
    acceptDirtyLayouts := false
    effects := [] }

/-- The invariant of the laid-out lines: every visible line has a layout, whose
view lines start at increasing columns within `[0, lineLength]`. -/
def layoutOk (v : View) : Prop :=
  ∀ l : Int, 0 ≤ l → l < v.visibleLines →
    hasLayout v (v.visibleLineToLine l) = true ∧
    v.layout (v.visibleLineToLine l) ≠ [] ∧
    (v.layout (v.visibleLineToLine l)).Pairwise (· < ·) ∧
    (∀ x ∈ v.layout (v.visibleLineToLine l), x ≤ v.lineLength (v.visibleLineToLine l)) ∧
    (∀ x ∈ v.layout (v.visibleLineToLine l), 0 ≤ x)

/-- No fold renumbers a visible line: reading a virtual line number as a real
one, as the word-wrap branch of `viewLineOffset` does, leads to the same real
line as `visibleLineToLine`. -/
def foldNeutral (v : View) : Prop :=
  ∀ l : Int, 0 ≤ l → l < v.visibleLines →
    v.visibleLineToLine (v.lineToVisibleLine l) = v.visibleLineToLine l

/-- What the word-wrap branch of `viewLineOffset` relies on. -/
def wrapOk (v : View) : Prop := layoutOk v ∧ foldNeutral v

/-- The cursor `ret` is the start of the view line at row `row`, rows counted
over the view lines of all visible lines in document order. -/
def isRowStart (v : View) (ret : Cursor) (row : Int) : Prop :=
  0 ≤ ret.line ∧ ret.line < v.visibleLines ∧
  ∃ j : Nat, j < (segments v (v.visibleLineToLine ret.line)).length ∧
    ret.column = (segments v (v.visibleLineToLine ret.line)).getD j 0 ∧
    rowsBefore v ret.line.toNat + (j : Int) = row

/-- The virtual cursor `c` is on a visible line and stands at the start of its
view line: at column 0 without word wrap, at the start column of its segment
with it. -/
def atViewLineStart (v : View) (c : Cursor) : Prop :=
  0 ≤ c.line ∧ c.line < v.visibleLines ∧
  c.column = startCol v (v.visibleLineToLine c.line)
    (cacheViewLine v ⟨v.visibleLineToLine c.line, c.column⟩)

instance (v : View) (c : Cursor) : Decidable (atViewLineStart v c) := by
  unfold atViewLineStart
  infer_instance

/-- The invariant of the cache of `maxStartPos`: it is unset, or it holds the
position a fresh computation gives. -/
def cacheCoherent (v : View) (s : ViewState) : Prop :=
  s.m_cachedMaxStartPos.line = -1 ∨ s.m_cachedMaxStartPos = freshMaxStartPos v s

instance (v : View) (s : ViewState) : Decidable (cacheCoherent v s) := by
  unfold cacheCoherent
  infer_instance

/-- The target of `scrollPos` once clamped: a negative line becomes line 0, a
position past `limit` becomes `limit`. -/
def clampedTarget (c limit : Cursor) : Cursor :=
  if Cursor.gt (lineAtLeastZero c) limit then limit else lineAtLeastZero c

/-- The state of a view of `v` after construction, a first `updateView` and a
`makeVisible` of the cursor at the start of the document. -/
def settledState (v : View) : ViewState :=
  makeVisible v (updateView v (initialState ⟨0, 0⟩ 0) true 0) ⟨0, 0⟩ false false false

/-- Number of rows of the viewport left blank below the last visible line when
the view starts at virtual line `start`, without word wrap: the rows displayed
minus the lines from `start` on. -/
def blankRowsBelow (v : View) (start : Int) : Int :=
  linesDisplayed v - (v.visibleLines - start)

/-! ## Calculating cursors -/

/-- What the calculating cursors read of the document, the configuration, the
widget and the line layouts. -/
structure CursorDoc where
  /-- Value of `doc()->lines()`. -/
  lines : Int
  /-- Value of `doc()->lineLength(line)`, which is also `thisLine->length()`. -/
  lineLength : Int → Int
  /-- Value of `view()->wrapCursor()`. -/
  wrapCursor : Bool
  /-- Value of `view()->dynWordWrap()`. -/
  dynWordWrap : Bool
  /-- Value of `m_vi->width()`. -/
  width : Int
  /-- Value of `thisLine->widthOfLastLine()` for the layout of a line. -/
  widthOfLastLine : Int → Int
  /-- Value of `m_vi->renderer()->spaceWidth()`. -/
  spaceWidth : Int
  /-- Whether `m_vi->cache()->line(line)->isValid()`. -/
  layoutIsValid : Int → Bool
  /-- Value of `thisLine->layout()->nextCursorPosition(column)` on a line. -/
  nextCursorPosition : Int → Int → Int
  /-- Value of `thisLine->layout()->previousCursorPosition(column)` on a line. -/
  previousCursorPosition : Int → Int → Int

/-- Modelled from the spec: `qBound(lo, val, hi)` of the Qt library, the value
clamped to `[lo, hi]`, computed as `qMax(lo, qMin(hi, val))`. -/
def qBound (lo val hi : Int) : Int := max lo (min hi val)

namespace CalculatingCursor

/-- Embeds `CalculatingCursor::makeValid`. -/
def makeValid (d : CursorDoc) (c : Cursor) : Cursor :=
  let line := qBound 0 c.line (d.lines - 1)
  if d.wrapCursor then ⟨line, qBound 0 c.column (d.lineLength line)⟩
  else ⟨line, max 0 c.column⟩

/-- Embeds `CalculatingCursor::valid`. -/
def valid (d : CursorDoc) (c : Cursor) : Bool :=
  decide (c.line ≥ 0) && decide (c.line < d.lines) && decide (c.column ≥ 0)
    && (!d.wrapCursor || decide (c.column ≤ d.lineLength c.line))

end CalculatingCursor

namespace BoundedCursor

/-- The loop of `BoundedCursor::operator+=` for `n >= 0`: the column after
`steps` more rounds, from `column` and with `maxColumn` as computed so far. -/
def forward (d : CursorDoc) (line : Int) : Nat → Int → Int → Int
  | 0, column, _ => column
  | steps + 1, column, maxColumn =>
    if column ≥ d.lineLength line then
      if d.wrapCursor then column
      else if d.dynWordWrap then
        let maxColumn :=
          if maxColumn = -1 then
            d.lineLength line + (d.width - d.widthOfLastLine line).tdiv d.spaceWidth - 1
          else maxColumn
        if column ≥ maxColumn then maxColumn
        else forward d line steps (column + 1) maxColumn
      else forward d line steps (column + 1) maxColumn
    else forward d line steps (d.nextCursorPosition line column) maxColumn

/-- The loop of `BoundedCursor::operator+=` for `n < 0`. -/
def backward (d : CursorDoc) (line : Int) : Nat → Int → Int
  | 0, column => column
  | steps + 1, column =>
    if column ≥ d.lineLength line then backward d line steps (column - 1)
    else if column = 0 then column
    else backward d line steps (d.previousCursorPosition line column)

/-- Embeds `BoundedCursor::operator+=`. -/
def add (d : CursorDoc) (c : Cursor) (n : Int) : Cursor :=
  if !d.layoutIsValid c.line then c
  else if n ≥ 0 then ⟨c.line, forward d c.line n.toNat c.column (-1)⟩
  else ⟨c.line, backward d c.line (-n).toNat c.column⟩

end BoundedCursor

namespace WrappingCursor

/-- The loop of `WrappingCursor::operator+=` for `n >= 0`; it ends early where
the next line has no valid layout. -/
def forward (d : CursorDoc) : Nat → Cursor → Cursor
  | 0, c => c
  | steps + 1, c =>
    if c.column ≥ d.lineLength c.line then
      if c.line ≥ d.lines - 1 then c
      else if !d.layoutIsValid (c.line + 1) then ⟨c.line + 1, 0⟩
      else forward d steps ⟨c.line + 1, 0⟩
    else forward d steps ⟨c.line, d.nextCursorPosition c.line c.column⟩

/-- The loop of `WrappingCursor::operator+=` for `n < 0`; it ends early where
the line before has no valid layout. -/
def backward (d : CursorDoc) : Nat → Cursor → Cursor
  | 0, c => c
  | steps + 1, c =>
    if c.column = 0 then
      if c.line = 0 then c
      else if !d.layoutIsValid (c.line - 1) then ⟨c.line - 1, c.column⟩
      else backward d steps ⟨c.line - 1, d.lineLength (c.line - 1)⟩
    else if c.column > d.lineLength c.line then backward d steps ⟨c.line, c.column - 1⟩
    else backward d steps ⟨c.line, d.previousCursorPosition c.line c.column⟩

/-- Embeds `WrappingCursor::operator+=`. -/
def add (d : CursorDoc) (c : Cursor) (n : Int) : Cursor :=
  if !d.layoutIsValid c.line then c
  else if n ≥ 0 then forward d n.toNat c
  else backward d (-n).toNat c

end WrappingCursor

/-- The invariant of the document and its layouts the calculating cursors rely
on: no line has a negative length, and the cursor positions a layout names lie
within the line. -/
def cursorDocOk (d : CursorDoc) : Prop :=
  (∀ l : Int, 0 ≤ l → l < d.lines → 0 ≤ d.lineLength l) ∧
  (∀ l col : Int, 0 ≤ d.nextCursorPosition l col ∧
    d.nextCursorPosition l col ≤ d.lineLength l) ∧
  (∀ l col : Int, 0 ≤ d.previousCursorPosition l col ∧
    d.previousCursorPosition l col ≤ d.lineLength l)

/-- A document of three lines of lengths 5, 0 and 5, where the cursor
positions of a line are its columns. -/
def threeLines (wrapCursor dynWordWrap : Bool) : CursorDoc :=
  { lines := 3
    lineLength := (fun l => if l = 1 then 0 else 5)
    wrapCursor := wrapCursor
    dynWordWrap := dynWordWrap
    width := 400
    widthOfLastLine := (fun l => if l = 1 then 0 else 40)
    spaceWidth := 8
    layoutIsValid := (fun _ => true)
    nextCursorPosition := (fun l col => max 0 (min (if l = 1 then 0 else 5) (col + 1)))
    previousCursorPosition := (fun l col => max 0 (min (if l = 1 then 0 else 5) (col - 1))) }

/-! ## Selection -/

/-- Modelled from the spec: `KTextEditor::Cursor::isValid()`, neither the line
nor the column is negative. -/
def Cursor.isValid (c : Cursor) : Bool := decide (c.line ≥ 0) && decide (c.column ≥ 0)

/-- Modelled from the spec: `KTextEditor::Range` (its header is not part of the
sources at hand), a start and an end position with `start <= end`. -/
structure Range where
  start : Cursor
  end_ : Cursor
deriving DecidableEq, Repr

namespace Range

/-- Modelled from the spec: the constructor `Range(start, end)`, which orders
its two cursors (`qMin`, `qMax`). -/
def of (a b : Cursor) : Range := if Cursor.lt a b then ⟨a, b⟩ else ⟨b, a⟩

/-- Modelled from the spec: `Range::invalid()`. -/
def invalid : Range := ⟨Cursor.invalid, Cursor.invalid⟩

/-- Modelled from the spec: `Range::isValid()`. -/
def isValid (r : Range) : Bool := r.start.isValid && r.end_.isValid

/-- Modelled from the spec: `Range::setStart`, which moves the end along when
the new start lies behind it. -/
def setStart (r : Range) (start : Cursor) : Range :=
  if Cursor.gt start r.end_ then ⟨start, start⟩ else ⟨start, r.end_⟩

/-- Modelled from the spec: `Range::setEnd`, which moves the start along when
the new end lies before it. -/
def setEnd (r : Range) (e : Cursor) : Range :=
  if Cursor.lt e r.start then ⟨e, e⟩ else ⟨r.start, e⟩

/-- Modelled from the spec: `Range::contains(cursor)`. -/
def contains (r : Range) (c : Cursor) : Bool := Cursor.le r.start c && Cursor.lt c r.end_

/-- Modelled from the spec: `Range::boundaryAtCursor(cursor)`. -/
def boundaryAtCursor (r : Range) (c : Cursor) : Bool :=
  decide (c = r.start) || decide (c = r.end_)

/-- Modelled from the spec: `Range::contains(range)`. -/
def containsRange (r x : Range) : Bool := Cursor.le r.start x.start && Cursor.le x.end_ r.end_

end Range

/-- What `updateSelection` reads of the document, the configuration and the
view. -/
structure SelectionDoc where
  /-- Value of `doc()->lines()`. -/
  lines : Int
  /-- Value of `doc()->lineLength(line)`, the length of `doc()->line(line)`. -/
  lineLength : Int → Int
  /-- Value of `doc()->highlight()->isInWord(l->at(column))` for the text line
  `l` of a line. -/
  isInWord : Int → Int → Bool
  /-- Value of `view()->config()->persistentSelection()`. -/
  persistentSelection : Bool
  /-- Value of `endLine()`. -/
  endLine : Int

/-- The values of `KateViewInternal::SelectionMode`. -/
inductive SelectionMode where
  | Default
  | Mouse
  | Word
  | Line
deriving DecidableEq, Repr

/-- The state `updateSelection` works on: members of `KateViewInternal`, the
selection of the view (`view()->selectionRange()`, invalid when there is none)
and the primary cursor. -/
structure SelectionState where
  m_selectAnchor : Cursor
  m_selectionCached : Range
  m_selectionMode : SelectionMode
  m_selChangedByUser : Bool
  m_possibleTripleClick : Bool
  selection : Range
  primaryCursor : Cursor
deriving DecidableEq, Repr

/-- The loop `for (; c < l->length(); c++) if (!isInWord(l->at(c))) break;` of
`updateSelection`: the value of `c` after it, `steps` rounds at most. -/
def wordEndScan (d : SelectionDoc) (line : Int) : Nat → Int → Int
  | 0, c => c
  | steps + 1, c =>
    if c < d.lineLength line then
      if !d.isInWord line c then c else wordEndScan d line steps (c + 1)
    else c

/-- The loop `for (...; c >= 0; c--) if (!isInWord(l->at(c))) break;` of
`updateSelection`: the value of `c` after it, `steps` rounds at most. -/
def wordStartScan (d : SelectionDoc) (line : Int) : Nat → Int → Int
  | 0, c => c
  | steps + 1, c =>
    if c ≥ 0 then
      if !d.isInWord line c then c else wordStartScan d line steps (c - 1)
    else c

/-- The end of `updateSelection`: select from the anchor to the new cursor, or
restore the cached selection. -/
def finishSelection (st : SelectionState) (doSelect : Bool) (newCursor : Cursor) :
    SelectionState :=
  if doSelect then { st with selection := Range.of st.m_selectAnchor newCursor }
  else if st.m_selectionCached.isValid then { st with selection := st.m_selectionCached }
  else st

/-- The case `Word` of `updateSelection`. -/
def updateSelectionWord (d : SelectionDoc) (st : SelectionState) (newCursor : Cursor) :
    SelectionState :=
  let st :=
    if !st.m_selectionCached.isValid then
      { st with m_selectionCached := st.m_selectionCached.setStart st.m_selectionCached.end_ }
    else st
  if Cursor.gt newCursor st.m_selectionCached.start then
    let st := { st with m_selectAnchor := st.m_selectionCached.start }
    let c := newCursor.column
    let c :=
      if decide (c > 0) && d.isInWord newCursor.line (c - 1) then
        wordEndScan d newCursor.line (d.lineLength newCursor.line - c).toNat c
      else c
    finishSelection st true ⟨newCursor.line, c⟩
  else if Cursor.lt newCursor st.m_selectionCached.start then
    let st := { st with m_selectAnchor := st.m_selectionCached.end_ }
    let c := newCursor.column
    let newCursor : Cursor :=
      if decide (c > 0) && decide (c < d.lineLength newCursor.line)
          && d.isInWord newCursor.line c && d.isInWord newCursor.line (c - 1) then
        ⟨newCursor.line, wordStartScan d newCursor.line (c - 1).toNat (c - 2) + 1⟩
      else newCursor
    finishSelection st true newCursor
  else finishSelection st false newCursor

/-- The case `Line` of `updateSelection`. -/
def updateSelectionLine (d : SelectionDoc) (st : SelectionState) (newCursor : Cursor) :
    SelectionState :=
  let st :=
    if !st.m_selectionCached.isValid then
      { st with m_selectionCached := Range.of ⟨d.endLine, 0⟩ ⟨d.endLine, 0⟩ }
    else st
  if newCursor.line > st.m_selectionCached.start.line then
    let newCursor : Cursor :=
      if newCursor.line + 1 ≥ d.lines then ⟨newCursor.line, d.lineLength newCursor.line⟩
      else ⟨newCursor.line + 1, 0⟩
    let st := { st with m_selectAnchor := ⟨st.m_selectionCached.start.line, 0⟩ }
    finishSelection st true newCursor
  else if newCursor.line < st.m_selectionCached.start.line then
    let newCursor : Cursor := ⟨newCursor.line, 0⟩
    let anchor := st.m_selectionCached.end_
    let anchor : Cursor :=
      if anchor.column > 0 then
        if anchor.line + 1 ≥ d.lines then ⟨anchor.line, d.lineLength newCursor.line⟩
        else ⟨anchor.line + 1, 0⟩
      else anchor
    let st := { st with m_selectAnchor := anchor }
    finishSelection st true newCursor
  else finishSelection st false newCursor

/-- The case `Mouse` of `updateSelection`. -/
def updateSelectionMouse (st : SelectionState) (newCursor : Cursor) : SelectionState :=
  if !st.m_selectionCached.isValid then finishSelection st true newCursor
  else if Cursor.gt newCursor st.m_selectionCached.end_ then
    finishSelection { st with m_selectAnchor := st.m_selectionCached.start } true newCursor
  else if Cursor.lt newCursor st.m_selectionCached.start then
    finishSelection { st with m_selectAnchor := st.m_selectionCached.end_ } true newCursor
  else finishSelection st false newCursor

/-- The first test of `updateSelection` with `keepSel`: there is no selection,
or no anchor, or the selection is persistent and the primary cursor is neither
in it nor at its boundaries; a new selection then starts at the cursor. -/
def startsSelection (d : SelectionDoc) (st : SelectionState) : Bool :=
  !st.selection.isValid || decide (st.m_selectAnchor.line = -1)
    || (d.persistentSelection
        && !(st.selection.contains st.primaryCursor
              || st.selection.boundaryAtCursor st.primaryCursor))

/-- Embeds `KateViewInternal::updateSelection`. -/
def updateSelection (d : SelectionDoc) (st : SelectionState) (newCursor : Cursor)
    (keepSel : Bool) : SelectionState :=
  if keepSel then
    let st :=
      if startsSelection d st then { st with m_selectAnchor := st.primaryCursor }
      else
        match st.m_selectionMode with
        | SelectionMode.Word => updateSelectionWord d st newCursor
        | SelectionMode.Line => updateSelectionLine d st newCursor
        | SelectionMode.Mouse => updateSelectionMouse st newCursor
        | SelectionMode.Default => finishSelection st true newCursor
    { st with m_selChangedByUser := true }
  else if !d.persistentSelection then
    { st with
      selection := Range.invalid
      m_selectionCached := Range.invalid
      m_selectAnchor := Cursor.invalid }
  else st

/-- Modelled from the spec: `ViewPrivate::selectLine`, which selects the whole
line of the cursor: up to the start of the next line, or up to the end of the
line on the last line of the document. -/
def selectLine (d : SelectionDoc) (st : SelectionState) (cursor : Cursor) : SelectionState :=
  if cursor.line + 1 ≥ d.lines then
    { st with selection := Range.of ⟨cursor.line, 0⟩ ⟨cursor.line, d.lineLength cursor.line⟩ }
  else { st with selection := Range.of ⟨cursor.line, 0⟩ ⟨cursor.line + 1, 0⟩ }

/-- Embeds `KateViewInternal::moveCursorToSelectionEdge`. -/
def moveCursorToSelectionEdge (st : SelectionState) : SelectionState :=
  if !st.selection.isValid then st
  else if Cursor.lt st.selection.start st.m_selectAnchor then
    { st with primaryCursor := st.selection.start }
  else { st with primaryCursor := st.selection.end_ }

/-- The triple-click branch of `KateViewInternal::mousePressEvent`, up to the
clipboard and the scroll timer.  The slot `viewSelectionChanged`, which the
selection of the line triggers, is left out: it sets the anchor to the start of
the selection and unsets the start of the cached selection, both of which the
branch sets itself right after. -/
def tripleClick (d : SelectionDoc) (st : SelectionState) (shift : Bool) : SelectionState :=
  let st := { st with m_selChangedByUser := false }
  let st := { st with m_possibleTripleClick := false }
  let st := { st with m_selectionMode := SelectionMode.Line }
  let st :=
    if shift then updateSelection d st st.primaryCursor true
    else
      let st := selectLine d st st.primaryCursor
      if st.selection.isValid then { st with m_selectAnchor := st.selection.start } else st
  let st :=
    if st.m_selectAnchor.line > st.selection.start.line then
      let cached :=
        if st.m_selectAnchor = st.selection.end_ ∧ st.m_selectAnchor.column = 0 then
          st.m_selectionCached.setStart ⟨st.m_selectAnchor.line - 1, 0⟩
        else st.m_selectionCached.setStart ⟨st.m_selectAnchor.line, 0⟩
      { st with m_selectionCached := cached.setEnd st.selection.end_ }
    else
      let cached := st.m_selectionCached.setStart st.selection.start
      if st.selection.end_.line > st.selection.start.line then
        { st with m_selectionCached := cached.setEnd ⟨st.selection.start.line + 1, 0⟩ }
      else { st with m_selectionCached := cached.setEnd st.selection.end_ }
  moveCursorToSelectionEdge st

/-- A document of eight lines of ten columns, but for line 5 of three columns,
where the columns 2 to 5 of every line hold word characters. -/
def eightLines (persistentSelection : Bool) : SelectionDoc :=
  { lines := 8
    lineLength := (fun l => if l = 5 then 3 else 10)
    isInWord := (fun _ col => decide (2 ≤ col) && decide (col ≤ 5))
    persistentSelection := persistentSelection
    endLine := 7 }

/-- A view without a selection, its primary cursor at `cursor`. -/
def noSelection (cursor : Cursor) : SelectionState :=
  { m_selectAnchor := Cursor.invalid
    m_selectionCached := Range.invalid
    m_selectionMode := SelectionMode.Default
    m_selChangedByUser := false
    m_possibleTripleClick := true
    selection := Range.invalid
    primaryCursor := cursor }

/-- A view whose selection is the whole of line 2, selected and cached in mode
`Line`, while the primary cursor stands at `cursor`. -/
def lineTwoSelected (cursor : Cursor) : SelectionState :=
  { m_selectAnchor := ⟨2, 0⟩
    m_selectionCached := ⟨⟨2, 0⟩, ⟨3, 0⟩⟩
    m_selectionMode := SelectionMode.Line
    m_selChangedByUser := false
    m_possibleTripleClick := false
    selection := ⟨⟨2, 0⟩, ⟨3, 0⟩⟩
    primaryCursor := cursor }

/-- A view whose selection is the word in the columns 2 to 5 of line 3, selected
and cached in mode `Word`, while the primary cursor stands at `cursor`. -/
def wordSelected (cursor : Cursor) : SelectionState :=
  { m_selectAnchor := ⟨3, 2⟩
    m_selectionCached := ⟨⟨3, 2⟩, ⟨3, 6⟩⟩
    m_selectionMode := SelectionMode.Word
    m_selChangedByUser := false
    m_possibleTripleClick := false
    selection := ⟨⟨3, 2⟩, ⟨3, 6⟩⟩
    primaryCursor := cursor }

/-! ## Dirty regions -/

/-- Modelled from the spec: `QRect(x, y, width, height)` of the Qt library. -/
structure Rect where
  x : Int
  y : Int
  width : Int
  height : Int
deriving DecidableEq, Repr

/-- Modelled from the spec: `QRect::isEmpty()`, a rectangle without a pixel. -/
def Rect.isEmpty (r : Rect) : Bool := decide (r.width ≤ 0) || decide (r.height ≤ 0)

/-- The loop of `KateViewInternal::updateDirty` over the dirty flags of the rows
of the view cache, with the test that follows it: the rectangles added to
`updateRegion`, in order.  `i` is the row the loop stands at, `h` the line
height and `w` the width of the widget. -/
def updateDirtyScan (h w : Int) : List Bool → Int → Int → Int → List Rect
  | [], _, currentRectStart, currentRectEnd =>
    if currentRectStart ≠ -1 then [⟨0, currentRectStart, w, currentRectEnd⟩] else []
  | isDirty :: rows, i, currentRectStart, currentRectEnd =>
    if isDirty then
      if currentRectStart = -1 then updateDirtyScan h w rows (i + 1) (h * i) h
      else updateDirtyScan h w rows (i + 1) currentRectStart (currentRectEnd + h)
    else if currentRectStart ≠ -1 then
      ⟨0, currentRectStart, w, currentRectEnd⟩ :: updateDirtyScan h w rows (i + 1) (-1) (-1)
    else updateDirtyScan h w rows (i + 1) currentRectStart currentRectEnd

/-- Embeds `KateViewInternal::updateDirty`: the region handed to `update`, as
the rectangles it was built from, or `none` when the region is empty and no
update is requested. -/
def updateDirty (h w : Int) (dirty : List Bool) : Option (List Rect) :=
  let updateRegion := updateDirtyScan h w dirty 0 (-1) (-1)
  if updateRegion.all Rect.isEmpty then none else some updateRegion

/-- Whether row `k` of the view cache is dirty; a row the cache does not have is
not. -/
def dirtyAt (flags : List Bool) (k : Nat) : Bool := flags.getD k false

/-- The rows `i` to `j` are a maximal run of dirty rows: they are all dirty, and
neither the row before `i` nor the row after `j` is. -/
def isMaximalRun (flags : List Bool) (i j : Nat) : Prop :=
  i ≤ j ∧ (∀ k, i ≤ k → k < j + 1 → dirtyAt flags k = true) ∧
    (i = 0 ∨ dirtyAt flags (i - 1) = false) ∧ dirtyAt flags (j + 1) = false

instance (flags : List Bool) (i j : Nat) : Decidable (isMaximalRun flags i j) := by
  unfold isMaximalRun; infer_instance

/-- The runs of dirty rows read off a list of flags from left to right: `i` is
the row of the first flag, `start` the first row of a run that is open. -/
def runsFrom : List Bool → Nat → Option Nat → List (Nat × Nat)
  | [], _, none => []
  | [], i, some s => [(s, i - 1)]
  | true :: rest, i, none => runsFrom rest (i + 1) (some i)
  | true :: rest, i, some s => runsFrom rest (i + 1) (some s)
  | false :: rest, i, none => runsFrom rest (i + 1) none
  | false :: rest, i, some s => (s, i - 1) :: runsFrom rest (i + 1) none

/-- The rectangle of the rows `p.1` to `p.2` at line height `h` and width `w`. -/
def runRect (h w : Int) (p : Nat × Nat) : Rect := ⟨0, h * p.1, w, h * (p.2 - p.1 + 1)⟩

/-- What the scan knows of the rows before row `i`: an open run starts at `s`,
all rows from `s` on are dirty and the row before `s` is not; without an open
run the row before `i` is not dirty. -/
def runsInv (flags : List Bool) (i : Nat) : Option Nat → Prop
  | none => i = 0 ∨ dirtyAt flags (i - 1) = false
  | some s => s < i ∧ (∀ k, s ≤ k → k < i → dirtyAt flags k = true) ∧
      (s = 0 ∨ dirtyAt flags (s - 1) = false)

/-! ## Coordinates -/

/-- Modelled from the spec: `QPoint(x, y)` of the Qt library. -/
structure Point where
  x : Int
  y : Int
deriving DecidableEq, Repr

/-- What the coordinate functions read of the renderer, the view and the border
widget. -/
structure Geometry where
  /-- Value of `layout.lineLayout().cursorToX(column)`. -/
  cursorToX : TextLayout → Int → Int
  /-- Value of `renderer()->xToCursor(layout, x, returnPastLine)`. -/
  xToCursor : TextLayout → Int → Bool → Cursor
  /-- Value of `m_leftBorder->width()`. -/
  leftBorderWidth : Int
  /-- Value of `startX()`. -/
  startX : Int
  /-- Value of `view()->wrapCursor()`. -/
  wrapCursor : Bool

/-- Modelled from the spec: `KateTextLayout::isValid()`; `line()` is `-1` for
the layouts that are not valid and for no other. -/
def TextLayout.isValid (t : TextLayout) : Bool := decide (t.line ≠ -1)

/-- Modelled from the spec: `KateLayoutCache::displayViewLine(c, true)`, the row
of a virtual cursor relative to the first row of the view cache, limited to the
visible rows: `-1` for an invalid cursor and for a row that is negative or
greater than the number of rows of the view cache. -/
def displayViewLineLimited (v : View) (s : ViewState) (c : Cursor) : Int :=
  if c.line < 0 ∨ c.column < 0 then -1
  else
    let work := viewCacheStart s
    if work.line < 0 ∨ work.column < 0 then c.line
    else
      let ret := if !v.dynWordWrap then c.line - work.line else rowOf v c - rowOf v work
      if ret < 0 ∨ ret > viewCacheLineCount s then -1 else ret

/-- Embeds `KateViewInternal::cursorToCoordinate`. -/
def cursorToCoordinate (v : View) (s : ViewState) (g : Geometry) (cursor : Cursor)
    (realCursor includeBorder : Bool) : Point :=
  if cursor.line ≥ v.lines then ⟨-1, -1⟩
  else
    let viewLine :=
      displayViewLineLimited v s (if realCursor then toVirtualCursor v cursor else cursor)
    if viewLine < 0 ∨ viewLine ≥ viewCacheLineCount s then ⟨-1, -1⟩
    else
      let y := viewLine * v.lineHeight
      let layout := cacheRow s viewLine.toNat
      if cursor.column > v.lineLength cursor.line then ⟨-1, -1⟩
      else
        let x := if layout.isValid then g.cursorToX layout cursor.column else 0
        let x := if includeBorder then x + g.leftBorderWidth else x
        let x := x - g.startX
        ⟨x, y⟩

/-- Embeds `KateViewInternal::yToKateTextLayout`.  With a line height of 0 the
source divides by zero; `Int.tdiv` gives 0 there. -/
def yToKateTextLayout (v : View) (s : ViewState) (y : Int) : TextLayout :=
  if y < 0 ∨ y > v.height then TextLayout.invalid
  else
    let range := y.tdiv v.lineHeight
    if range ≥ 0 ∧ range < viewCacheLineCount s then cacheRow s range.toNat
    else TextLayout.invalid

/-- Embeds `KateViewInternal::coordinatesToCursor`. -/
def coordinatesToCursor (v : View) (s : ViewState) (g : Geometry) (coord : Point)
    (includeBorder : Bool) : Cursor :=
  let coord : Point := if includeBorder then ⟨coord.x - g.leftBorderWidth, coord.y⟩ else coord
  let coord : Point := ⟨coord.x + g.startX, coord.y⟩
  let thisLine := yToKateTextLayout v s coord.y
  let ret :=
    if thisLine.isValid then g.xToCursor thisLine coord.x (!g.wrapCursor) else Cursor.invalid
  if ret.column > v.lineLength ret.line then Cursor.invalid else ret

/-- A renderer of characters ten pixels wide, next to a border of 30 pixels,
with the view scrolled 5 pixels to the right. -/
def plainGeometry : Geometry :=
  { cursorToX := (fun t column => 10 * (column - t.startCol))
    xToCursor := (fun t x _ => ⟨t.line, t.startCol + x.tdiv 10⟩)
    leftBorderWidth := 30
    startX := 5
    wrapCursor := true }

/-! ## Ranges and the view -/

/-- Embeds `KateViewInternal::rangeAffectsView`. -/
def rangeAffectsView (v : View) (s : ViewState) (range : Range) (realCursors : Bool) : Bool :=
  let first := startLine s
  let last := first + s.m_visibleLineCount
  let first := if realCursors then v.visibleLineToLine first else first
  let last := if realCursors then v.visibleLineToLine last else last
  decide (range.end_.line ≥ first) || decide (range.start.line ≤ last)

/-- A view that shows `count` lines from virtual line `first` on. -/
def windowState (first count : Int) : ViewState :=
  { initialState ⟨first, 0⟩ 0 with m_visibleLineCount := count }

/-- A view whose selection `(3, 2)` to `(3, 6)` was made and cached in mode
`Mouse`, while the primary cursor stands at `cursor`. -/
def mouseSelected (cursor : Cursor) : SelectionState :=
  { wordSelected cursor with m_selectionMode := SelectionMode.Mouse }

/-! ## Margins and edit sessions -/

/-- Outward effects of the end of an edit session: calls into the widget layer
and signals. -/
inductive EditEffect where
  | tagAll
  | tagLines (start end_ : Int) (realLines : Bool)
  | updateBracketMarks
  | notifyPrimaryCursorChanged (c : Cursor)
  | selectionChanged
deriving DecidableEq, Repr

/-- The state of a `KateViewInternal`: the state of the scroll controller, the
members of the edit sessions and of the margins, the primary cursor and the
selection of the view (`view()->selectionRange()`). -/
structure ViewInternal where
  view : ViewState
  m_autoCenterLines : Int
  editSessionNumber : Int
  editIsRunning : Bool
  editOldCursor : Cursor
  editOldSelection : Range
  primaryCursor : Cursor
  selection : Range
  /-- effects of edit sessions issued so far, oldest first -/
  editEffects : List EditEffect
deriving DecidableEq, Repr

/-- Embeds `KateViewInternal::setAutoCenterLines`. -/
def setAutoCenterLines (v : View) (k : ViewInternal) (viewLines : Int) (update : Bool) :
    ViewInternal :=
  let k := { k with m_autoCenterLines := viewLines }
  let k := { k with
    view := { k.view with
      m_minLinesVisible := min ((linesDisplayed v - 1).tdiv 2) k.m_autoCenterLines } }
  if update then { k with view := updateView v k.view false 0 } else k

/-- Embeds `KateViewInternal::editStart`. -/
def editStart (k : ViewInternal) : ViewInternal :=
  let k := { k with editSessionNumber := k.editSessionNumber + 1 }
  if k.editSessionNumber > 1 then k
  else
    { k with
      editIsRunning := true
      editOldCursor := k.primaryCursor
      editOldSelection := k.selection }

/-- The start column `editEnd` gives the start position: with dynamic word wrap
the start of the view line of the old start column, where `cache()->line` is
asked for the layout of line `startLine()`; column 0 otherwise. -/
def editEndColumn (v : View) (s : ViewState) : Int :=
  if v.dynWordWrap then
    if hasLayout v (startLine s) then
      let index := (segIndex (segments v (startLine s)) (startPos s).column : Int)
      if index ≥ 0 ∧ index < viewLineCount v (startLine s) then startCol v (startLine s) index
      else 0
    else 0
  else 0

/-- Modelled from the spec: `KTextEditor::Range::isEmpty()`. -/
def Range.isEmpty (r : Range) : Bool := decide (r.start = r.end_)

/-- The tagging step of `editEnd`: everything is tagged when the lines from a
line at or before the start line on changed, the changed lines otherwise. -/
def editEndTag (v : View) (k : ViewInternal) (editTagLineStart editTagLineEnd : Int)
    (tagFrom : Bool) : ViewInternal :=
  if tagFrom && decide (editTagLineStart ≤ v.visibleLineToLine (startLine k.view)) then
    { k with editEffects := k.editEffects ++ [EditEffect.tagAll] }
  else
    { k with
      editEffects := k.editEffects ++
        [EditEffect.tagLines editTagLineStart
          (if tagFrom then max (v.lines - 1 + 1) editTagLineEnd else editTagLineEnd) true] }

/-- The step of `editEnd` that updates the bracket marks when the cursor did
not move. -/
def editEndBrackets (k : ViewInternal) : ViewInternal :=
  if k.editOldCursor = k.primaryCursor then
    { k with editEffects := k.editEffects ++ [EditEffect.updateBracketMarks] }
  else k

/-- The step of `editEnd` that scrolls to the cursor when the edit happened at
the cursor.  `isActiveView` is the value of `m_view == doc()->activeView()`;
what `notifyPrimaryCursorChanged` does to the view is left to the effect. -/
def editEndNotify (k : ViewInternal) (editTagLineStart editTagLineEnd : Int)
    (isActiveView : Bool) : ViewInternal :=
  if (decide (k.editOldCursor ≠ k.primaryCursor) || isActiveView)
      && (decide (k.primaryCursor.line ≥ editTagLineStart)
          && decide (k.primaryCursor.line ≤ editTagLineEnd)) then
    { k with
      view := { k.view with m_madeVisible := false }
      editEffects := k.editEffects ++ [EditEffect.notifyPrimaryCursorChanged k.primaryCursor] }
  else k

/-- The step of `editEnd` that emits `selectionChanged`. -/
def editEndSelection (k : ViewInternal) (editTagLineStart editTagLineEnd : Int) :
    ViewInternal :=
  if decide (k.editOldSelection ≠ k.selection)
      || (k.editOldSelection.isValid && !k.editOldSelection.isEmpty
          && !(decide (editTagLineStart > k.editOldSelection.end_.line)
                && decide (editTagLineEnd < k.editOldSelection.start.line))) then
    { k with editEffects := k.editEffects ++ [EditEffect.selectionChanged] }
  else k

/-- What `editEnd` does once the depth is back at 0. -/
def editEndOutermost (v : View) (k : ViewInternal) (editTagLineStart editTagLineEnd : Int)
    (tagFrom isActiveView : Bool) : ViewInternal :=
  let col := editEndColumn v k.view
  let k := { k with view := { k.view with m_startPos := ⟨startLine k.view, col⟩ } }
  let k := editEndTag v k editTagLineStart editTagLineEnd tagFrom
  let k := editEndBrackets k
  let k := { k with view := updateView v k.view true 0 }
  let k := editEndNotify k editTagLineStart editTagLineEnd isActiveView
  let k := editEndSelection k editTagLineStart editTagLineEnd
  { k with editIsRunning := false }

/-- Embeds `KateViewInternal::editEnd`. -/
def editEnd (v : View) (k : ViewInternal) (editTagLineStart editTagLineEnd : Int)
    (tagFrom isActiveView : Bool) : ViewInternal :=
  if k.editSessionNumber = 0 then k
  else
    let k := { k with editSessionNumber := k.editSessionNumber - 1 }
    if k.editSessionNumber > 0 then k
    else editEndOutermost v k editTagLineStart editTagLineEnd tagFrom isActiveView

/-- A call of `editStart` or of `editEnd`, with its arguments. -/
inductive EditCall where
  | editStart
  | editEnd (editTagLineStart editTagLineEnd : Int) (tagFrom : Bool)
deriving DecidableEq, Repr

/-- The state after a sequence of calls of `editStart` and `editEnd`. -/
def runEditCalls (v : View) (isActiveView : Bool) : List EditCall → ViewInternal → ViewInternal
  | [], k => k
  | EditCall.editStart :: rest, k => runEditCalls v isActiveView rest (editStart k)
  | EditCall.editEnd a b tagFrom :: rest, k =>
    runEditCalls v isActiveView rest (editEnd v k a b tagFrom isActiveView)

/-- A `KateViewInternal` right after construction, with the cursor at the start
of the document and no selection. -/
def initialInternal : ViewInternal :=
  { view := initialState ⟨0, 0⟩ 0
    m_autoCenterLines := 0
    editSessionNumber := 0
    editIsRunning := false
    editOldCursor := ⟨0, 0⟩
    editOldSelection := Range.invalid
    primaryCursor := ⟨0, 0⟩
    selection := Range.invalid
    editEffects := [] }

/-! ## Configuration -/

/-- The members of the base class `KateConfig`, with the number of calls of the
virtual `updateConfig()` so far. -/
structure KateConfig where
  configSessionNumber : Int
  configIsRunning : Bool
  updateConfigCalls : Nat
deriving DecidableEq, Repr

namespace KateConfig

/-- Embeds `KateConfig::configStart`. -/
def configStart (c : KateConfig) : KateConfig :=
  let c := { c with configSessionNumber := c.configSessionNumber + 1 }
  if c.configSessionNumber > 1 then c else { c with configIsRunning := true }

/-- Embeds `KateConfig::configEnd`; the call of `updateConfig()` is counted. -/
def configEnd (c : KateConfig) : KateConfig :=
  if c.configSessionNumber = 0 then c
  else
    let c := { c with configSessionNumber := c.configSessionNumber - 1 }
    if c.configSessionNumber > 0 then c
    else
      let c := { c with configIsRunning := false }
      { c with updateConfigCalls := c.updateConfigCalls + 1 }

/-- A config object right after construction. -/
def fresh : KateConfig :=
  { configSessionNumber := 0, configIsRunning := false, updateConfigCalls := 0 }

end KateConfig

/-- A call of `configStart` or of `configEnd`. -/
inductive ConfigCall where
  | configStart
  | configEnd
deriving DecidableEq, Repr

/-- The state after a sequence of calls of `configStart` and `configEnd`. -/
def runConfigCalls : List ConfigCall → KateConfig → KateConfig
  | [], c => c
  | ConfigCall.configStart :: rest, c => runConfigCalls rest c.configStart
  | ConfigCall.configEnd :: rest, c => runConfigCalls rest c.configEnd

/-- The number of calls of `configEnd` in a sequence of calls that bring the
depth from 1 to 0, for a sequence that starts at depth `depth`. -/
def closingEnds : List ConfigCall → Int → Nat
  | [], _ => 0
  | ConfigCall.configStart :: rest, depth => closingEnds rest (depth + 1)
  | ConfigCall.configEnd :: rest, depth =>
    if depth = 0 then closingEnds rest 0
    else if depth = 1 then closingEnds rest 0 + 1
    else closingEnds rest (depth - 1)

/-- Which config object a member function is called on: the global one,
`s_global`, or the one of a document or view. -/
inductive ConfigRef where
  | global
  | object
deriving DecidableEq, Repr

/-- Embeds `isGlobal()`, the test `s_global == this`. -/
def ConfigRef.isGlobal : ConfigRef → Bool
  | ConfigRef.global => true
  | ConfigRef.object => false

/-- The members of a `KateDocumentConfig` behind `tabWidth`, `indentationWidth`
and `wordWrapAt`. -/
structure KateDocumentConfig where
  base : KateConfig
  m_tabWidth : Int
  m_tabWidthSet : Bool
  m_indentationWidth : Int
  m_indentationWidthSet : Bool
  m_wordWrapAt : Int
  m_wordWrapAtSet : Bool
deriving DecidableEq, Repr

/-- The document configs at hand: the global one and the one of a document. -/
structure DocumentConfigs where
  s_global : KateDocumentConfig
  document : KateDocumentConfig
deriving DecidableEq, Repr

namespace DocumentConfigs

/-- The object a reference stands for. -/
def get (w : DocumentConfigs) : ConfigRef → KateDocumentConfig
  | ConfigRef.global => w.s_global
  | ConfigRef.object => w.document

/-- The configs after a change of the object a reference stands for. -/
def modify (w : DocumentConfigs) (this : ConfigRef)
    (f : KateDocumentConfig → KateDocumentConfig) : DocumentConfigs :=
  match this with
  | ConfigRef.global => { w with s_global := f w.s_global }
  | ConfigRef.object => { w with document := f w.document }

end DocumentConfigs

namespace KateDocumentConfig

/-- Embeds `KateDocumentConfig::tabWidth`; the call `s_global->tabWidth()` is on
the global object, where `isGlobal()` holds and the stored value is returned. -/
def tabWidth (w : DocumentConfigs) (this : ConfigRef) : Int :=
  if (w.get this).m_tabWidthSet || this.isGlobal then (w.get this).m_tabWidth
  else w.s_global.m_tabWidth

/-- Embeds `KateDocumentConfig::setTabWidth`. -/
def setTabWidth (w : DocumentConfigs) (this : ConfigRef) (tabWidth : Int) : DocumentConfigs :=
  if tabWidth < 1 then w
  else if (w.get this).m_tabWidthSet && decide ((w.get this).m_tabWidth = tabWidth) then w
  else
    let w := w.modify this (fun c => { c with base := c.base.configStart })
    let w := w.modify this (fun c => { c with m_tabWidthSet := true })
    let w := w.modify this (fun c => { c with m_tabWidth := tabWidth })
    w.modify this (fun c => { c with base := c.base.configEnd })

/-- Embeds `KateDocumentConfig::indentationWidth`. -/
def indentationWidth (w : DocumentConfigs) (this : ConfigRef) : Int :=
  if (w.get this).m_indentationWidthSet || this.isGlobal then (w.get this).m_indentationWidth
  else w.s_global.m_indentationWidth

/-- Embeds `KateDocumentConfig::setIndentationWidth`. -/
def setIndentationWidth (w : DocumentConfigs) (this : ConfigRef) (indentationWidth : Int) :
    DocumentConfigs :=
  if indentationWidth < 1 then w
  else if (w.get this).m_indentationWidthSet
      && decide ((w.get this).m_indentationWidth = indentationWidth) then w
  else
    let w := w.modify this (fun c => { c with base := c.base.configStart })
    let w := w.modify this (fun c => { c with m_indentationWidthSet := true })
    let w := w.modify this (fun c => { c with m_indentationWidth := indentationWidth })
    w.modify this (fun c => { c with base := c.base.configEnd })

/-- Embeds `KateDocumentConfig::wordWrapAt`. -/
def wordWrapAt (w : DocumentConfigs) (this : ConfigRef) : Int :=
  if (w.get this).m_wordWrapAtSet || this.isGlobal then (w.get this).m_wordWrapAt
  else w.s_global.m_wordWrapAt

/-- Embeds `KateDocumentConfig::setWordWrapAt`. -/
def setWordWrapAt (w : DocumentConfigs) (this : ConfigRef) (col : Int) : DocumentConfigs :=
  if col < 1 then w
  else if (w.get this).m_wordWrapAtSet && decide ((w.get this).m_wordWrapAt = col) then w
  else
    let w := w.modify this (fun c => { c with base := c.base.configStart })
    let w := w.modify this (fun c => { c with m_wordWrapAtSet := true })
    let w := w.modify this (fun c => { c with m_wordWrapAt := col })
    w.modify this (fun c => { c with base := c.base.configEnd })

/-- Embeds `KateDocumentConfig::readConfig`, for the settings at hand: the
values are those read from the config group. -/
def readConfig (w : DocumentConfigs) (this : ConfigRef)
    (tabWidth indentationWidth wordWrapAt : Int) : DocumentConfigs :=
  let w := w.modify this (fun c => { c with base := c.base.configStart })
  let w := setTabWidth w this tabWidth
  let w := setIndentationWidth w this indentationWidth
  let w := setWordWrapAt w this wordWrapAt
  w.modify this (fun c => { c with base := c.base.configEnd })

end KateDocumentConfig

/-- The members of a `KateViewConfig` behind `dynWordWrap`,
`dynWordWrapIndicators`, `showScrollbars`, `autoCenterLines`,
`persistentSelection` and `scrollPastEnd`. -/
structure KateViewConfig where
  base : KateConfig
  m_dynWordWrap : Bool
  m_dynWordWrapSet : Bool
  m_dynWordWrapIndicators : Int
  m_dynWordWrapIndicatorsSet : Bool
  m_showScrollbars : Int
  m_showScrollbarsSet : Bool
  m_autoCenterLines : Int
  m_autoCenterLinesSet : Bool
  m_persistentSelection : Bool
  m_persistentSelectionSet : Bool
  m_scrollPastEnd : Bool
  m_scrollPastEndSet : Bool
deriving DecidableEq, Repr

/-- The view configs at hand: the global one and the one of a view. -/
structure ViewConfigs where
  s_global : KateViewConfig
  view : KateViewConfig
deriving DecidableEq, Repr

namespace ViewConfigs

/-- The object a reference stands for. -/
def get (w : ViewConfigs) : ConfigRef → KateViewConfig
  | ConfigRef.global => w.s_global
  | ConfigRef.object => w.view

/-- The configs after a change of the object a reference stands for. -/
def modify (w : ViewConfigs) (this : ConfigRef) (f : KateViewConfig → KateViewConfig) :
    ViewConfigs :=
  match this with
  | ConfigRef.global => { w with s_global := f w.s_global }
  | ConfigRef.object => { w with view := f w.view }

end ViewConfigs

namespace KateViewConfig

/-- Embeds `KateViewConfig::dynWordWrap`. -/
def dynWordWrap (w : ViewConfigs) (this : ConfigRef) : Bool :=
  if (w.get this).m_dynWordWrapSet || this.isGlobal then (w.get this).m_dynWordWrap
  else w.s_global.m_dynWordWrap

/-- Embeds `KateViewConfig::setDynWordWrap`. -/
def setDynWordWrap (w : ViewConfigs) (this : ConfigRef) (wrap : Bool) : ViewConfigs :=
  if (w.get this).m_dynWordWrapSet && decide ((w.get this).m_dynWordWrap = wrap) then w
  else
    let w := w.modify this (fun c => { c with base := c.base.configStart })
    let w := w.modify this (fun c => { c with m_dynWordWrapSet := true })
    let w := w.modify this (fun c => { c with m_dynWordWrap := wrap })
    w.modify this (fun c => { c with base := c.base.configEnd })

/-- Embeds `KateViewConfig::dynWordWrapIndicators`. -/
def dynWordWrapIndicators (w : ViewConfigs) (this : ConfigRef) : Int :=
  if (w.get this).m_dynWordWrapIndicatorsSet || this.isGlobal then
    (w.get this).m_dynWordWrapIndicators
  else w.s_global.m_dynWordWrapIndicators

/-- Embeds `KateViewConfig::setDynWordWrapIndicators`. -/
def setDynWordWrapIndicators (w : ViewConfigs) (this : ConfigRef) (mode : Int) : ViewConfigs :=
  if (w.get this).m_dynWordWrapIndicatorsSet
      && decide ((w.get this).m_dynWordWrapIndicators = mode) then w
  else
    let w := w.modify this (fun c => { c with base := c.base.configStart })
    let w := w.modify this (fun c => { c with m_dynWordWrapIndicatorsSet := true })
    let w := w.modify this (fun c => { c with m_dynWordWrapIndicators := qBound 0 mode 80 })
    w.modify this (fun c => { c with base := c.base.configEnd })

/-- Embeds `KateViewConfig::showScrollbars`. -/
def showScrollbars (w : ViewConfigs) (this : ConfigRef) : Int :=
  if (w.get this).m_showScrollbarsSet || this.isGlobal then (w.get this).m_showScrollbars
  else w.s_global.m_showScrollbars

/-- Embeds `KateViewConfig::setShowScrollbars`. -/
def setShowScrollbars (w : ViewConfigs) (this : ConfigRef) (mode : Int) : ViewConfigs :=
  if (w.get this).m_showScrollbarsSet && decide ((w.get this).m_showScrollbars = mode) then w
  else
    let w := w.modify this (fun c => { c with base := c.base.configStart })
    let w := w.modify this (fun c => { c with m_showScrollbarsSet := true })
    let w := w.modify this (fun c => { c with m_showScrollbars := qBound 0 mode 80 })
    w.modify this (fun c => { c with base := c.base.configEnd })

/-- Embeds `KateViewConfig::autoCenterLines`. -/
def autoCenterLines (w : ViewConfigs) (this : ConfigRef) : Int :=
  if (w.get this).m_autoCenterLinesSet || this.isGlobal then (w.get this).m_autoCenterLines
  else w.s_global.m_autoCenterLines

/-- Embeds `KateViewConfig::setAutoCenterLines`. -/
def setAutoCenterLines (w : ViewConfigs) (this : ConfigRef) (lines : Int) : ViewConfigs :=
  if lines < 0 then w
  else if (w.get this).m_autoCenterLinesSet && decide ((w.get this).m_autoCenterLines = lines)
    then w
  else
    let w := w.modify this (fun c => { c with base := c.base.configStart })
    let w := w.modify this (fun c => { c with m_autoCenterLinesSet := true })
    let w := w.modify this (fun c => { c with m_autoCenterLines := lines })
    w.modify this (fun c => { c with base := c.base.configEnd })

/-- Embeds `KateViewConfig::persistentSelection`. -/
def persistentSelection (w : ViewConfigs) (this : ConfigRef) : Bool :=
  if (w.get this).m_persistentSelectionSet || this.isGlobal then
    (w.get this).m_persistentSelection
  else w.s_global.m_persistentSelection

/-- Embeds `KateViewConfig::setPersistentSelection`. -/
def setPersistentSelection (w : ViewConfigs) (this : ConfigRef) (enable : Bool) : ViewConfigs :=
  if (w.get this).m_persistentSelectionSet && decide ((w.get this).m_persistentSelection = enable)
    then w
  else
    let w := w.modify this (fun c => { c with base := c.base.configStart })
    let w := w.modify this (fun c => { c with m_persistentSelectionSet := true })
    let w := w.modify this (fun c => { c with m_persistentSelection := enable })
    w.modify this (fun c => { c with base := c.base.configEnd })

/-- Embeds `KateViewConfig::scrollPastEnd`. -/
def scrollPastEnd (w : ViewConfigs) (this : ConfigRef) : Bool :=
  if (w.get this).m_scrollPastEndSet || this.isGlobal then (w.get this).m_scrollPastEnd
  else w.s_global.m_scrollPastEnd

/-- Embeds `KateViewConfig::setScrollPastEnd`. -/
def setScrollPastEnd (w : ViewConfigs) (this : ConfigRef) (enable : Bool) : ViewConfigs :=
  if (w.get this).m_scrollPastEndSet && decide ((w.get this).m_scrollPastEnd = enable) then w
  else
    let w := w.modify this (fun c => { c with base := c.base.configStart })
    let w := w.modify this (fun c => { c with m_scrollPastEndSet := true })
    let w := w.modify this (fun c => { c with m_scrollPastEnd := enable })
    w.modify this (fun c => { c with base := c.base.configEnd })

end KateViewConfig

/-- The invariant of the session members of a config object: the depth is not
negative and `configIsRunning` is set exactly while it is positive. -/
def configOk (c : KateConfig) : Prop :=
  0 ≤ c.configSessionNumber ∧ (c.configIsRunning = true ↔ 0 < c.configSessionNumber)

instance (c : KateConfig) : Decidable (configOk c) := by
  unfold configOk; infer_instance

/-- Global and document config right after construction, with values as read
from an empty config group for the global one. -/
def freshDocumentConfigs : DocumentConfigs :=
  { s_global :=
      { base := KateConfig.fresh
        m_tabWidth := 4
        m_tabWidthSet := true
        m_indentationWidth := 4
        m_indentationWidthSet := true
        m_wordWrapAt := 80
        m_wordWrapAtSet := true }
    document :=
      { base := KateConfig.fresh
        m_tabWidth := 0
        m_tabWidthSet := false
        m_indentationWidth := 0
        m_indentationWidthSet := false
        m_wordWrapAt := 0
        m_wordWrapAtSet := false } }

/-- Global and view config right after construction, with values as read from
an empty config group for the global one. -/
def freshViewConfigs : ViewConfigs :=
  { s_global :=
      { base := KateConfig.fresh
        m_dynWordWrap := true
        m_dynWordWrapSet := true
        m_dynWordWrapIndicators := 1
        m_dynWordWrapIndicatorsSet := true
        m_showScrollbars := 0
        m_showScrollbarsSet := true
        m_autoCenterLines := 0
        m_autoCenterLinesSet := true
        m_persistentSelection := false
        m_persistentSelectionSet := true
        m_scrollPastEnd := false
        m_scrollPastEndSet := true }
    view :=
      { base := KateConfig.fresh
        m_dynWordWrap := false
        m_dynWordWrapSet := false
        m_dynWordWrapIndicators := 0
        m_dynWordWrapIndicatorsSet := false
        m_showScrollbars := 0
        m_showScrollbarsSet := false
        m_autoCenterLines := 0
        m_autoCenterLinesSet := false
        m_persistentSelection := false
        m_persistentSelectionSet := false
        m_scrollPastEnd := false
        m_scrollPastEndSet := false } }

/-- A call of one of the setters of a document config that test their
argument. -/
inductive DocumentSetterCall where
  | setTabWidth (this : ConfigRef) (tabWidth : Int)
  | setIndentationWidth (this : ConfigRef) (indentationWidth : Int)
  | setWordWrapAt (this : ConfigRef) (col : Int)
deriving DecidableEq, Repr

/-- The configs after a sequence of setter calls. -/
def runDocumentSetters : List DocumentSetterCall → DocumentConfigs → DocumentConfigs
  | [], w => w
  | DocumentSetterCall.setTabWidth this v :: rest, w =>
    runDocumentSetters rest (KateDocumentConfig.setTabWidth w this v)
  | DocumentSetterCall.setIndentationWidth this v :: rest, w =>
    runDocumentSetters rest (KateDocumentConfig.setIndentationWidth w this v)
  | DocumentSetterCall.setWordWrapAt this v :: rest, w =>
    runDocumentSetters rest (KateDocumentConfig.setWordWrapAt w this v)

/-- A call of one of the setters of a view config that test or bound their
argument. -/
inductive ViewSetterCall where
  | setAutoCenterLines (this : ConfigRef) (lines : Int)
  | setDynWordWrapIndicators (this : ConfigRef) (mode : Int)
  | setShowScrollbars (this : ConfigRef) (mode : Int)
deriving DecidableEq, Repr

/-- The configs after a sequence of setter calls. -/
def runViewSetters : List ViewSetterCall → ViewConfigs → ViewConfigs
  | [], w => w
  | ViewSetterCall.setAutoCenterLines this v :: rest, w =>
    runViewSetters rest (KateViewConfig.setAutoCenterLines w this v)
  | ViewSetterCall.setDynWordWrapIndicators this v :: rest, w =>
    runViewSetters rest (KateViewConfig.setDynWordWrapIndicators w this v)
  | ViewSetterCall.setShowScrollbars this v :: rest, w =>
    runViewSetters rest (KateViewConfig.setShowScrollbars w this v)

/-- The values a document config has set are in range: tab width, indentation
width and wrap column are at least 1. -/
def documentValuesOk (c : KateDocumentConfig) : Prop :=
  (c.m_tabWidthSet = true → 1 ≤ c.m_tabWidth) ∧
  (c.m_indentationWidthSet = true → 1 ≤ c.m_indentationWidth) ∧
  (c.m_wordWrapAtSet = true → 1 ≤ c.m_wordWrapAt)

instance (c : KateDocumentConfig) : Decidable (documentValuesOk c) := by
  unfold documentValuesOk; infer_instance

/-- The values a view config has set are in range: the lines to center on are
not negative, the word wrap indicators and the scroll bar mode are within
`[0, 80]`. -/
def viewValuesOk (c : KateViewConfig) : Prop :=
  (c.m_autoCenterLinesSet = true → 0 ≤ c.m_autoCenterLines) ∧
  (c.m_dynWordWrapIndicatorsSet = true →
    0 ≤ c.m_dynWordWrapIndicators ∧ c.m_dynWordWrapIndicators ≤ 80) ∧
  (c.m_showScrollbarsSet = true → 0 ≤ c.m_showScrollbars ∧ c.m_showScrollbars ≤ 80)

instance (c : KateViewConfig) : Decidable (viewValuesOk c) := by
  unfold viewValuesOk; infer_instance

/-! ## Line marker colours -/

/-- Modelled from the spec: `QColor` of the Qt library, as whether the colour is
valid and its value. -/
structure Color where
  valid : Bool
  rgb : Nat
deriving DecidableEq, Repr

/-- The colour `static QColor dummy` of `lineMarkerColor`, default-constructed:
the invalid colour. -/
def Color.dummy : Color := ⟨false, 0⟩

/-- The members of a `KateRendererConfig` behind `lineMarkerColor`. -/
structure KateRendererConfig where
  m_lineMarkerColor : List Color
  m_lineMarkerColorSet : List Bool
deriving DecidableEq, Repr

/-- The renderer configs at hand, the global one and the one of a renderer, with
the value of `KTextEditor::MarkInterface::reservedMarkersCount()`. -/
structure RendererConfigs where
  s_global : KateRendererConfig
  renderer : KateRendererConfig
  reservedMarkersCount : Int
deriving DecidableEq, Repr

/-- The object a reference stands for. -/
def RendererConfigs.get (w : RendererConfigs) : ConfigRef → KateRendererConfig
  | ConfigRef.global => w.s_global
  | ConfigRef.object => w.renderer

/-- The loop `while ((type >> index++) ^ 1) {}` of `lineMarkerColor`: the value
of `index` after it, or `none` when it has not ended after `rounds` rounds.
`x ^ 1` is not zero exactly when `x` is not 1, and `type >> index` is
`type / 2 ^ index` for the positive `type` the loop is run on. -/
def markerIndexScan (type : Int) : Nat → Nat → Option Nat
  | 0, _ => none
  | rounds + 1, index =>
    if type / 2 ^ index ≠ 1 then markerIndexScan type rounds (index + 1)
    else some (index + 1)

/-- The value of `index` `lineMarkerColor` computes for a mark type: the loop is
given the 32 rounds a shift of an `int` allows. -/
def markerIndex (type : Int) : Option Int :=
  if type > 0 then (markerIndexScan type 32 0).map (fun index => (index : Int) - 1)
  else some (0 - 1)

/-- Embeds `KateRendererConfig::lineMarkerColor`: `none` when the loop does not
end or an array is read outside of its bounds.  The call
`s_global->lineMarkerColor(type)` is on the global object, where `isGlobal()`
holds. -/
def lineMarkerColor (w : RendererConfigs) (this : ConfigRef) (type : Int) : Option Color :=
  match markerIndex type with
  | none => none
  | some index =>
    if index < 0 ∨ index ≥ w.reservedMarkersCount then some Color.dummy
    else
      match (w.get this).m_lineMarkerColorSet[index.toNat]? with
      | none => none
      | some isSet =>
        if isSet || this.isGlobal then (w.get this).m_lineMarkerColor[index.toNat]?
        else
          match w.s_global.m_lineMarkerColorSet[index.toNat]? with
          | none => none
          | some _ => w.s_global.m_lineMarkerColor[index.toNat]?

/-- The arrays of the renderer configs have the size the constructors give
them, `reservedMarkersCount()`. -/
def rendererConfigsOk (w : RendererConfigs) : Prop :=
  ∀ r : ConfigRef,
    ((w.get r).m_lineMarkerColor.length : Int) = w.reservedMarkersCount ∧
    ((w.get r).m_lineMarkerColorSet.length : Int) = w.reservedMarkersCount

/-- Renderer configs with seven marker colours, of which the renderer has set
the one of slot 2. -/
def sevenMarkers : RendererConfigs :=
  { s_global :=
      { m_lineMarkerColor := [⟨true, 10⟩, ⟨true, 11⟩, ⟨true, 12⟩, ⟨true, 13⟩, ⟨true, 14⟩,
          ⟨true, 15⟩, ⟨true, 16⟩]
        m_lineMarkerColorSet := [true, true, true, true, true, true, true] }
    renderer :=
      { m_lineMarkerColor := [⟨false, 0⟩, ⟨false, 0⟩, ⟨true, 99⟩, ⟨false, 0⟩, ⟨false, 0⟩,
          ⟨false, 0⟩, ⟨false, 0⟩]
        m_lineMarkerColorSet := [false, false, true, false, false, false, false] }
    reservedMarkersCount := 7 }

/-! ## Scroll bar with minimap -/

/-- The value of an `int` operation as the machine computes it: the result
modulo `2^32`, taken in `[-2^31, 2^31)`. -/
def wrap32 (x : Int) : Int := (x + 2147483648) % 4294967296 - 2147483648

/-- The value lies in the range of `int`. -/
def isInt32 (x : Int) : Prop := -2147483648 ≤ x ∧ x < 2147483648

instance (x : Int) : Decidable (isInt32 x) := by
  unfold isInt32; infer_instance

/-- Modelled from the spec: `QRect::top()`. -/
def Rect.top (r : Rect) : Int := r.y

/-- Modelled from the spec: `QRect::bottom()`, the last row of the rectangle,
`top() + height() - 1`. -/
def Rect.bottom (r : Rect) : Int := r.y + r.height - 1

/-- Embeds `KateScrollBar::minimapYToStdY`, as a function of the two groove
rectangles `m_stdGroveRect` and `m_mapGroveRect`; the sums, the difference and
the product are those of `int`. -/
def minimapYToStdY (m_stdGroveRect m_mapGroveRect : Rect) (y : Int) : Int :=
  if m_stdGroveRect.height = m_mapGroveRect.height then y
  else if y < m_stdGroveRect.top ∨ y > m_stdGroveRect.bottom then y
  else if y < m_mapGroveRect.top then wrap32 (m_stdGroveRect.top + 1)
  else if y > m_mapGroveRect.bottom then wrap32 (m_stdGroveRect.bottom - 1)
  else if m_mapGroveRect.height = 0 then y
  else
    let newY :=
      (wrap32 (wrap32 (y - m_mapGroveRect.top) * m_stdGroveRect.height)).tdiv
        m_mapGroveRect.height
    wrap32 (newY + m_stdGroveRect.top)

/-- A view at the top of the document whose layout cache was last given the
width 50 and whose cached `maxStartPos` is `(7, 0)`, as computed for that
width. -/
def staleState : ViewState :=
  { initialState ⟨0, 0⟩ 0 with m_cachedMaxStartPos := ⟨7, 0⟩, viewWidth := 50 }

/-! # Theorems -/

/-! ## Coordinate round trip -/

theorem foldedView_foldingInverse (wrap : Bool) : foldingInverse (foldedView wrap) := by
  refine ⟨?_, ?_⟩
  · intro r h0 hv
    have h1 : r ≠ 1 := by simpa [foldedView] using hv
    simp only [foldedView]
    split_ifs <;> omega
  · intro l h0 _
    simp only [foldedView, decide_eq_true_eq]
    split_ifs <;> omega

/-- C1: under the folding invariant (the two folding maps are mutual inverses
on visible lines), a real cursor on a non-negative visible line is mapped to
itself by `toVirtualCursor` followed by `toRealCursor`, a virtual cursor with
`0 <= line < visibleLines` is mapped to itself by `toRealCursor` followed by
`toVirtualCursor`, and both conversions leave the column as it is. -/
theorem coordinate_round_trip (v : View) (hf : foldingInverse v) :
    (∀ r : Cursor, 0 ≤ r.line → v.isLineVisible r.line = true →
      toRealCursor v (toVirtualCursor v r) = r ∧ (toVirtualCursor v r).column = r.column) ∧
    (∀ c : Cursor, 0 ≤ c.line → c.line < v.visibleLines →
      toVirtualCursor v (toRealCursor v c) = c ∧ (toRealCursor v c).column = c.column) := by
  obtain ⟨h1, h2⟩ := hf
  refine ⟨?_, ?_⟩
  · intro r h0 hv
    have hn : ¬ r.line < 0 := by omega
    simp [toRealCursor, toVirtualCursor, hn, h1 r.line h0 hv]
  · intro c h0 hN
    obtain ⟨ha, _, hc⟩ := h2 c.line h0 hN
    have hn : ¬ v.visibleLineToLine c.line < 0 := by omega
    simp [toRealCursor, toVirtualCursor, hn, hc]

theorem coordinate_round_trip_witness :
    foldingInverse (foldedView false) ∧
    toRealCursor (foldedView false) (toVirtualCursor (foldedView false) ⟨3, 7⟩) = ⟨3, 7⟩ ∧
    toVirtualCursor (foldedView false) (toRealCursor (foldedView false) ⟨2, 7⟩) = ⟨2, 7⟩ :=
  ⟨foldedView_foldingInverse false,
   ((coordinate_round_trip (foldedView false) (foldedView_foldingInverse false)).1 ⟨3, 7⟩
      (by decide) (by decide)).1,
   ((coordinate_round_trip (foldedView false) (foldedView_foldingInverse false)).2 ⟨2, 7⟩
      (by decide) (by decide)).1⟩

/-! ## Viewport height -/

/-- C8: for every widget height and every line height, zero and negative ones
included, `linesDisplayed()` is at least 1 and its divisor is not zero; for a
height `h >= 0` and a line height `lh >= 1` it is `max(1, floor(h / lh))`. -/
theorem linesDisplayed_pos (h lh : Int) :
    1 ≤ linesDisplayedOf h lh ∧ linesDisplayedDivisor lh ≠ 0 ∧
    (0 ≤ h → 1 ≤ lh → linesDisplayedOf h lh = max 1 (h / lh)) := by
  refine ⟨le_max_left _ _, ?_, ?_⟩
  · have : (1 : Int) ≤ linesDisplayedDivisor lh := le_max_left _ _
    omega
  · intro h0 h1
    have hfh : linesDisplayedDivisor lh = lh := max_eq_right h1
    have hlh : (0 : Int) ≤ lh := by omega
    have hmod : h.tmod lh = h % lh := Int.tmod_eq_emod h0 hlh
    have hsub : h - h % lh = lh * (h / lh) := by
      have := Int.emod_add_ediv h lh
      omega
    have hq : (0 : Int) ≤ lh * (h / lh) :=
      Int.mul_nonneg hlh (Int.ediv_nonneg h0 hlh)
    have hne : lh ≠ 0 := by omega
    simp only [linesDisplayedOf, hfh, hmod, hsub]
    rw [Int.tdiv_eq_ediv hq hlh, Int.mul_ediv_cancel_left _ hne]

theorem linesDisplayed_pos_witness :
    linesDisplayedOf 205 10 = max 1 (205 / 10) :=
  (linesDisplayed_pos 205 10).2.2 (by decide) (by decide)

/-! ## viewLineOffset without word wrap -/

theorem viewLineOffset_unwrapped (v : View) (hw : v.dynWordWrap = false) (c : Cursor)
    (offset : Int) :
    viewLineOffset v c offset false = ⟨max 0 (min (v.visibleLines - 1) (c.line + offset)), 0⟩ := by
  simp only [viewLineOffset, hw, Bool.not_false, if_true, Bool.false_eq_true, if_false]
  split_ifs with h
  · rw [max_eq_left (le_of_lt h)]
  · rw [max_eq_right (not_lt.mp h)]

theorem linesDisplayed_ge_one (v : View) : 1 ≤ linesDisplayed v := le_max_left _ _

theorem maxStartPos_fresh (v : View) (s : ViewState) (changed : Bool)
    (hfresh : s.m_cachedMaxStartPos.line = -1 ∨ changed = true) :
    (maxStartPos v s changed).2 = freshMaxStartPos v s := by
  simp [maxStartPos, hfresh, freshMaxStartPos]

/-! ## maxStartPos -/

/-- C2: with dynamic word wrap off and scroll-past-end disabled, in a document
of `N >= 1` visible lines a freshly computed `maxStartPos()` is the virtual
cursor `(max(0, N - L), 0)` for `L = linesDisplayed()` (also for `N < 1`); for `N = 100` and
`L = 20` it is `(80, 0)`. -/
theorem maxStartPos_unwrapped (v : View) (s : ViewState) (changed : Bool)
    (hw : v.dynWordWrap = false) (hp : v.scrollPastEnd = false)
    (hfresh : s.m_cachedMaxStartPos.line = -1 ∨ changed = true) :
    (maxStartPos v s changed).2 = ⟨max 0 (v.visibleLines - linesDisplayed v), 0⟩ ∧
    (v.visibleLines = 100 → linesDisplayed v = 20 →
      (maxStartPos v s changed).2 = ⟨80, 0⟩) := by
  have hL := linesDisplayed_ge_one v
  have key : (maxStartPos v s changed).2 = ⟨max 0 (v.visibleLines - linesDisplayed v), 0⟩ := by
    rw [maxStartPos_fresh v s changed hfresh]
    simp only [freshMaxStartPos, hp, Bool.false_eq_true, if_false]
    rw [viewLineOffset_unwrapped v hw]
    have : min (v.visibleLines - 1) ((lastLineEnd v).line + -(linesDisplayed v - 1))
        = v.visibleLines - linesDisplayed v := by
      simp only [lastLineEnd]
      rw [min_eq_right (by omega)]
      omega
    rw [this]
  refine ⟨key, ?_⟩
  intro h100 h20
  rw [key, h100, h20]
  rfl

theorem maxStartPos_unwrapped_witness :
    (maxStartPos (plainView false false 100 200) (initialState ⟨0, 0⟩ 0) false).2 = ⟨80, 0⟩ :=
  (maxStartPos_unwrapped (plainView false false 100 200) (initialState ⟨0, 0⟩ 0) false
    rfl rfl (Or.inl rfl)).2 rfl (by decide)

/-! ## Segments and rows -/

theorem segIndex_lt (l : List Int) (col : Int) (h : l ≠ []) : segIndex l col < l.length := by
  induction l with
  | nil => exact absurd rfl h
  | cons a t ih =>
    cases t with
    | nil => simp [segIndex]
    | cons b rest =>
      simp only [segIndex]
      split_ifs
      · simp
      · have := ih (by simp)
        simp only [List.length_cons] at this ⊢
        omega

theorem segIndex_mono (l : List Int) (c1 c2 : Int) (h : c1 ≤ c2) :
    segIndex l c1 ≤ segIndex l c2 := by
  induction l with
  | nil => simp [segIndex]
  | cons a t ih =>
    cases t with
    | nil => simp [segIndex]
    | cons b rest =>
      simp only [segIndex]
      split_ifs <;> omega

theorem segIndex_getD (l : List Int) (hs : l.Pairwise (· < ·)) (j : Nat) (hj : j < l.length) :
    segIndex l (l.getD j 0) = j := by
  induction l generalizing j with
  | nil => simp at hj
  | cons a t ih =>
    cases t with
    | nil =>
      simp at hj
      simp [segIndex, hj]
    | cons b rest =>
      have hs' := (List.pairwise_cons.mp hs)
      cases j with
      | zero =>
        have hab : a < b := hs'.1 b (by simp)
        simp [segIndex, hab]
      | succ k =>
        have hk : k < (b :: rest).length := by simpa using hj
        have hget : (a :: b :: rest).getD (k + 1) 0 = (b :: rest).getD k 0 := by simp
        have hmem : (b :: rest).getD k 0 ∈ (b :: rest) := by
          rw [List.getD_eq_getElem _ _ hk]
          exact List.getElem_mem _
        have hge : b ≤ (b :: rest).getD k 0 := by
          rcases List.mem_cons.mp hmem with h | h
          · omega
          · exact le_of_lt ((List.pairwise_cons.mp hs'.2).1 _ h)
        rw [hget]
        simp only [segIndex]
        rw [if_neg (by omega), ih hs'.2 k hk]

theorem segIndex_last (l : List Int) (col : Int) (h : ∀ x ∈ l, x ≤ col) :
    (segIndex l col : Int) = (l.length : Int) - 1 ∨ l = [] := by
  induction l with
  | nil => right; rfl
  | cons a t ih =>
    left
    cases t with
    | nil => simp [segIndex]
    | cons b rest =>
      have hb : b ≤ col := h b (by simp)
      simp only [segIndex]
      rw [if_neg (by omega)]
      rcases ih (fun x hx => h x (List.mem_cons_of_mem _ hx)) with h1 | h1
      · push_cast
        simp only [List.length_cons] at h1 ⊢
        push_cast at h1 ⊢
        omega
      · simp at h1

theorem segments_ok (v : View) (h : v.dynWordWrap = true → layoutOk v) (l : Int)
    (h0 : 0 ≤ l) (hN : l < v.visibleLines) :
    segments v (v.visibleLineToLine l) ≠ [] ∧
    (segments v (v.visibleLineToLine l)).Pairwise (· < ·) := by
  unfold segments
  cases hw : v.dynWordWrap with
  | false => simp
  | true =>
    obtain ⟨_, h2, h3, _⟩ := h hw l h0 hN
    simp [h2, h3]

theorem viewLineCount_pos (v : View) (h : v.dynWordWrap = true → layoutOk v) (l : Int)
    (h0 : 0 ≤ l) (hN : l < v.visibleLines) : 1 ≤ viewLineCount v (v.visibleLineToLine l) := by
  have := (segments_ok v h l h0 hN).1
  unfold viewLineCount
  have : 0 < (segments v (v.visibleLineToLine l)).length := List.length_pos.mpr this
  omega

theorem rowsBefore_succ (v : View) (k : Nat) :
    rowsBefore v (k + 1) = rowsBefore v k + viewLineCount v (v.visibleLineToLine (k : Int)) := rfl

theorem rowsBefore_step (v : View) (h : v.dynWordWrap = true → layoutOk v) (k d : Nat)
    (hk : ((k + d : Nat) : Int) < v.visibleLines) :
    rowsBefore v k + viewLineCount v (v.visibleLineToLine (k : Int)) ≤ rowsBefore v (k + d + 1) := by
  induction d with
  | zero => simp [rowsBefore_succ]
  | succ d ih =>
    have h1 := ih (by push_cast at hk ⊢; omega)
    have h2 := viewLineCount_pos v h ((k + d + 1 : Nat) : Int) (by positivity) hk
    have h3 := rowsBefore_succ v (k + d + 1)
    show _ ≤ rowsBefore v (k + d + 1 + 1)
    omega

theorem rowsBefore_mono (v : View) (h : v.dynWordWrap = true → layoutOk v) (k k' : Nat)
    (hkk : k ≤ k') (hk : (k' : Int) ≤ v.visibleLines) :
    rowsBefore v k ≤ rowsBefore v k' := by
  rcases Nat.eq_or_lt_of_le hkk with h1 | h1
  · subst h1; exact le_refl _
  · obtain ⟨d, hd⟩ : ∃ d, k' = k + d + 1 := ⟨k' - k - 1, by omega⟩
    subst hd
    have h1 := rowsBefore_step v h k d (by push_cast at hk ⊢; omega)
    have h2 := viewLineCount_pos v h (k : Int) (by positivity) (by push_cast at hk ⊢; omega)
    omega

theorem rowsBefore_lt (v : View) (h : v.dynWordWrap = true → layoutOk v) (k k' : Nat)
    (hkk : k < k') (hk : (k' : Int) ≤ v.visibleLines) :
    rowsBefore v k + viewLineCount v (v.visibleLineToLine (k : Int)) ≤ rowsBefore v k' := by
  obtain ⟨d, hd⟩ : ∃ d, k' = k + d + 1 := ⟨k' - k - 1, by omega⟩
  subst hd
  exact rowsBefore_step v h k d (by push_cast at hk ⊢; omega)

theorem rowsBefore_nonneg (v : View) (h : v.dynWordWrap = true → layoutOk v) (k : Nat)
    (hk : (k : Int) ≤ v.visibleLines) : 0 ≤ rowsBefore v k := by
  have := rowsBefore_mono v h 0 k (Nat.zero_le _) hk
  simpa [rowsBefore] using this

/-- The row of a cursor on a visible line lies among the rows of that line. -/
theorem rowOf_bounds (v : View) (h : v.dynWordWrap = true → layoutOk v) (c : Cursor)
    (h0 : 0 ≤ c.line) (hN : c.line < v.visibleLines) :
    rowsBefore v c.line.toNat ≤ rowOf v c ∧
    rowOf v c < rowsBefore v c.line.toNat + viewLineCount v (v.visibleLineToLine c.line) := by
  have h1 := segIndex_lt (segments v (v.visibleLineToLine c.line)) c.column
    (segments_ok v h c.line h0 hN).1
  simp only [rowOf, cacheViewLine, viewLineCount]
  omega

theorem rowOf_range (v : View) (h : v.dynWordWrap = true → layoutOk v) (c : Cursor)
    (h0 : 0 ≤ c.line) (hN : c.line < v.visibleLines) :
    0 ≤ rowOf v c ∧ rowOf v c < totalRows v := by
  obtain ⟨a, b⟩ := rowOf_bounds v h c h0 hN
  have hk : ((c.line.toNat : Nat) : Int) = c.line := Int.toNat_of_nonneg h0
  have h1 := rowsBefore_nonneg v h c.line.toNat (by omega)
  have h2 := rowsBefore_lt v h c.line.toNat v.visibleLines.toNat (by omega)
    (by rw [Int.toNat_of_nonneg (by omega)])
  rw [hk] at h2
  unfold totalRows
  omega

theorem isRowStart_rowOf (v : View) (h : v.dynWordWrap = true → layoutOk v) (c : Cursor)
    (row : Int) (hc : isRowStart v c row) : rowOf v c = row := by
  obtain ⟨h0, hN, j, hj, hcol, hrow⟩ := hc
  have := segIndex_getD _ (segments_ok v h c.line h0 hN).2 j hj
  simp only [rowOf, cacheViewLine, hcol, this]
  exact hrow

theorem isRowStart_unique (v : View) (h : v.dynWordWrap = true → layoutOk v) (a b : Cursor)
    (row : Int) (ha : isRowStart v a row) (hb : isRowStart v b row) : a = b := by
  obtain ⟨a0, aN, j, hj, acol, arow⟩ := ha
  obtain ⟨b0, bN, j', hj', bcol, brow⟩ := hb
  have hka : ((a.line.toNat : Nat) : Int) = a.line := Int.toNat_of_nonneg a0
  have hkb : ((b.line.toNat : Nat) : Int) = b.line := Int.toNat_of_nonneg b0
  have hline : a.line = b.line := by
    by_contra hne
    rcases lt_or_gt_of_ne hne with hlt | hlt
    · have := rowsBefore_lt v h a.line.toNat b.line.toNat (by omega) (by omega)
      rw [hka] at this
      simp only [viewLineCount] at this
      omega
    · have := rowsBefore_lt v h b.line.toNat a.line.toNat (by omega) (by omega)
      rw [hkb] at this
      simp only [viewLineCount] at this
      omega
  have hjj : j = j' := by
    rw [hline] at arow
    omega
  subst hjj
  cases a; cases b
  simp only at hline acol bcol
  subst hline
  simp [acol, bcol]

/-! ## The walk of viewLineOffset -/

theorem scanViewLines_spec (offset : Int) (count i : Nat) (cur : Int) (h : cur ≤ offset) :
    scanViewLines offset count i cur =
      if offset < cur + count then (some (i + (offset - cur).toNat), offset)
      else (none, cur + count) := by
  induction count generalizing i cur with
  | zero =>
    simp only [scanViewLines]
    rw [if_neg (by push_cast; omega)]
    simp
  | succ n ih =>
    simp only [scanViewLines]
    by_cases he : offset = cur
    · rw [if_pos he, if_pos (by push_cast; omega)]
      subst he
      simp
    · rw [if_neg he, ih (i + 1) (cur + 1) (by omega)]
      by_cases hlt : offset < cur + 1 + (n : Int)
      · rw [if_pos hlt, if_pos (by push_cast; omega)]
        have : i + 1 + (offset - (cur + 1)).toNat = i + (offset - cur).toNat := by omega
        rw [this]
      · rw [if_neg hlt, if_neg (by push_cast; omega)]
        congr 1
        push_cast
        omega

theorem startCol_nonneg_index (v : View) (realLine : Int) (j : Nat) :
    startCol v realLine (j : Int) = (segments v realLine).getD j 0 := by
  have h1 : ¬ ((j : Int) < 0) := by omega
  simp [startCol, h1]

theorem walk_forward (v : View) (hok : layoutOk v) (offset : Int)
    (fuel k : Nat) (cur : Int) (hk : (k : Int) ≤ v.visibleLines)
    (hfuel : v.visibleLines < (k : Int) + fuel) (hcur : cur ≤ offset) :
    (rowsBefore v k + (offset - cur) < totalRows v →
      isRowStart v (walk v true false offset fuel k cur) (rowsBefore v k + (offset - cur))) ∧
    (totalRows v ≤ rowsBefore v k + (offset - cur) →
      walk v true false offset fuel k cur = lastLineEnd v) := by
  have hlay : v.dynWordWrap = true → layoutOk v := fun _ => hok
  induction fuel generalizing k cur with
  | zero => exfalso; push_cast at hfuel; omega
  | succ n ih =>
    by_cases hkN : (k : Int) < v.visibleLines
    · have h0 : (0 : Int) ≤ (k : Int) := by positivity
      have hcond : (0 : Int) ≤ (k : Int) ∧ (k : Int) < v.visibleLines := ⟨h0, hkN⟩
      have hhas := (hok k h0 hkN).1
      have hcnt : (viewLineCount v (v.visibleLineToLine k)).toNat
          = (segments v (v.visibleLineToLine k)).length := by simp [viewLineCount]
      have hlt := rowsBefore_lt v hlay k v.visibleLines.toNat (by omega)
        (by rw [Int.toNat_of_nonneg (by omega)])
      simp only [walk, hcond, and_self, if_true, hhas, hcnt]
      rw [scanViewLines_spec offset _ 0 cur hcur]
      by_cases hfound : offset < cur + ((segments v (v.visibleLineToLine k)).length : Int)
      · rw [if_pos hfound]
        simp only [Bool.false_eq_true, if_false, if_true, Nat.zero_add]
        have hj : ((offset - cur).toNat : Int) = offset - cur := Int.toNat_of_nonneg (by omega)
        refine ⟨fun _ => ⟨h0, hkN, (offset - cur).toNat, ?_, ?_, ?_⟩, ?_⟩
        · show (offset - cur).toNat < (segments v (v.visibleLineToLine k)).length
          omega
        · exact startCol_nonneg_index v _ _
        · show rowsBefore v (k : Int).toNat + ((offset - cur).toNat : Int) = _
          simp only [Int.toNat_ofNat]
          omega
        · intro hT
          exfalso
          simp only [viewLineCount, totalRows] at hlt hT
          omega
      · rw [if_neg hfound]
        simp only [if_true]
        have hrec := ih (k + 1) (cur + ((segments v (v.visibleLineToLine k)).length : Int))
          (by push_cast; omega) (by push_cast; omega) (by omega)
        have hT : rowsBefore v (k + 1)
            + (offset - (cur + ((segments v (v.visibleLineToLine k)).length : Int)))
            = rowsBefore v k + (offset - cur) := by
          rw [rowsBefore_succ]
          simp only [viewLineCount]
          omega
        rw [hT] at hrec
        have hcast : ((k + 1 : Nat) : Int) = (k : Int) + 1 := by push_cast; rfl
        rw [hcast] at hrec
        exact hrec
    · have hkeq : (k : Int) = v.visibleLines := by omega
      have hcond : ¬ ((0 : Int) ≤ (k : Int) ∧ (k : Int) < v.visibleLines) := fun h => hkN h.2
      simp only [walk, hcond, if_false, walkedOff, if_true]
      have hR : totalRows v = rowsBefore v k := by
        unfold totalRows
        rw [← hkeq]
        simp
      refine ⟨fun h => ?_, fun _ => trivial⟩
      exfalso
      omega

theorem walk_backward (v : View) (hok : layoutOk v) (offset : Int)
    (fuel k : Nat) (cur : Int) (hk : (k : Int) ≤ v.visibleLines)
    (hfuel : k < fuel) (hcur : cur ≤ offset) :
    (0 ≤ rowsBefore v k - 1 - (offset - cur) →
      isRowStart v (walk v false false offset fuel ((k : Int) - 1) cur)
        (rowsBefore v k - 1 - (offset - cur))) ∧
    (rowsBefore v k - 1 - (offset - cur) < 0 →
      walk v false false offset fuel ((k : Int) - 1) cur = ⟨0, 0⟩) := by
  have hlay : v.dynWordWrap = true → layoutOk v := fun _ => hok
  induction fuel generalizing k cur with
  | zero => exfalso; omega
  | succ n ih =>
    cases k with
    | zero =>
      have hcond : ¬ ((0 : Int) ≤ ((0 : Nat) : Int) - 1 ∧ ((0 : Nat) : Int) - 1 < v.visibleLines) := by
        intro h; have := h.1; simp at this
      simp only [walk, hcond, if_false, walkedOff, Bool.false_eq_true]
      refine ⟨fun h => ?_, fun _ => trivial⟩
      exfalso
      simp only [rowsBefore] at h
      omega
    | succ k =>
      have hcast : ((k + 1 : Nat) : Int) - 1 = (k : Int) := by push_cast; omega
      rw [hcast]
      have h0 : (0 : Int) ≤ (k : Int) := by positivity
      have hkN : (k : Int) < v.visibleLines := by push_cast at hk; omega
      have hcond : (0 : Int) ≤ (k : Int) ∧ (k : Int) < v.visibleLines := ⟨h0, hkN⟩
      have hhas := (hok k h0 hkN).1
      have hcnt : (viewLineCount v (v.visibleLineToLine k)).toNat
          = (segments v (v.visibleLineToLine k)).length := by simp [viewLineCount]
      simp only [walk, hcond, and_self, if_true, hhas, hcnt]
      rw [scanViewLines_spec offset _ 0 cur hcur]
      by_cases hfound : offset < cur + ((segments v (v.visibleLineToLine k)).length : Int)
      · rw [if_pos hfound]
        simp only [Bool.false_eq_true, if_false, Nat.zero_add]
        have hj : ((offset - cur).toNat : Int) = offset - cur := Int.toNat_of_nonneg (by omega)
        obtain ⟨j, hjdef⟩ : ∃ j : Nat, (j : Int)
            = lastViewLine v (v.visibleLineToLine k) - ((offset - cur).toNat : Int) :=
          ⟨(lastViewLine v (v.visibleLineToLine k) - ((offset - cur).toNat : Int)).toNat, by
            rw [Int.toNat_of_nonneg]
            simp only [lastViewLine, viewLineCount]
            omega⟩
        rw [← hjdef, startCol_nonneg_index]
        simp only [lastViewLine, viewLineCount] at hjdef
        refine ⟨fun _ => ⟨h0, hkN, j, ?_, rfl, ?_⟩, ?_⟩
        · show j < (segments v (v.visibleLineToLine k)).length
          omega
        · show rowsBefore v (k : Int).toNat + (j : Int) = _
          simp only [Int.toNat_ofNat, rowsBefore_succ, viewLineCount]
          omega
        · intro hT
          exfalso
          have := rowsBefore_nonneg v hlay k (by omega)
          simp only [rowsBefore_succ, viewLineCount] at hT
          omega
      · rw [if_neg hfound]
        simp only [Bool.false_eq_true, if_false]
        have hrec := ih k (cur + ((segments v (v.visibleLineToLine k)).length : Int))
          (by omega) (by omega) (by omega)
        have hT : rowsBefore v k - 1
            - (offset - (cur + ((segments v (v.visibleLineToLine k)).length : Int)))
            = rowsBefore v (k + 1) - 1 - (offset - cur) := by
          rw [rowsBefore_succ]
          simp only [viewLineCount]
          omega
        rw [hT] at hrec
        exact hrec

theorem viewLineOffset_wrapped_row (v : View) (hw : v.dynWordWrap = true) (hok : wrapOk v)
    (c : Cursor) (n : Int) (h0 : 0 ≤ c.line) (hN : c.line < v.visibleLines) :
    (0 ≤ rowOf v c + n → rowOf v c + n < totalRows v →
      isRowStart v (viewLineOffset v c n false) (rowOf v c + n)) ∧
    (totalRows v ≤ rowOf v c + n → viewLineOffset v c n false = lastLineEnd v) ∧
    (rowOf v c + n < 0 → viewLineOffset v c n false = ⟨0, 0⟩) := by
  obtain ⟨hlayout, hfold⟩ := hok
  have hlay : v.dynWordWrap = true → layoutOk v := fun _ => hlayout
  have hreal := hfold c.line h0 hN
  have hk : ((c.line.toNat : Nat) : Int) = c.line := Int.toNat_of_nonneg h0
  have hseg := segIndex_lt (segments v (v.visibleLineToLine c.line)) c.column
    (segments_ok v hlay c.line h0 hN).1
  have hrange := rowOf_range v hlay c h0 hN
  have hbounds := rowOf_bounds v hlay c h0 hN
  have hrow : rowOf v c = rowsBefore v c.line.toNat
      + (segIndex (segments v (v.visibleLineToLine c.line)) c.column : Int) := rfl
  have hsucc := rowsBefore_succ v c.line.toNat
  rw [hk] at hsucc
  have hltR := rowsBefore_lt v hlay c.line.toNat v.visibleLines.toNat (by omega)
    (by rw [Int.toNat_of_nonneg (by omega)])
  rw [hk] at hltR
  simp only [viewLineCount] at hsucc hltR hbounds
  simp only [viewLineOffset, hw, Bool.not_true, Bool.false_eq_true, if_false, hreal,
    cacheViewLine, lastViewLine, viewLineCount]
  by_cases hpos : n > 0
  · rw [if_pos hpos]
    by_cases hsame : n ≤ ((segments v (v.visibleLineToLine c.line)).length : Int) - 1
        - (segIndex (segments v (v.visibleLineToLine c.line)) c.column : Int)
    · rw [if_pos hsame]
      have hidx : (segIndex (segments v (v.visibleLineToLine c.line)) c.column : Int) + n
          = ((segIndex (segments v (v.visibleLineToLine c.line)) c.column + n.toNat : Nat) : Int) := by
        push_cast
        rw [Int.toNat_of_nonneg (by omega)]
      rw [hidx, startCol_nonneg_index]
      refine ⟨fun _ _ => ⟨h0, hN, _, ?_, rfl, ?_⟩, fun h => ?_, fun h => ?_⟩
      · show segIndex (segments v (v.visibleLineToLine c.line)) c.column + n.toNat
          < (segments v (v.visibleLineToLine c.line)).length
        omega
      · show rowsBefore v c.line.toNat + _ = _
        rw [← hidx]
        omega
      · exfalso; unfold totalRows at h; omega
      · exfalso; omega
    · rw [if_neg hsame]
      have hw1 := walk_forward v hlayout n (v.visibleLines.toNat + 1) (c.line.toNat + 1)
        (((segments v (v.visibleLineToLine c.line)).length : Int) - 1
          - (segIndex (segments v (v.visibleLineToLine c.line)) c.column : Int) + 1)
        (by push_cast; omega) (by push_cast; omega) (by omega)
      have hcast : ((c.line.toNat + 1 : Nat) : Int) = c.line + 1 := by push_cast; omega
      rw [hcast] at hw1
      have hT : rowsBefore v (c.line.toNat + 1) + (n - (((segments v
          (v.visibleLineToLine c.line)).length : Int) - 1
          - (segIndex (segments v (v.visibleLineToLine c.line)) c.column : Int) + 1))
          = rowOf v c + n := by omega
      rw [hT] at hw1
      exact ⟨fun _ h => hw1.1 h, hw1.2, fun h => by exfalso; omega⟩
  · rw [if_neg hpos]
    by_cases hsame : -n ≤ (segIndex (segments v (v.visibleLineToLine c.line)) c.column : Int)
    · rw [if_pos hsame]
      have hidx : (segIndex (segments v (v.visibleLineToLine c.line)) c.column : Int) - -n
          = ((segIndex (segments v (v.visibleLineToLine c.line)) c.column - (-n).toNat : Nat) : Int) := by
        omega
      rw [hidx, startCol_nonneg_index]
      refine ⟨fun _ _ => ⟨h0, hN, _, ?_, rfl, ?_⟩, fun h => ?_, fun h => ?_⟩
      · show segIndex (segments v (v.visibleLineToLine c.line)) c.column - (-n).toNat
          < (segments v (v.visibleLineToLine c.line)).length
        omega
      · show rowsBefore v c.line.toNat + _ = _
        rw [← hidx]
        omega
      · exfalso; unfold totalRows at h; omega
      · exfalso
        have := rowsBefore_nonneg v hlay c.line.toNat (by omega)
        omega
    · rw [if_neg hsame]
      have hw1 := walk_backward v hlayout (-n) (v.visibleLines.toNat + 1) c.line.toNat
        ((segIndex (segments v (v.visibleLineToLine c.line)) c.column : Int) + 1)
        (by omega) (by omega) (by omega)
      rw [hk] at hw1
      have hT : rowsBefore v c.line.toNat - 1 - (-n
          - ((segIndex (segments v (v.visibleLineToLine c.line)) c.column : Int) + 1))
          = rowOf v c + n := by omega
      rw [hT] at hw1
      exact ⟨fun h _ => hw1.1 h, fun h => by exfalso; unfold totalRows at h; omega, hw1.2⟩

theorem segIndex_zero (l : List Int) (hs : l.Pairwise (· < ·)) (h0 : ∀ x ∈ l, 0 ≤ x) :
    segIndex l 0 = 0 := by
  cases l with
  | nil => rfl
  | cons a t =>
    cases t with
    | nil => rfl
    | cons b rest =>
      have hab : a < b := (List.pairwise_cons.mp hs).1 b (by simp)
      have ha : 0 ≤ a := h0 a (by simp)
      simp only [segIndex]
      rw [if_pos (by omega)]

theorem rowsBefore_unwrapped (v : View) (hw : v.dynWordWrap = false) (k : Nat) :
    rowsBefore v k = k := by
  induction k with
  | zero => rfl
  | succ n ih =>
    rw [rowsBefore_succ, ih]
    simp [viewLineCount, segments, hw]

theorem rowOf_unwrapped (v : View) (hw : v.dynWordWrap = false) (c : Cursor) (h0 : 0 ≤ c.line) :
    rowOf v c = c.line := by
  simp only [rowOf, rowsBefore_unwrapped v hw, cacheViewLine, segments, hw, Bool.false_eq_true,
    if_false, segIndex]
  rw [Int.toNat_of_nonneg h0]
  simp

theorem totalRows_unwrapped (v : View) (hw : v.dynWordWrap = false) (hN : 0 ≤ v.visibleLines) :
    totalRows v = v.visibleLines := by
  unfold totalRows
  rw [rowsBefore_unwrapped v hw, Int.toNat_of_nonneg hN]

theorem totalRows_last (v : View) (hN : 1 ≤ v.visibleLines) :
    totalRows v = rowsBefore v (v.visibleLines - 1).toNat
      + viewLineCount v (v.visibleLineToLine (v.visibleLines - 1)) := by
  unfold totalRows
  have h1 : v.visibleLines.toNat = (v.visibleLines - 1).toNat + 1 := by omega
  rw [h1, rowsBefore_succ, Int.toNat_of_nonneg (by omega)]

theorem rowOf_lastLineEnd (v : View) (h : v.dynWordWrap = true → layoutOk v)
    (hN : 1 ≤ v.visibleLines) : rowOf v (lastLineEnd v) = totalRows v - 1 := by
  rw [totalRows_last v hN]
  simp only [rowOf, lastLineEnd, cacheViewLine, viewLineCount]
  cases hw : v.dynWordWrap with
  | false => simp [segments, hw, segIndex]
  | true =>
    obtain ⟨_, h2, _, h4, _⟩ := h hw (v.visibleLines - 1) (by omega) (by omega)
    have hseg : segments v (v.visibleLineToLine (v.visibleLines - 1))
        = v.layout (v.visibleLineToLine (v.visibleLines - 1)) := by simp [segments, hw]
    rw [hseg]
    rcases segIndex_last _ _ h4 with h5 | h5
    · omega
    · exact absurd h5 h2

theorem rowOf_origin (v : View) (h : v.dynWordWrap = true → layoutOk v)
    (hN : 1 ≤ v.visibleLines) : rowOf v ⟨0, 0⟩ = 0 := by
  simp only [rowOf, cacheViewLine]
  cases hw : v.dynWordWrap with
  | false => simp [segments, hw, segIndex, rowsBefore]
  | true =>
    obtain ⟨_, _, h3, _, h5⟩ := h hw 0 (le_refl _) (by omega)
    have hseg : segments v (v.visibleLineToLine 0) = v.layout (v.visibleLineToLine 0) := by
      simp [segments, hw]
    rw [hseg, segIndex_zero _ h3 h5]
    simp [rowsBefore]

/-- Moving a cursor by `n` view lines moves its row by `n`, clamped to the rows
of the document; the result is on a visible line. -/
theorem viewLineOffset_rowOf (v : View) (h : v.dynWordWrap = true → wrapOk v)
    (c : Cursor) (n : Int) (h0 : 0 ≤ c.line) (hN : c.line < v.visibleLines) :
    0 ≤ (viewLineOffset v c n false).line ∧
    (viewLineOffset v c n false).line < v.visibleLines ∧
    rowOf v (viewLineOffset v c n false) = max 0 (min (totalRows v - 1) (rowOf v c + n)) := by
  have hlay : v.dynWordWrap = true → layoutOk v := fun hw => (h hw).1
  cases hw : v.dynWordWrap with
  | false =>
    rw [viewLineOffset_unwrapped v hw]
    have hl : (0 : Int) ≤ max 0 (min (v.visibleLines - 1) (c.line + n)) := le_max_left _ _
    refine ⟨hl, ?_, ?_⟩
    · show max 0 (min (v.visibleLines - 1) (c.line + n)) < v.visibleLines
      rcases max_cases 0 (min (v.visibleLines - 1) (c.line + n)) with ⟨e, _⟩ | ⟨e, _⟩ <;>
        rcases min_cases (v.visibleLines - 1) (c.line + n) with ⟨e', _⟩ | ⟨e', _⟩ <;> omega
    · rw [rowOf_unwrapped v hw _ hl, rowOf_unwrapped v hw c h0,
        totalRows_unwrapped v hw (by omega)]
  | true =>
    have hr := rowOf_range v hlay c h0 hN
    obtain ⟨hin, hoff, hneg⟩ := viewLineOffset_wrapped_row v hw (h hw) c n h0 hN
    by_cases h1 : rowOf v c + n < 0
    · rw [hneg h1, rowOf_origin v hlay (by omega)]
      refine ⟨le_refl _, by show (0 : Int) < _; omega, ?_⟩
      rcases max_cases 0 (min (totalRows v - 1) (rowOf v c + n)) with ⟨e, _⟩ | ⟨e, _⟩ <;>
        rcases min_cases (totalRows v - 1) (rowOf v c + n) with ⟨e', _⟩ | ⟨e', _⟩ <;> omega
    · by_cases h2 : totalRows v ≤ rowOf v c + n
      · rw [hoff h2, rowOf_lastLineEnd v hlay (by omega)]
        refine ⟨by show (0 : Int) ≤ v.visibleLines - 1; omega,
          by show v.visibleLines - 1 < v.visibleLines; omega, ?_⟩
        rcases max_cases 0 (min (totalRows v - 1) (rowOf v c + n)) with ⟨e, _⟩ | ⟨e, _⟩ <;>
          rcases min_cases (totalRows v - 1) (rowOf v c + n) with ⟨e', _⟩ | ⟨e', _⟩ <;> omega
      · have hs := hin (by omega) (by omega)
        rw [isRowStart_rowOf v hlay _ _ hs]
        refine ⟨hs.1, hs.2.1, ?_⟩
        rcases max_cases 0 (min (totalRows v - 1) (rowOf v c + n)) with ⟨e, _⟩ | ⟨e, _⟩ <;>
          rcases min_cases (totalRows v - 1) (rowOf v c + n) with ⟨e', _⟩ | ⟨e', _⟩ <;> omega

theorem rowOf_mono (v : View) (h : v.dynWordWrap = true → layoutOk v) (a b : Cursor)
    (a0 : 0 ≤ a.line) (bN : b.line < v.visibleLines)
    (hab : a.line < b.line ∨ (a.line = b.line ∧ a.column ≤ b.column)) :
    rowOf v a ≤ rowOf v b := by
  rcases hab with hlt | ⟨he, hc⟩
  · have ha := rowOf_bounds v h a a0 (by omega)
    have hb := rowOf_bounds v h b (by omega) bN
    have := rowsBefore_lt v h a.line.toNat b.line.toNat (by omega)
      (by rw [Int.toNat_of_nonneg (by omega)]; omega)
    rw [Int.toNat_of_nonneg a0] at this
    omega
  · have := segIndex_mono (segments v (v.visibleLineToLine b.line)) a.column b.column hc
    simp only [rowOf, cacheViewLine, he]
    omega

/-! ## viewLineOffset and rows -/

theorem foldedView_layoutOk : layoutOk (foldedView true) := by
  intro l h0 hN
  have hN' : l < 4 := hN
  interval_cases l <;> simp [foldedView, hasLayout]

theorem viewLineOffset_isRowStart (v : View) (h : v.dynWordWrap = true → wrapOk v)
    (c : Cursor) (n : Int) (h0 : 0 ≤ c.line) (hN : c.line < v.visibleLines)
    (h1 : 0 ≤ rowOf v c + n) (h2 : rowOf v c + n < totalRows v) :
    isRowStart v (viewLineOffset v c n false) (rowOf v c + n) := by
  cases hw : v.dynWordWrap with
  | false =>
    rw [viewLineOffset_unwrapped v hw]
    rw [rowOf_unwrapped v hw c h0] at h1 h2 ⊢
    rw [totalRows_unwrapped v hw (by omega)] at h2
    have e : max 0 (min (v.visibleLines - 1) (c.line + n)) = c.line + n := by
      rw [min_eq_right (by omega), max_eq_right h1]
    rw [e]
    refine ⟨h1, h2, 0, ?_, ?_, ?_⟩
    · simp [segments, hw]
    · simp [segments, hw]
    · show rowsBefore v (c.line + n).toNat + ((0 : Nat) : Int) = c.line + n
      rw [rowsBefore_unwrapped v hw, Int.toNat_of_nonneg h1]
      simp
  | true => exact (viewLineOffset_wrapped_row v hw (h hw) c n h0 hN).1 h1 h2

theorem atViewLineStart_isRowStart (v : View) (h : v.dynWordWrap = true → layoutOk v)
    (c : Cursor) (hc : atViewLineStart v c) : isRowStart v c (rowOf v c) := by
  obtain ⟨h0, hN, hcol⟩ := hc
  have hseg := segIndex_lt (segments v (v.visibleLineToLine c.line)) c.column
    (segments_ok v h c.line h0 hN).1
  refine ⟨h0, hN, segIndex (segments v (v.visibleLineToLine c.line)) c.column, hseg, ?_, rfl⟩
  rw [← startCol_nonneg_index]
  exact hcol

/-- C4 (as amended): for a virtual cursor at the start of its view line and an
offset `n` whose walk stays within the rows of the document, moving by `n` view
lines and back by `-n` leads to the cursor again; without word wrap, and with
word wrap as long as no fold renumbers the visible lines. -/
theorem viewLineOffset_inverse (v : View) (h : v.dynWordWrap = true → wrapOk v)
    (c : Cursor) (n : Int) (hc : atViewLineStart v c)
    (h1 : 0 ≤ rowOf v c + n) (h2 : rowOf v c + n < totalRows v) :
    viewLineOffset v (viewLineOffset v c n false) (-n) false = c := by
  have hlay : v.dynWordWrap = true → layoutOk v := fun hw => (h hw).1
  have hr := rowOf_range v hlay c hc.1 hc.2.1
  have hx := viewLineOffset_isRowStart v h c n hc.1 hc.2.1 h1 h2
  have hxrow := isRowStart_rowOf v hlay _ _ hx
  have hback := viewLineOffset_isRowStart v h (viewLineOffset v c n false) (-n) hx.1 hx.2.1
    (by rw [hxrow]; omega) (by rw [hxrow]; omega)
  rw [hxrow] at hback
  have e : rowOf v c + n + -n = rowOf v c := by omega
  rw [e] at hback
  exact isRowStart_unique v hlay _ _ _ hback (atViewLineStart_isRowStart v hlay c hc)

theorem plainView_wrapOk (spe : Bool) (n h : Int) : wrapOk (plainView true spe n h) := by
  refine ⟨?_, ?_⟩
  · intro l h0 hN
    have hN' : l < n := hN
    simp [plainView, hasLayout, h0, hN']
  · intro l _ _
    rfl

theorem viewLineOffset_inverse_witness :
    atViewLineStart (plainView true false 4 200) ⟨1, 10⟩ ∧
    viewLineOffset (plainView true false 4 200)
      (viewLineOffset (plainView true false 4 200) ⟨1, 10⟩ 5 false) (-5) false = ⟨1, 10⟩ :=
  ⟨by decide,
   viewLineOffset_inverse (plainView true false 4 200) (fun _ => plainView_wrapOk false 4 200)
     ⟨1, 10⟩ 5 (by decide) (by decide) (by decide)⟩

/-- C4 (as stated) fails: without word wrap, in a document of ten lines, moving
the cursor `(5, 3)` one view line down and one up again gives `(5, 0)`, although
the walk stays in the document. -/
theorem viewLineOffset_inverse_fails :
    ¬ (viewLineOffset (plainView false false 10 200)
        (viewLineOffset (plainView false false 10 200) ⟨5, 3⟩ 1 false) (-1) false = ⟨5, 3⟩) ∧
    0 ≤ rowOf (plainView false false 10 200) ⟨5, 3⟩ + 1 ∧
    rowOf (plainView false false 10 200) ⟨5, 3⟩ + 1 < totalRows (plainView false false 10 200) := by
  decide

/-- C6: with dynamic word wrap on and real line 1 folded away, the cursor
`(1, 0)` lies on row 1 of 6 and the view line at row 2 starts at `(1, 10)`, but
`viewLineOffset` by one row returns `(2, 0)`: its word-wrap branch reads the
layout of real line 0 in place of that of the cursor line. -/
theorem viewLineOffset_folded_row :
    foldingInverse (foldedView true) ∧ layoutOk (foldedView true) ∧
    rowOf (foldedView true) ⟨1, 0⟩ = 1 ∧ totalRows (foldedView true) = 6 ∧
    isRowStart (foldedView true) ⟨1, 10⟩ 2 ∧
    viewLineOffset (foldedView true) ⟨1, 0⟩ 1 false = ⟨2, 0⟩ :=
  ⟨foldedView_foldingInverse true, foldedView_layoutOk, by decide, by decide,
   ⟨by decide, by decide, 1, by decide, by decide, by decide⟩, by decide⟩

/-- C7: with dynamic word wrap on and real line 1 folded away, a walk of two
rows from the cursor `(2, 0)` on row 4 of 6 runs past the last row, but
`viewLineOffset` returns `(2, 20)` and not the end `(3, 25)` of the last visible
line. -/
theorem viewLineOffset_folded_end :
    foldingInverse (foldedView true) ∧ layoutOk (foldedView true) ∧
    rowOf (foldedView true) ⟨2, 0⟩ = 4 ∧ totalRows (foldedView true) = 6 ∧
    lastLineEnd (foldedView true) = ⟨3, 25⟩ ∧
    viewLineOffset (foldedView true) ⟨2, 0⟩ 2 false = ⟨2, 20⟩ :=
  ⟨foldedView_foldingInverse true, foldedView_layoutOk, by decide, by decide, by decide,
   by decide⟩

/-! ## Frame of the scroll controller -/

theorem freshMaxStartPos_congr (v : View) (s s' : ViewState)
    (h : s'.m_minLinesVisible = s.m_minLinesVisible) :
    freshMaxStartPos v s' = freshMaxStartPos v s := by
  simp [freshMaxStartPos, h]

theorem cacheCoherent_congr (v : View) (s s' : ViewState)
    (h1 : s'.m_cachedMaxStartPos = s.m_cachedMaxStartPos)
    (h2 : s'.m_minLinesVisible = s.m_minLinesVisible) (h : cacheCoherent v s) :
    cacheCoherent v s' := by
  unfold cacheCoherent at h ⊢
  rw [h1, freshMaxStartPos_congr v s s' h2]
  exact h

@[simp] theorem maxStartPos_startPos (v : View) (s : ViewState) (changed : Bool) :
    (maxStartPos v s changed).1.m_startPos = s.m_startPos := by
  simp only [maxStartPos]; split_ifs <;> rfl

@[simp] theorem maxStartPos_minLines (v : View) (s : ViewState) (changed : Bool) :
    (maxStartPos v s changed).1.m_minLinesVisible = s.m_minLinesVisible := by
  simp only [maxStartPos]; split_ifs <;> rfl

@[simp] theorem maxStartPos_madeVisible (v : View) (s : ViewState) (changed : Bool) :
    (maxStartPos v s changed).1.m_madeVisible = s.m_madeVisible := by
  simp only [maxStartPos]; split_ifs <;> rfl

theorem maxStartPos_cached (v : View) (s : ViewState) (changed : Bool) :
    (maxStartPos v s changed).1.m_cachedMaxStartPos = (maxStartPos v s changed).2 := by
  simp only [maxStartPos]

theorem maxStartPos_coherent (v : View) (s : ViewState) (changed : Bool)
    (h : cacheCoherent v s) : (maxStartPos v s changed).2 = freshMaxStartPos v s := by
  simp only [maxStartPos]
  split_ifs with h1
  · rfl
  · rcases h with h | h
    · exact absurd (Or.inl h) h1
    · exact h

theorem maxStartPos_keeps_coherent (v : View) (s : ViewState) (changed : Bool)
    (h : cacheCoherent v s) : cacheCoherent v (maxStartPos v s changed).1 := by
  right
  rw [maxStartPos_cached, maxStartPos_coherent v s changed h]
  exact (freshMaxStartPos_congr v _ _ (maxStartPos_minLines v s changed)).symm

@[simp] theorem updateView_startPos (v : View) (s : ViewState) (changed : Bool) (n : Int) :
    (updateView v s changed n).m_startPos = s.m_startPos := by
  simp only [updateView]; split_ifs <;> simp

@[simp] theorem updateView_minLines (v : View) (s : ViewState) (changed : Bool) (n : Int) :
    (updateView v s changed n).m_minLinesVisible = s.m_minLinesVisible := by
  simp only [updateView]; split_ifs <;> simp

@[simp] theorem updateView_madeVisible (v : View) (s : ViewState) (changed : Bool) (n : Int) :
    (updateView v s changed n).m_madeVisible = s.m_madeVisible := by
  simp only [updateView]; split_ifs <;> simp

theorem updateView_coherent (v : View) (s : ViewState) (changed : Bool) (n : Int)
    (h : cacheCoherent v s) : cacheCoherent v (updateView v s changed n) := by
  simp only [updateView]
  by_cases hg : (!v.isVisible && decide (n = 0) && !changed) = true
  · rw [if_pos hg]
    exact h
  · rw [if_neg hg]
    refine cacheCoherent_congr v _ _ rfl rfl (maxStartPos_keeps_coherent v _ _ ?_)
    exact cacheCoherent_congr v s _ rfl rfl h

@[simp] theorem scrollPosTo_startPos (v : View) (s : ViewState) (c : Cursor) (force ce em : Bool) :
    (scrollPosTo v s c force ce em).m_startPos = c := by
  simp only [scrollPosTo]; split_ifs <;> simp

@[simp] theorem scrollPosTo_minLines (v : View) (s : ViewState) (c : Cursor)
    (force ce em : Bool) :
    (scrollPosTo v s c force ce em).m_minLinesVisible = s.m_minLinesVisible := by
  simp only [scrollPosTo]; split_ifs <;> simp

@[simp] theorem scrollPosTo_madeVisible (v : View) (s : ViewState) (c : Cursor)
    (force ce em : Bool) :
    (scrollPosTo v s c force ce em).m_madeVisible = false := by
  simp only [scrollPosTo]; split_ifs <;> simp

theorem scrollPosTo_coherent (v : View) (s : ViewState) (c : Cursor) (force ce em : Bool)
    (h : cacheCoherent v s) : cacheCoherent v (scrollPosTo v s c force ce em) := by
  simp only [scrollPosTo]
  split_ifs <;>
    exact cacheCoherent_congr v _ _ rfl rfl
      (updateView_coherent v _ _ _ (cacheCoherent_congr v s _ rfl rfl h))

theorem samePlace_congr (v : View) (s s' : ViewState) (c : Cursor)
    (h : s'.m_startPos = s.m_startPos) : samePlace v s' c = samePlace v s c := by
  simp [samePlace, startLine, startPos, h]

theorem scrollPos_eq (v : View) (s : ViewState) (c : Cursor) (force ce em : Bool) :
    scrollPos v s c force ce em =
      if (!force && samePlace v s c) = true then (s, c)
      else if Cursor.gt (lineAtLeastZero c) (maxStartPos v s false).2 = true then
        if (!force && samePlace v s (maxStartPos v s false).2) = true then
          ((maxStartPos v s false).1, (maxStartPos v s false).2)
        else (scrollPosTo v (maxStartPos v s false).1 (maxStartPos v s false).2 force ce em,
          (maxStartPos v s false).2)
      else (scrollPosTo v (maxStartPos v s false).1 (lineAtLeastZero c) force ce em,
          lineAtLeastZero c) := by
  simp only [scrollPos]
  rw [samePlace_congr v s (maxStartPos v s false).1 _ (maxStartPos_startPos v s false)]

theorem scrollPos_coherent (v : View) (s : ViewState) (c : Cursor) (force ce em : Bool)
    (h : cacheCoherent v s) : cacheCoherent v (scrollPos v s c force ce em).1 := by
  rw [scrollPos_eq]
  split_ifs
  · exact h
  · exact maxStartPos_keeps_coherent v s false h
  · exact scrollPosTo_coherent v _ _ _ _ _ (maxStartPos_keeps_coherent v s false h)
  · exact scrollPosTo_coherent v _ _ _ _ _ (maxStartPos_keeps_coherent v s false h)

theorem scrollPos_minLines (v : View) (s : ViewState) (c : Cursor) (force ce em : Bool) :
    (scrollPos v s c force ce em).1.m_minLinesVisible = s.m_minLinesVisible := by
  rw [scrollPos_eq]
  split_ifs <;> simp

/-- The scroll position `scrollPos` leaves: the clamped target, unless one of
its two tests for a scroll to the same place fires. -/
theorem scrollPos_startPos (v : View) (s : ViewState) (c : Cursor) (force ce em : Bool) :
    (scrollPos v s c force ce em).1.m_startPos =
      if (!force && samePlace v s c) = true then s.m_startPos
      else if (!force && Cursor.gt (lineAtLeastZero c) (maxStartPos v s false).2
          && samePlace v s (maxStartPos v s false).2) = true then
        s.m_startPos
      else clampedTarget c (maxStartPos v s false).2 := by
  rw [scrollPos_eq]
  simp only [clampedTarget]
  by_cases h1 : (!force && samePlace v s c) = true
  · rw [if_pos h1, if_pos h1]
  · rw [if_neg h1, if_neg h1]
    by_cases h2 : Cursor.gt (lineAtLeastZero c) (maxStartPos v s false).2 = true
    · rw [if_pos h2, if_pos h2]
      by_cases h3 : (!force && samePlace v s (maxStartPos v s false).2) = true
      · rw [if_pos h3, if_pos (by simp only [Bool.and_eq_true] at h3 ⊢; exact ⟨⟨h3.1, h2⟩, h3.2⟩)]
        simp
      · rw [if_neg h3, if_neg (by
          simp only [Bool.and_eq_true] at h3 ⊢
          exact fun h => h3 ⟨h.1.1, h.2⟩)]
        simp
    · rw [if_neg h2, if_neg h2, if_neg (by
        simp only [Bool.and_eq_true]
        exact fun h => h2 h.1.2)]
      simp

theorem gt_lineAtLeastZero (c limit : Cursor) (h : Cursor.gt c limit = true) :
    Cursor.gt (lineAtLeastZero c) limit = true := by
  unfold lineAtLeastZero
  split_ifs with h1
  · simp only [Cursor.gt, Cursor.lt, Bool.or_eq_true, Bool.and_eq_true, decide_eq_true_eq] at h ⊢
    left
    omega
  · exact h

/-! ## The limit of scrollPos -/

theorem maxStartPos_snd_congr (v : View) (s s' : ViewState) (changed : Bool)
    (h1 : s'.m_cachedMaxStartPos = s.m_cachedMaxStartPos)
    (h2 : s'.m_minLinesVisible = s.m_minLinesVisible) :
    (maxStartPos v s' changed).2 = (maxStartPos v s changed).2 := by
  simp only [maxStartPos, h1, freshMaxStartPos, h2]
  split_ifs <;> rfl

theorem maxStartPos_of_cached (v : View) (s s' : ViewState)
    (h1 : s'.m_cachedMaxStartPos = (maxStartPos v s false).2)
    (h2 : s'.m_minLinesVisible = s.m_minLinesVisible) :
    (maxStartPos v s' false).2 = (maxStartPos v s false).2 := by
  have hf := freshMaxStartPos_congr v s s' h2
  simp only [maxStartPos, Bool.false_eq_true, or_false] at h1 ⊢
  by_cases hs : s.m_cachedMaxStartPos.line = -1
  · rw [if_pos hs] at h1 ⊢
    simp only [] at h1 ⊢
    by_cases hs' : s'.m_cachedMaxStartPos.line = -1
    · rw [if_pos hs']
      exact hf
    · rw [if_neg hs']
      exact h1
  · rw [if_neg hs] at h1 ⊢
    simp only [] at h1 ⊢
    rw [if_neg (by rw [h1]; exact hs)]
    exact h1

theorem maxStartPos_with_effects (v : View) (s : ViewState) (e : List Effect) :
    (maxStartPos v { (maxStartPos v s false).1 with effects := e } false).2
      = (maxStartPos v s false).2 :=
  maxStartPos_of_cached v s _ (maxStartPos_cached v s false) (maxStartPos_minLines v s false)

theorem updateView_limit (v : View) (s : ViewState) (n : Int) (hw : v.wrapWidth = s.viewWidth) :
    (maxStartPos v (updateView v s false n) false).2 = (maxStartPos v s false).2 ∧
    (updateView v s false n).viewWidth = s.viewWidth := by
  simp only [updateView]
  by_cases hg : (!v.isVisible && decide (n = 0) && !false) = true
  · rw [if_pos hg]
    exact ⟨rfl, rfl⟩
  · rw [if_neg hg]
    have hch : (false || decide (v.wrapWidth ≠ s.viewWidth)) = false := by simp [hw]
    rw [hch]
    refine ⟨?_, ?_⟩
    · exact (maxStartPos_with_effects v _ _).trans (maxStartPos_snd_congr v s _ false rfl rfl)
    · simp only [maxStartPos]
      split_ifs <;> exact hw

theorem limit_with_effects (v : View) (s : ViewState) (e : List Effect) :
    (maxStartPos v { s with effects := e } false).2 = (maxStartPos v s false).2 :=
  maxStartPos_snd_congr v s _ false rfl rfl

theorem scrollPosTo_limit (v : View) (s : ViewState) (c : Cursor) (force ce em : Bool)
    (hw : v.wrapWidth = s.viewWidth) :
    (maxStartPos v (scrollPosTo v s c force ce em) false).2 = (maxStartPos v s false).2 ∧
    (scrollPosTo v s c force ce em).viewWidth = s.viewWidth := by
  simp only [scrollPosTo]
  split_ifs <;>
    exact ⟨(limit_with_effects v _ _).trans
        (((updateView_limit v { s with m_startPos := c, m_madeVisible := false } _ hw).1).trans
          (maxStartPos_snd_congr v s _ false rfl rfl)),
      (updateView_limit v { s with m_startPos := c, m_madeVisible := false } _ hw).2⟩

theorem scrollPos_limit (v : View) (s : ViewState) (c : Cursor) (force ce em : Bool)
    (hw : v.wrapWidth = s.viewWidth) :
    (maxStartPos v (scrollPos v s c force ce em).1 false).2 = (maxStartPos v s false).2 := by
  have hid : (maxStartPos v (maxStartPos v s false).1 false).2 = (maxStartPos v s false).2 :=
    maxStartPos_of_cached v s _ (maxStartPos_cached v s false) (maxStartPos_minLines v s false)
  have hw1 : v.wrapWidth = (maxStartPos v s false).1.viewWidth := by
    simp only [maxStartPos]
    split_ifs <;> exact hw
  rw [scrollPos_eq]
  split_ifs
  · rfl
  · exact hid
  · exact (scrollPosTo_limit v _ _ _ _ _ hw1).1.trans hid
  · exact (scrollPosTo_limit v _ _ _ _ _ hw1).1.trans hid


/-! ## scrollPos -/

theorem samePlace_self (v : View) (s : ViewState) (c : Cursor) (h : s.m_startPos = c) :
    samePlace v s c = true := by
  simp [samePlace, startPos, h]

theorem scrollPos_cursor (v : View) (s : ViewState) (c : Cursor) (force ce em : Bool) :
    (scrollPos v s c force ce em).2 =
      if (!force && samePlace v s c) = true then c
      else clampedTarget c (maxStartPos v s false).2 := by
  rw [scrollPos_eq]
  simp only [clampedTarget]
  split_ifs <;> rfl

theorem maxStartPos_after_scrollPos (v : View) (s : ViewState) (c : Cursor) (force ce em : Bool)
    (hc : v.wrapWidth = s.viewWidth ∨ cacheCoherent v s) :
    (maxStartPos v (scrollPos v s c force ce em).1 false).2 = (maxStartPos v s false).2 := by
  rcases hc with hw | hc
  · exact scrollPos_limit v s c force ce em hw
  · rw [maxStartPos_coherent v _ false (scrollPos_coherent v s c force ce em hc),
      maxStartPos_coherent v s false hc]
    exact freshMaxStartPos_congr v _ _ (scrollPos_minLines v s c force ce em)

@[simp] theorem maxStartPos_viewCache (v : View) (s : ViewState) (changed : Bool) :
    (maxStartPos v s changed).1.viewCache = s.viewCache := by
  simp only [maxStartPos]; split_ifs <;> rfl

@[simp] theorem maxStartPos_effects (v : View) (s : ViewState) (changed : Bool) :
    (maxStartPos v s changed).1.effects = s.effects := by
  simp only [maxStartPos]; split_ifs <;> rfl

/-- Where the target is not above line 0 and, once clamped, is the place the
view is at, `scrollPos` with `force = false` changes neither the scroll
position, nor `m_madeVisible`, nor the view cache, and issues no effect. -/
theorem scrollPos_noop (v : View) (s : ViewState) (c : Cursor) (ce em : Bool)
    (h0 : 0 ≤ c.line) (h : clampedTarget c (maxStartPos v s false).2 = startPos s) :
    (scrollPos v s c false ce em).1.m_startPos = s.m_startPos ∧
    (scrollPos v s c false ce em).1.m_madeVisible = s.m_madeVisible ∧
    (scrollPos v s c false ce em).1.viewCache = s.viewCache ∧
    (scrollPos v s c false ce em).1.effects = s.effects := by
  have hfix : lineAtLeastZero c = c := by simp [lineAtLeastZero, not_lt.mpr h0]
  rw [scrollPos_eq, hfix]
  simp only [clampedTarget, hfix] at h
  by_cases g1 : samePlace v s c = true
  · simp [g1]
  · by_cases g2 : Cursor.gt c (maxStartPos v s false).2 = true
    · rw [if_pos g2] at h
      have g3 := samePlace_self v s _ h.symm
      rw [if_neg (by simpa using g1), if_pos g2, if_pos (by simpa using g3)]
      simp
    · rw [if_neg g2] at h
      exact absurd (samePlace_self v s _ h.symm) g1

/-- C10: in a view of 100 lines without word wrap that is scrolled to the top,
`scrollPos` with the target `(-1, 0)` and `force = false` clamps the target to
the current scroll position `(0, 0)` and still goes on: it resets
`m_madeVisible` and updates and scrolls the view. -/
theorem scrollPos_negative_line_updates :
    startPos (settledState (plainView false false 100 20)) = ⟨0, 0⟩ ∧
    (settledState (plainView false false 100 20)).m_madeVisible = true ∧
    clampedTarget ⟨-1, 0⟩
      (maxStartPos (plainView false false 100 20)
        (settledState (plainView false false 100 20)) false).2 = ⟨0, 0⟩ ∧
    (scrollPos (plainView false false 100 20) (settledState (plainView false false 100 20))
      ⟨-1, 0⟩ false false true).1.m_madeVisible = false ∧
    (scrollPos (plainView false false 100 20) (settledState (plainView false false 100 20))
      ⟨-1, 0⟩ false false true).1.effects =
      (settledState (plainView false false 100 20)).effects ++
        [Effect.updateView false 0, Effect.scroll 0, Effect.leftBorderScroll 0,
         Effect.verticalScrollPositionChanged ⟨0, 0⟩, Effect.displayRangeChanged] := by
  decide

/-! ## Rows and the scroll position -/

theorem rowOf_le_of_gt (v : View) (h : v.dynWordWrap = true → layoutOk v) (a b : Cursor)
    (b0 : 0 ≤ b.line) (aN : a.line < v.visibleLines) (hgt : Cursor.gt a b = true) :
    rowOf v b ≤ rowOf v a := by
  apply rowOf_mono v h b a b0 aN
  simp only [Cursor.gt, Cursor.lt, Bool.or_eq_true, Bool.and_eq_true, decide_eq_true_eq] at hgt
  rcases hgt with h1 | ⟨h1, h2⟩
  · exact Or.inl h1
  · exact Or.inr ⟨h1, le_of_lt h2⟩

theorem rowOf_le_of_not_gt (v : View) (h : v.dynWordWrap = true → layoutOk v) (a b : Cursor)
    (a0 : 0 ≤ a.line) (bN : b.line < v.visibleLines) (hgt : ¬ Cursor.gt a b = true) :
    rowOf v a ≤ rowOf v b := by
  apply rowOf_mono v h a b a0 bN
  simp only [Cursor.gt, Cursor.lt, Bool.or_eq_true, Bool.and_eq_true, decide_eq_true_eq] at hgt
  push_neg at hgt
  by_cases h1 : a.line < b.line
  · exact Or.inl h1
  · right
    have h2 : a.line = b.line := by omega
    exact ⟨h2, hgt.2 h2.symm⟩

theorem rowOf_le_of_not_lt (v : View) (h : v.dynWordWrap = true → layoutOk v) (a b : Cursor)
    (b0 : 0 ≤ b.line) (aN : a.line < v.visibleLines) (hlt : ¬ Cursor.lt a b = true) :
    rowOf v b ≤ rowOf v a :=
  rowOf_le_of_not_gt v h b a b0 aN hlt

theorem rowOf_samePlace (v : View) (s : ViewState) (t : Cursor) (t0 : 0 ≤ t.line)
    (h : samePlace v s t = true) : rowOf v s.m_startPos = rowOf v t := by
  simp only [samePlace, startLine, startPos, Bool.or_eq_true, Bool.and_eq_true,
    decide_eq_true_eq, Bool.not_eq_true'] at h
  rcases h with ⟨hw, hl⟩ | h
  · rw [rowOf_unwrapped v hw _ (by omega), rowOf_unwrapped v hw _ t0, hl]
  · rw [h]

/-- The row `scrollPos` scrolls to: that of its target, or that of
`maxStartPos()` where the target lies further down. -/
theorem scrollPos_row (v : View) (s : ViewState) (t : Cursor) (force ce em : Bool)
    (hlay : v.dynWordWrap = true → layoutOk v)
    (t0 : 0 ≤ t.line) (tN : t.line < v.visibleLines)
    (m0 : 0 ≤ (maxStartPos v s false).2.line) :
    rowOf v (scrollPos v s t force ce em).1.m_startPos = rowOf v t ∨
    (rowOf v (scrollPos v s t force ce em).1.m_startPos = rowOf v (maxStartPos v s false).2 ∧
      rowOf v (maxStartPos v s false).2 ≤ rowOf v t) := by
  have hfix : lineAtLeastZero t = t := by simp [lineAtLeastZero, not_lt.mpr t0]
  rw [scrollPos_startPos, hfix]
  by_cases g1 : (!force && samePlace v s t) = true
  · rw [if_pos g1]
    simp only [Bool.and_eq_true] at g1
    exact Or.inl (rowOf_samePlace v s t t0 g1.2)
  · rw [if_neg g1]
    by_cases g2 : Cursor.gt t (maxStartPos v s false).2 = true
    · have hle := rowOf_le_of_gt v hlay t _ m0 tN g2
      right
      refine ⟨?_, hle⟩
      by_cases g3 : (!force && Cursor.gt t (maxStartPos v s false).2
          && samePlace v s (maxStartPos v s false).2) = true
      · rw [if_pos g3]
        simp only [Bool.and_eq_true] at g3
        exact rowOf_samePlace v s _ m0 g3.2
      · rw [if_neg g3]
        simp [clampedTarget, hfix, g2]
    · left
      rw [if_neg (by simp only [Bool.and_eq_true]; exact fun h => g2 h.1.2)]
      simp [clampedTarget, hfix, g2]

theorem freshMaxStartPos_row (v : View) (s : ViewState) (h : v.dynWordWrap = true → wrapOk v)
    (hN : 1 ≤ v.visibleLines) :
    0 ≤ (freshMaxStartPos v s).line ∧ (freshMaxStartPos v s).line < v.visibleLines ∧
    rowOf v (freshMaxStartPos v s) = max 0 (min (totalRows v - 1) (totalRows v - 1
      + (if v.scrollPastEnd then -s.m_minLinesVisible else -(linesDisplayed v - 1)))) := by
  have hlay : v.dynWordWrap = true → layoutOk v := fun hw => (h hw).1
  have hend := rowOf_lastLineEnd v hlay hN
  have e0 : (0 : Int) ≤ (lastLineEnd v).line := by show (0 : Int) ≤ v.visibleLines - 1; omega
  have eN : (lastLineEnd v).line < v.visibleLines := by
    show v.visibleLines - 1 < v.visibleLines; omega
  unfold freshMaxStartPos
  cases hp : v.scrollPastEnd with
  | true =>
    have := viewLineOffset_rowOf v h (lastLineEnd v) (-s.m_minLinesVisible) e0 eN
    rw [hend] at this
    simpa using this
  | false =>
    have := viewLineOffset_rowOf v h (lastLineEnd v) (-(linesDisplayed v - 1)) e0 eN
    rw [hend] at this
    simpa using this

theorem makeVisible_startPos (v : View) (s : ViewState) (c : Cursor) (ce : Bool) :
    (makeVisible v s c false false ce).m_startPos =
      if Cursor.gt c (viewLineOffset v (startPos s)
          (linesDisplayed v - s.m_minLinesVisible - 1) false) = true then
        (scrollPos v s (viewLineOffset v c (-(linesDisplayed v - s.m_minLinesVisible - 1)) false)
          false ce true).1.m_startPos
      else if Cursor.lt c (viewLineOffset v (startPos s) s.m_minLinesVisible false) = true then
        (scrollPos v s (viewLineOffset v c (-s.m_minLinesVisible) false) false ce true).1.m_startPos
      else if Cursor.gt (startPos s) (maxStartPos v s false).2 = true then
        (scrollPos v (maxStartPos v s false).1 (maxStartPos v s false).2
          (decide ((maxStartPos v s false).2.column ≠ 0)) ce true).1.m_startPos
      else s.m_startPos := by
  simp only [makeVisible, Bool.false_eq_true, if_false, Bool.false_and, startPos,
    maxStartPos_startPos]
  split_ifs <;> simp

/-! ## makeVisible -/

theorem walkedOff_line (v : View) (forwards : Bool) (hN : 1 ≤ v.visibleLines) :
    0 ≤ (walkedOff v forwards).line ∧ (walkedOff v forwards).line < v.visibleLines := by
  cases forwards with
  | true => simp only [walkedOff, lastLineEnd, if_true]; omega
  | false => simp only [walkedOff, Bool.false_eq_true, if_false]; omega

theorem walk_line (v : View) (forwards keepX : Bool) (offset : Int) (fuel : Nat)
    (virtualLine cur : Int) (hN : 1 ≤ v.visibleLines) :
    0 ≤ (walk v forwards keepX offset fuel virtualLine cur).line ∧
    (walk v forwards keepX offset fuel virtualLine cur).line < v.visibleLines := by
  induction fuel generalizing virtualLine cur with
  | zero => exact walkedOff_line v forwards hN
  | succ n ih =>
    rw [walk]
    by_cases h1 : 0 ≤ virtualLine ∧ virtualLine < v.visibleLines
    · rw [if_pos h1]
      by_cases h2 : hasLayout v (v.visibleLineToLine virtualLine) = true
      · rw [if_pos h2]
        split
        · simp only []
          split_ifs <;> exact h1
        · exact ih _ _
      · rw [if_neg h2]
        exact walkedOff_line v forwards hN
    · rw [if_neg h1]
      exact walkedOff_line v forwards hN

/-- Whatever the folding and the layouts, `viewLineOffset` of a cursor on a
visible line gives a cursor on a visible line. -/
theorem viewLineOffset_line (v : View) (c : Cursor) (offset : Int) (keepX : Bool)
    (h0 : 0 ≤ c.line) (hN : c.line < v.visibleLines) :
    0 ≤ (viewLineOffset v c offset keepX).line ∧
    (viewLineOffset v c offset keepX).line < v.visibleLines := by
  have hN1 : 1 ≤ v.visibleLines := by omega
  unfold viewLineOffset
  cases hw : v.dynWordWrap with
  | false =>
    simp only [Bool.not_false, if_true]
    split_ifs <;> constructor <;> simp only [] <;> omega
  | true =>
    simp only [Bool.not_true, Bool.false_eq_true, if_false]
    split_ifs
    · exact ⟨h0, hN⟩
    · exact walk_line v _ _ _ _ _ _ hN1
    · exact ⟨h0, hN⟩
    · exact walk_line v _ _ _ _ _ _ hN1

/-- One more round of fuel than `visibleLines - virtualLine` changes nothing in
a forward walk, nor one more than `virtualLine + 1` in a backward walk: the
loop of `viewLineOffset` ends before the fuel does. -/
theorem walk_fuel_succ (v : View) (forwards keepX : Bool) (offset : Int) (fuel : Nat)
    (virtualLine cur : Int)
    (hf : if forwards then v.visibleLines - virtualLine < fuel else virtualLine + 1 < fuel) :
    walk v forwards keepX offset (fuel + 1) virtualLine cur
      = walk v forwards keepX offset fuel virtualLine cur := by
  induction fuel generalizing virtualLine cur with
  | zero =>
    have hcond : ¬ (0 ≤ virtualLine ∧ virtualLine < v.visibleLines) := by
      intro h
      cases forwards with
      | true => simp only [if_true] at hf; push_cast at hf; omega
      | false => simp only [Bool.false_eq_true, if_false] at hf; push_cast at hf; omega
    simp only [walk, hcond, if_false]
  | succ n ih =>
    rw [walk]
    conv_rhs => rw [walk]
    by_cases h1 : 0 ≤ virtualLine ∧ virtualLine < v.visibleLines
    · rw [if_pos h1, if_pos h1]
      by_cases h2 : hasLayout v (v.visibleLineToLine virtualLine) = true
      · rw [if_pos h2, if_pos h2]
        split
        · rfl
        · apply ih
          cases forwards with
          | true =>
            simp only [if_true] at hf ⊢
            push_cast at hf
            omega
          | false =>
            simp only [Bool.false_eq_true, if_false] at hf ⊢
            push_cast at hf
            omega
      · rw [if_neg h2, if_neg h2]
    · rw [if_neg h1, if_neg h1]

/-! ## toVirtualCursor on invalid lines -/

/-- C11: for a real cursor with a negative line, whatever its column,
`toVirtualCursor` returns the invalid cursor `(-1, -1)`, the same for every
folding state (the line is not clamped, the folding is not asked); for a real
cursor with `line >= 0` it returns `(lineToVisibleLine(line), column)`. -/
theorem toVirtualCursor_invalid (v : View) (r : Cursor) :
    (r.line < 0 → toVirtualCursor v r = ⟨-1, -1⟩ ∧
      ∀ v' : View, toVirtualCursor v' r = toVirtualCursor v r) ∧
    (0 ≤ r.line → toVirtualCursor v r = ⟨v.lineToVisibleLine r.line, r.column⟩) := by
  refine ⟨fun h => ⟨?_, fun v' => ?_⟩, fun h => ?_⟩
  · simp [toVirtualCursor, h, Cursor.invalid]
  · simp [toVirtualCursor, h]
  · simp [toVirtualCursor, not_lt.mpr h]

theorem toVirtualCursor_invalid_witness :
    toVirtualCursor (foldedView false) ⟨-3, 7⟩ = ⟨-1, -1⟩ ∧
    toVirtualCursor (foldedView false) ⟨3, 7⟩ = ⟨2, 7⟩ :=
  ⟨((toVirtualCursor_invalid (foldedView false) ⟨-3, 7⟩).1 (by decide)).1,
   (toVirtualCursor_invalid (foldedView false) ⟨3, 7⟩).2 (by decide)⟩

/-! ## maxStartPos with scroll past end -/

/-- C12: with scroll-past-end enabled a freshly computed `maxStartPos()` is
`viewLineOffset(end, -m_minLinesVisible)` for the end of the last visible line;
without word wrap it is `(max(0, min(N - 1, N - 1 - m_minLinesVisible)), 0)`,
which for `m_minLinesVisible >= 0` is `(max(0, N - 1 - m_minLinesVisible), 0)`,
and with `N >= 1` visible lines a view scrolled there (or anywhere above) shows
at most `linesDisplayed() - 1` blank rows below the last line. -/
theorem maxStartPos_scrollPastEnd (v : View) (s : ViewState) (changed : Bool)
    (hp : v.scrollPastEnd = true)
    (hfresh : s.m_cachedMaxStartPos.line = -1 ∨ changed = true) :
    (maxStartPos v s changed).2
      = viewLineOffset v (lastLineEnd v) (-s.m_minLinesVisible) false ∧
    (v.dynWordWrap = false →
      (maxStartPos v s changed).2
        = ⟨max 0 (min (v.visibleLines - 1) (v.visibleLines - 1 - s.m_minLinesVisible)), 0⟩ ∧
      (0 ≤ s.m_minLinesVisible →
        (maxStartPos v s changed).2 = ⟨max 0 (v.visibleLines - 1 - s.m_minLinesVisible), 0⟩) ∧
      (1 ≤ v.visibleLines → ∀ start : Int, start ≤ (maxStartPos v s changed).2.line →
        blankRowsBelow v start ≤ linesDisplayed v - 1)) := by
  have key : (maxStartPos v s changed).2
      = viewLineOffset v (lastLineEnd v) (-s.m_minLinesVisible) false := by
    rw [maxStartPos_fresh v s changed hfresh]
    simp [freshMaxStartPos, hp]
  refine ⟨key, fun hw => ?_⟩
  have hform : (maxStartPos v s changed).2
      = ⟨max 0 (min (v.visibleLines - 1) (v.visibleLines - 1 - s.m_minLinesVisible)), 0⟩ := by
    rw [key, viewLineOffset_unwrapped v hw]
    simp only [lastLineEnd]
    rfl
  refine ⟨hform, fun hm => ?_, fun hN start hs => ?_⟩
  · rw [hform, min_eq_right (by omega)]
  · rw [hform] at hs
    simp only [blankRowsBelow] at hs ⊢
    omega

theorem maxStartPos_scrollPastEnd_witness :
    (maxStartPos (plainView false true 100 200) (initialState ⟨0, 0⟩ 3) false).2 = ⟨96, 0⟩ ∧
    blankRowsBelow (plainView false true 100 200) 96
      ≤ linesDisplayed (plainView false true 100 200) - 1 :=
  ⟨((maxStartPos_scrollPastEnd (plainView false true 100 200) (initialState ⟨0, 0⟩ 3) false
      rfl (Or.inl rfl)).2 rfl).2.1 (by decide),
   ((maxStartPos_scrollPastEnd (plainView false true 100 200) (initialState ⟨0, 0⟩ 3) false
      rfl (Or.inl rfl)).2 rfl).2.2 (by decide) 96 (by decide)⟩

/-! ## Calculating cursors -/

/-- C16: in a document with at least one line and no line of negative length,
for every cursor, negative or out of range as it may be, `makeValid` gives
`line = clamp(line, 0, lines - 1)` with `0 <= line < lines`, and
`column = clamp(column, 0, lineLength(line))` with wrapCursor on, or
`column = max(0, column)` with it off; the result satisfies `valid()` and
`makeValid` leaves it as it is. -/
theorem makeValid_valid (d : CursorDoc) (c : Cursor) (hl : 1 ≤ d.lines)
    (hlen : ∀ l : Int, 0 ≤ l → l < d.lines → 0 ≤ d.lineLength l) :
    0 ≤ (CalculatingCursor.makeValid d c).line ∧
    (CalculatingCursor.makeValid d c).line < d.lines ∧
    (CalculatingCursor.makeValid d c).line = max 0 (min (d.lines - 1) c.line) ∧
    (d.wrapCursor = true →
      (CalculatingCursor.makeValid d c).column
        = max 0 (min (d.lineLength (CalculatingCursor.makeValid d c).line) c.column) ∧
      0 ≤ (CalculatingCursor.makeValid d c).column ∧
      (CalculatingCursor.makeValid d c).column
        ≤ d.lineLength (CalculatingCursor.makeValid d c).line) ∧
    (d.wrapCursor = false → (CalculatingCursor.makeValid d c).column = max 0 c.column) ∧
    CalculatingCursor.valid d (CalculatingCursor.makeValid d c) = true ∧
    CalculatingCursor.makeValid d (CalculatingCursor.makeValid d c)
      = CalculatingCursor.makeValid d c := by
  have hline0 : 0 ≤ qBound 0 c.line (d.lines - 1) := le_max_left _ _
  have hlineN : qBound 0 c.line (d.lines - 1) < d.lines := by
    unfold qBound; omega
  have hL := hlen _ hline0 hlineN
  have hidl : qBound 0 (qBound 0 c.line (d.lines - 1)) (d.lines - 1)
      = qBound 0 c.line (d.lines - 1) := by
    unfold qBound; omega
  cases hw : d.wrapCursor with
  | true =>
    have hcol : qBound 0 (qBound 0 c.column (d.lineLength (qBound 0 c.line (d.lines - 1))))
        (d.lineLength (qBound 0 c.line (d.lines - 1)))
        = qBound 0 c.column (d.lineLength (qBound 0 c.line (d.lines - 1))) := by
      unfold qBound at hL ⊢; omega
    have hc0 : 0 ≤ qBound 0 c.column (d.lineLength (qBound 0 c.line (d.lines - 1))) :=
      le_max_left _ _
    have hc1 : qBound 0 c.column (d.lineLength (qBound 0 c.line (d.lines - 1)))
        ≤ d.lineLength (qBound 0 c.line (d.lines - 1)) := by
      unfold qBound at hL ⊢; omega
    simp only [CalculatingCursor.makeValid, CalculatingCursor.valid, hw, if_true, hidl, hcol]
    refine ⟨hline0, hlineN, rfl, fun _ => ⟨rfl, hc0, hc1⟩, fun h => absurd h (by simp), ?_, ?_⟩
    · simp [hline0, hlineN, hc0, hc1]
    · first | rfl | trivial
  | false =>
    have hc0 : (0 : Int) ≤ max 0 c.column := le_max_left _ _
    simp only [CalculatingCursor.makeValid, CalculatingCursor.valid, hw, Bool.false_eq_true,
      if_false, hidl]
    refine ⟨hline0, hlineN, rfl, fun h => absurd h (by simp), ?_, ?_, ?_⟩
    · first | exact fun _ => rfl | trivial
    · simp [hline0, hlineN]
    · simp

theorem makeValid_valid_witness :
    CalculatingCursor.makeValid (threeLines true false) ⟨7, -4⟩ = ⟨2, 0⟩ ∧
    CalculatingCursor.valid (threeLines true false)
      (CalculatingCursor.makeValid (threeLines true false) ⟨7, -4⟩) = true :=
  ⟨by decide,
   (makeValid_valid (threeLines true false) ⟨7, -4⟩ (by decide)
      (fun l _ _ => by simp only [threeLines]; split_ifs <;> omega)).2.2.2.2.2.1⟩

theorem valid_iff (d : CursorDoc) (c : Cursor) :
    CalculatingCursor.valid d c = true ↔
      0 ≤ c.line ∧ c.line < d.lines ∧ 0 ≤ c.column ∧
      (d.wrapCursor = true → c.column ≤ d.lineLength c.line) := by
  cases hw : d.wrapCursor <;>
    simp [CalculatingCursor.valid, hw, and_assoc]

theorem WrappingCursor.forward_valid (d : CursorDoc) (hok : cursorDocOk d) (steps : Nat)
    (c : Cursor) (hv : CalculatingCursor.valid d c = true) :
    CalculatingCursor.valid d (WrappingCursor.forward d steps c) = true := by
  obtain ⟨hlen, hnext, _⟩ := hok
  induction steps generalizing c with
  | zero => exact hv
  | succ k ih =>
    have hc := (valid_iff d c).mp hv
    rw [WrappingCursor.forward]
    by_cases h1 : c.column ≥ d.lineLength c.line
    · rw [if_pos h1]
      by_cases h2 : c.line ≥ d.lines - 1
      · rw [if_pos h2]; exact hv
      · rw [if_neg h2]
        have hnew : CalculatingCursor.valid d ⟨c.line + 1, 0⟩ = true := by
          rw [valid_iff]
          exact ⟨by show (0 : Int) ≤ c.line + 1; omega, by show c.line + 1 < d.lines; omega,
            le_refl _, fun _ => hlen (c.line + 1) (by omega) (by omega)⟩
        split_ifs
        · exact hnew
        · exact ih _ hnew
    · rw [if_neg h1]
      apply ih
      rw [valid_iff]
      exact ⟨hc.1, hc.2.1, (hnext c.line c.column).1, fun _ => (hnext c.line c.column).2⟩

theorem WrappingCursor.backward_valid (d : CursorDoc) (hok : cursorDocOk d) (steps : Nat)
    (c : Cursor) (hv : CalculatingCursor.valid d c = true) :
    CalculatingCursor.valid d (WrappingCursor.backward d steps c) = true := by
  obtain ⟨hlen, _, hprev⟩ := hok
  induction steps generalizing c with
  | zero => exact hv
  | succ k ih =>
    have hc := (valid_iff d c).mp hv
    rw [WrappingCursor.backward]
    by_cases h1 : c.column = 0
    · rw [if_pos h1]
      by_cases h2 : c.line = 0
      · rw [if_pos h2]; exact hv
      · rw [if_neg h2]
        have hL := hlen (c.line - 1) (by omega) (by omega)
        split_ifs
        · rw [valid_iff]
          exact ⟨by show (0 : Int) ≤ c.line - 1; omega, by show c.line - 1 < d.lines; omega,
            by show (0 : Int) ≤ c.column; omega,
            fun _ => by show c.column ≤ d.lineLength (c.line - 1); omega⟩
        · apply ih
          rw [valid_iff]
          exact ⟨by show (0 : Int) ≤ c.line - 1; omega, by show c.line - 1 < d.lines; omega,
            hL, fun _ => le_refl _⟩
    · rw [if_neg h1]
      by_cases h3 : c.column > d.lineLength c.line
      · rw [if_pos h3]
        apply ih
        rw [valid_iff]
        have hL := hlen c.line hc.1 hc.2.1
        refine ⟨hc.1, hc.2.1, by show (0 : Int) ≤ c.column - 1; omega, fun hw => ?_⟩
        have := hc.2.2.2 hw
        show c.column - 1 ≤ d.lineLength c.line
        omega
      · rw [if_neg h3]
        apply ih
        rw [valid_iff]
        exact ⟨hc.1, hc.2.1, (hprev c.line c.column).1, fun _ => (hprev c.line c.column).2⟩

/-- Where no line has a negative length and the layouts name cursor positions
within their lines, `WrappingCursor::operator+=` keeps a cursor valid. -/
theorem WrappingCursor.add_valid (d : CursorDoc) (hok : cursorDocOk d) (c : Cursor) (n : Int)
    (hv : CalculatingCursor.valid d c = true) :
    CalculatingCursor.valid d (WrappingCursor.add d c n) = true := by
  unfold WrappingCursor.add
  split_ifs
  · exact hv
  · exact WrappingCursor.forward_valid d hok _ c hv
  · exact WrappingCursor.backward_valid d hok _ c hv

theorem BoundedCursor.backward_nonempty_valid (d : CursorDoc) (hok : cursorDocOk d) (line : Int)
    (hline : 0 ≤ line ∧ line < d.lines) (hlen : 1 ≤ d.lineLength line) (steps : Nat)
    (column : Int) (hv : CalculatingCursor.valid d ⟨line, column⟩ = true) :
    CalculatingCursor.valid d ⟨line, BoundedCursor.backward d line steps column⟩ = true := by
  obtain ⟨_, _, hprev⟩ := hok
  induction steps generalizing column with
  | zero => exact hv
  | succ k ih =>
    have hc := (valid_iff d _).mp hv
    simp only at hc
    rw [BoundedCursor.backward]
    by_cases h1 : column ≥ d.lineLength line
    · rw [if_pos h1]
      apply ih
      rw [valid_iff]
      refine ⟨hline.1, hline.2, by show (0 : Int) ≤ column - 1; omega, fun hw => ?_⟩
      have := hc.2.2.2 hw
      show column - 1 ≤ d.lineLength line
      omega
    · rw [if_neg h1]
      by_cases h2 : column = 0
      · rw [if_pos h2]; exact hv
      · rw [if_neg h2]
        apply ih
        rw [valid_iff]
        exact ⟨hline.1, hline.2, (hprev line column).1, fun _ => (hprev line column).2⟩

/-- On a line that is not empty, `BoundedCursor::operator+=` with `n < 0` keeps
a cursor valid. -/
theorem BoundedCursor.add_negative_valid (d : CursorDoc) (hok : cursorDocOk d) (c : Cursor)
    (n : Int) (hn : n < 0) (hlen : 1 ≤ d.lineLength c.line)
    (hv : CalculatingCursor.valid d c = true) :
    CalculatingCursor.valid d (BoundedCursor.add d c n) = true := by
  have hc := (valid_iff d c).mp hv
  unfold BoundedCursor.add
  split_ifs with h1 h2
  · exact hv
  · omega
  · exact BoundedCursor.backward_nonempty_valid d hok c.line ⟨hc.1, hc.2.1⟩ hlen _ c.column hv

theorem threeLines_ok (wrapCursor dynWordWrap : Bool) :
    cursorDocOk (threeLines wrapCursor dynWordWrap) := by
  refine ⟨fun l _ _ => ?_, fun l col => ?_, fun l col => ?_⟩ <;>
    simp only [threeLines] <;> split_ifs <;> omega

/-- C13: in a document of eight lines in which line 7 has ten columns and line 5
three, a triple click on line 7 selects and caches the whole of line 7,
`(7, 0)` to `(7, 10)`; extending with `updateSelection((5, 2), true)` then
selects from `(5, 0)` to `(7, 3)` and not to the end `(7, 10)` of line 7: the
anchor gets the length of the line of the new cursor as its column. -/
theorem tripleClick_drag_up_last_line :
    (tripleClick (eightLines false) (noSelection ⟨7, 4⟩) false).m_selectionMode
      = SelectionMode.Line ∧
    (tripleClick (eightLines false) (noSelection ⟨7, 4⟩) false).m_selectionCached
      = ⟨⟨7, 0⟩, ⟨7, 10⟩⟩ ∧
    (tripleClick (eightLines false) (noSelection ⟨7, 4⟩) false).selection
      = ⟨⟨7, 0⟩, ⟨7, 10⟩⟩ ∧
    (updateSelection (eightLines false)
      (tripleClick (eightLines false) (noSelection ⟨7, 4⟩) false) ⟨5, 2⟩ true).selection
      = ⟨⟨5, 0⟩, ⟨7, 3⟩⟩ := by
  decide

/-- C14, as stated: with persistent selections on, a selection of line 2 with a
valid anchor, mode `Line` and the primary cursor at `(6, 1)` outside of the
selection, `updateSelection((6, 1), true)` does not snap anything: the
selection stays `(2, 0)` to `(3, 0)` and the anchor becomes the primary
cursor. -/
theorem updateSelection_line_persistent :
    (lineTwoSelected ⟨6, 1⟩).selection.isValid = true ∧
    (lineTwoSelected ⟨6, 1⟩).m_selectAnchor.isValid = true ∧
    (lineTwoSelected ⟨6, 1⟩).m_selectionMode = SelectionMode.Line ∧
    (updateSelection (eightLines true) (lineTwoSelected ⟨6, 1⟩) ⟨6, 1⟩ true).selection
      = ⟨⟨2, 0⟩, ⟨3, 0⟩⟩ ∧
    (updateSelection (eightLines true) (lineTwoSelected ⟨6, 1⟩) ⟨6, 1⟩ true).selection
      ≠ Range.of ⟨2, 0⟩ ⟨7, 0⟩ ∧
    (updateSelection (eightLines true) (lineTwoSelected ⟨6, 1⟩) ⟨6, 1⟩ true).m_selectAnchor
      = ⟨6, 1⟩ := by
  decide

/-- C14, amended: when `updateSelection(c, true)` in mode `Line` extends the
selection (there is a selection and an anchor and, with persistent selections,
the primary cursor is in the selection or at its boundary) and the cached
selection is valid: for `c` on a line below the start line of the cached
selection the anchor becomes column 0 of that start line and the selection
runs from it to `(line + 1, 0)`, or to `(line, lineLength(line))` on the last
line; for `c` on a line above, the selection runs between the anchor and
`(line, 0)`; for `c` on the start line the cached selection is selected. -/
theorem updateSelection_line (d : SelectionDoc) (st : SelectionState) (c : Cursor)
    (hg : startsSelection d st = false) (hm : st.m_selectionMode = SelectionMode.Line)
    (hv : st.m_selectionCached.isValid = true) :
    (c.line > st.m_selectionCached.start.line →
      (updateSelection d st c true).m_selectAnchor = ⟨st.m_selectionCached.start.line, 0⟩ ∧
      (updateSelection d st c true).selection
        = Range.of ⟨st.m_selectionCached.start.line, 0⟩
            (if c.line + 1 ≥ d.lines then ⟨c.line, d.lineLength c.line⟩
             else ⟨c.line + 1, 0⟩)) ∧
    (c.line < st.m_selectionCached.start.line →
      (updateSelection d st c true).selection
        = Range.of (updateSelection d st c true).m_selectAnchor ⟨c.line, 0⟩) ∧
    (c.line = st.m_selectionCached.start.line →
      (updateSelection d st c true).selection = st.m_selectionCached) := by
  simp only [updateSelection, if_true, hg, Bool.false_eq_true, if_false, hm,
    updateSelectionLine, hv, Bool.not_true]
  refine ⟨fun h => ?_, fun h => ?_, fun h => ?_⟩
  · rw [if_pos h]
    simp only [finishSelection, if_true]
    constructor <;> trivial
  · rw [if_neg (by omega), if_pos h]
    simp only [finishSelection, if_true]
  · rw [if_neg (by omega), if_neg (by omega)]
    simp only [finishSelection, Bool.false_eq_true, if_false, hv, if_true]

theorem updateSelection_line_witness :
    (updateSelection (eightLines false) (lineTwoSelected ⟨3, 0⟩) ⟨5, 2⟩ true).selection
      = ⟨⟨2, 0⟩, ⟨6, 0⟩⟩ ∧
    (updateSelection (eightLines false) (lineTwoSelected ⟨3, 0⟩) ⟨7, 2⟩ true).selection
      = ⟨⟨2, 0⟩, ⟨7, 10⟩⟩ ∧
    (updateSelection (eightLines false) (lineTwoSelected ⟨3, 0⟩) ⟨0, 4⟩ true).selection
      = ⟨⟨0, 0⟩, ⟨3, 0⟩⟩ ∧
    (updateSelection (eightLines false) (lineTwoSelected ⟨3, 0⟩) ⟨2, 4⟩ true).selection
      = ⟨⟨2, 0⟩, ⟨3, 0⟩⟩ :=
  ⟨((updateSelection_line (eightLines false) (lineTwoSelected ⟨3, 0⟩) ⟨5, 2⟩
      (by decide) (by decide) (by decide)).1 (by decide)).2.trans (by decide),
   by decide, by decide, by decide⟩

/-! ## Selection by words -/

theorem wordEndScan_spec (d : SelectionDoc) (line : Int) (steps : Nat) (c : Int)
    (hf : d.lineLength line - c ≤ steps) :
    c ≤ wordEndScan d line steps c ∧
    (wordEndScan d line steps c < d.lineLength line →
      d.isInWord line (wordEndScan d line steps c) = false) ∧
    (∀ k, c ≤ k → k < wordEndScan d line steps c →
      k < d.lineLength line ∧ d.isInWord line k = true) := by
  induction steps generalizing c with
  | zero =>
    simp only [wordEndScan]
    exact ⟨le_refl _, fun h => by simp at hf; omega, fun k h1 h2 => by omega⟩
  | succ n ih =>
    rw [wordEndScan]
    by_cases h1 : c < d.lineLength line
    · rw [if_pos h1]
      cases hw : d.isInWord line c with
      | false =>
        simp only [Bool.not_false, if_true]
        exact ⟨le_refl _, fun _ => hw, fun k h1 h2 => by omega⟩
      | true =>
        simp only [Bool.not_true, Bool.false_eq_true, if_false]
        obtain ⟨i1, i2, i3⟩ := ih (c + 1) (by push_cast at hf; omega)
        refine ⟨by omega, i2, fun k hk1 hk2 => ?_⟩
        by_cases hkc : k = c
        · subst hkc; exact ⟨h1, hw⟩
        · exact i3 k (by omega) hk2
    · rw [if_neg h1]
      exact ⟨le_refl _, fun h => absurd h h1, fun k h1 h2 => by omega⟩

theorem wordStartScan_spec (d : SelectionDoc) (line : Int) (steps : Nat) (c : Int)
    (hf : c + 1 ≤ steps) :
    wordStartScan d line steps c ≤ c ∧
    (-1 ≤ c → -1 ≤ wordStartScan d line steps c) ∧
    (0 ≤ wordStartScan d line steps c →
      d.isInWord line (wordStartScan d line steps c) = false) ∧
    (∀ k, wordStartScan d line steps c < k → k ≤ c → d.isInWord line k = true) := by
  induction steps generalizing c with
  | zero =>
    simp only [wordStartScan]
    exact ⟨le_refl _, fun h => h, fun h => by simp at hf; omega, fun k h1 h2 => by omega⟩
  | succ n ih =>
    rw [wordStartScan]
    by_cases h1 : c ≥ 0
    · rw [if_pos h1]
      cases hw : d.isInWord line c with
      | false =>
        simp only [Bool.not_false, if_true]
        exact ⟨le_refl _, fun h => h, fun _ => hw, fun k h1 h2 => by omega⟩
      | true =>
        simp only [Bool.not_true, Bool.false_eq_true, if_false]
        obtain ⟨i1, i2, i3, i4⟩ := ih (c - 1) (by push_cast at hf; omega)
        refine ⟨by omega, fun _ => i2 (by omega), i3, fun k hk1 hk2 => ?_⟩
        by_cases hkc : k = c
        · subst hkc; exact hw
        · exact i4 k hk1 (by omega)
    · rw [if_neg h1]
      exact ⟨le_refl _, fun h => h, fun h => absurd h h1, fun k h1 h2 => by omega⟩

theorem updateSelection_word_eq (d : SelectionDoc) (st : SelectionState) (c : Cursor)
    (hg : startsSelection d st = false) (hm : st.m_selectionMode = SelectionMode.Word)
    (hv : st.m_selectionCached.isValid = true) :
    updateSelection d st c true =
      if Cursor.gt c st.m_selectionCached.start then
        { st with
          m_selectAnchor := st.m_selectionCached.start
          selection := Range.of st.m_selectionCached.start
            ⟨c.line,
              if decide (c.column > 0) && d.isInWord c.line (c.column - 1) then
                wordEndScan d c.line (d.lineLength c.line - c.column).toNat c.column
              else c.column⟩
          m_selChangedByUser := true }
      else if Cursor.lt c st.m_selectionCached.start then
        { st with
          m_selectAnchor := st.m_selectionCached.end_
          selection := Range.of st.m_selectionCached.end_
            (if decide (c.column > 0) && decide (c.column < d.lineLength c.line)
                && d.isInWord c.line c.column && d.isInWord c.line (c.column - 1) then
              ⟨c.line, wordStartScan d c.line (c.column - 1).toNat (c.column - 2) + 1⟩
            else c)
          m_selChangedByUser := true }
      else { st with selection := st.m_selectionCached, m_selChangedByUser := true } := by
  simp only [updateSelection, if_true, hg, Bool.false_eq_true, if_false, hm,
    updateSelectionWord, hv, Bool.not_true]
  split_ifs <;> simp [finishSelection, hv, hm]

theorem Cursor.lt_iff (a b : Cursor) :
    Cursor.lt a b = true ↔ a.line < b.line ∨ (a.line = b.line ∧ a.column < b.column) := by
  simp [Cursor.lt]

theorem Cursor.eq_of_not_lt (a b : Cursor) (h1 : Cursor.lt a b = false)
    (h2 : Cursor.lt b a = false) : a = b := by
  have e1 : ¬ (a.line < b.line ∨ (a.line = b.line ∧ a.column < b.column)) := by
    rw [← Cursor.lt_iff]; simp [h1]
  have e2 : ¬ (b.line < a.line ∨ (b.line = a.line ∧ b.column < a.column)) := by
    rw [← Cursor.lt_iff]; simp [h2]
  cases a; cases b
  simp only [Cursor.mk.injEq] at *
  omega

/-- C15, as stated: in mode `Word` with the word in the columns 2 to 5 of line 3
cached, but no selection in the view, `updateSelection((3, 8), true)` makes the
primary cursor the anchor, not the start `(3, 2)` of the cached word, and
selects nothing. -/
theorem updateSelection_word_no_selection :
    (updateSelection (eightLines false)
      { wordSelected ⟨3, 8⟩ with selection := Range.invalid } ⟨3, 8⟩ true).m_selectAnchor
      = ⟨3, 8⟩ ∧
    (updateSelection (eightLines false)
      { wordSelected ⟨3, 8⟩ with selection := Range.invalid } ⟨3, 8⟩ true).selection
      = Range.invalid ∧
    (updateSelection (eightLines false)
      { wordSelected ⟨3, 8⟩ with selection := Range.invalid } ⟨3, 8⟩ true).selection.containsRange
        (wordSelected ⟨3, 8⟩).m_selectionCached = false := by
  decide

/-- C15, amended: when `updateSelection(c, true)` in mode `Word` extends the
selection (there is a selection and an anchor and, with persistent selections,
the primary cursor is in the selection or at its boundary) and the cached
selection `W` is valid and a run of word characters on one line (or empty):
for `c > W.start` the anchor becomes `W.start` and the selection runs from it
to `(c.line, e)`, where `e` is the column of `c`, or, when the character before
`c` is a word character, the first column at or after `c` that is the end of
the line or holds a non-word character; for `c < W.start` the anchor becomes
`W.end` and the selection runs from `(c.line, b)` to it, where `b` is the
column of `c`, or, when `c` is strictly inside a word, the first column of that
word; for `c == W.start` the selection becomes `W` and the anchor stays.  The
selection contains `W` in every case. -/
theorem updateSelection_word (d : SelectionDoc) (st : SelectionState) (c : Cursor)
    (hg : startsSelection d st = false) (hm : st.m_selectionMode = SelectionMode.Word)
    (hv : st.m_selectionCached.isValid = true)
    (hline : st.m_selectionCached.start.line = st.m_selectionCached.end_.line)
    (hcol : st.m_selectionCached.start.column ≤ st.m_selectionCached.end_.column)
    (hlen : st.m_selectionCached.end_.column ≤ d.lineLength st.m_selectionCached.start.line)
    (hword : ∀ k, st.m_selectionCached.start.column ≤ k →
      k < st.m_selectionCached.end_.column →
      d.isInWord st.m_selectionCached.start.line k = true) :
    (Cursor.gt c st.m_selectionCached.start = true →
      ∃ e : Int,
        (updateSelection d st c true).m_selectAnchor = st.m_selectionCached.start ∧
        (updateSelection d st c true).selection = ⟨st.m_selectionCached.start, ⟨c.line, e⟩⟩ ∧
        (if c.column > 0 ∧ d.isInWord c.line (c.column - 1) = true then
          c.column ≤ e ∧
          (e < d.lineLength c.line → d.isInWord c.line e = false) ∧
          (∀ k, c.column ≤ k → k < e →
            k < d.lineLength c.line ∧ d.isInWord c.line k = true)
         else e = c.column)) ∧
    (Cursor.lt c st.m_selectionCached.start = true →
      ∃ b : Int,
        (updateSelection d st c true).m_selectAnchor = st.m_selectionCached.end_ ∧
        (updateSelection d st c true).selection = ⟨⟨c.line, b⟩, st.m_selectionCached.end_⟩ ∧
        (if c.column > 0 ∧ c.column < d.lineLength c.line
            ∧ d.isInWord c.line c.column = true
            ∧ d.isInWord c.line (c.column - 1) = true then
          0 ≤ b ∧ b < c.column ∧
          (∀ k, b ≤ k → k ≤ c.column → d.isInWord c.line k = true) ∧
          (0 < b → d.isInWord c.line (b - 1) = false)
         else b = c.column)) ∧
    (c = st.m_selectionCached.start →
      (updateSelection d st c true).m_selectAnchor = st.m_selectAnchor ∧
      (updateSelection d st c true).selection = st.m_selectionCached) ∧
    (updateSelection d st c true).selection.containsRange st.m_selectionCached = true ∧
    (updateSelection d st c true).m_selectionCached = st.m_selectionCached := by
  have hv2 := hv
  simp only [Range.isValid, Cursor.isValid, Bool.and_eq_true, decide_eq_true_eq] at hv2
  obtain ⟨⟨hsl, hsc⟩, ⟨hel, hec⟩⟩ := hv2
  rw [updateSelection_word_eq d st c hg hm hv]
  by_cases hgt : Cursor.gt c st.m_selectionCached.start = true
  · -- the cursor lies behind the start of the cached word
    rw [if_pos hgt]
    have hgt2 := (Cursor.lt_iff _ _).mp hgt
    have hnlt : ¬ Cursor.lt c st.m_selectionCached.start = true := by
      rw [Cursor.lt_iff]; omega
    obtain ⟨e, he, hspec⟩ : ∃ e : Int,
        (if (decide (c.column > 0) && d.isInWord c.line (c.column - 1)) = true then
          wordEndScan d c.line (d.lineLength c.line - c.column).toNat c.column
         else c.column) = e ∧
        (if c.column > 0 ∧ d.isInWord c.line (c.column - 1) = true then
          c.column ≤ e ∧
          (e < d.lineLength c.line → d.isInWord c.line e = false) ∧
          (∀ k, c.column ≤ k → k < e →
            k < d.lineLength c.line ∧ d.isInWord c.line k = true)
         else e = c.column) := by
      by_cases hb : c.column > 0 ∧ d.isInWord c.line (c.column - 1) = true
      · refine ⟨wordEndScan d c.line (d.lineLength c.line - c.column).toNat c.column, ?_, ?_⟩
        · rw [if_pos (by simp [hb.1, hb.2])]
        · rw [if_pos hb]
          exact wordEndScan_spec d c.line _ c.column (by omega)
      · refine ⟨c.column, ?_, ?_⟩
        · rw [if_neg]
          simp only [Bool.and_eq_true, decide_eq_true_eq]
          exact hb
        · rw [if_neg hb]
    rw [he]
    have hE1 : c.column ≤ e := by
      split_ifs at hspec with hb
      · exact hspec.1
      · omega
    have hE2 : c.line = st.m_selectionCached.start.line →
        st.m_selectionCached.end_.column ≤ e := by
      intro hl
      by_contra hlt
      have hb : c.column > 0 ∧ d.isInWord c.line (c.column - 1) = true := by
        refine ⟨by omega, ?_⟩
        rw [hl]
        exact hword _ (by omega) (by omega)
      rw [if_pos hb] at hspec
      have h1 := hspec.2.1 (by rw [hl]; omega)
      have h2 := hword e (by omega) (by omega)
      rw [hl] at h1
      rw [h1] at h2
      exact absurd h2 (by simp)
    have hof : Range.of st.m_selectionCached.start ⟨c.line, e⟩
        = ⟨st.m_selectionCached.start, ⟨c.line, e⟩⟩ := by
      unfold Range.of
      rw [if_pos]
      rw [Cursor.lt_iff]
      show st.m_selectionCached.start.line < c.line ∨
        (st.m_selectionCached.start.line = c.line ∧ st.m_selectionCached.start.column < e)
      omega
    rw [hof]
    refine ⟨fun _ => ⟨e, rfl, rfl, hspec⟩, fun h => absurd h hnlt, fun h => ?_, ?_, rfl⟩
    · rw [h] at hgt2; omega
    · show Range.containsRange ⟨st.m_selectionCached.start, ⟨c.line, e⟩⟩
        st.m_selectionCached = true
      simp only [Range.containsRange, Cursor.le, Bool.and_eq_true, Bool.not_eq_true',
        ← Bool.not_eq_true, Cursor.lt_iff]
      constructor
      · omega
      · show ¬ (c.line < st.m_selectionCached.end_.line ∨
          (c.line = st.m_selectionCached.end_.line ∧ e < st.m_selectionCached.end_.column))
        omega
  · rw [if_neg hgt]
    by_cases hlt : Cursor.lt c st.m_selectionCached.start = true
    · -- the cursor lies before the start of the cached word
      rw [if_pos hlt]
      have hlt2 := (Cursor.lt_iff _ _).mp hlt
      obtain ⟨b, hb, hspec⟩ : ∃ b : Int,
          (if (decide (c.column > 0) && decide (c.column < d.lineLength c.line)
                && d.isInWord c.line c.column && d.isInWord c.line (c.column - 1)) = true then
            (⟨c.line, wordStartScan d c.line (c.column - 1).toNat (c.column - 2) + 1⟩ : Cursor)
           else c) = ⟨c.line, b⟩ ∧
          (if c.column > 0 ∧ c.column < d.lineLength c.line
              ∧ d.isInWord c.line c.column = true
              ∧ d.isInWord c.line (c.column - 1) = true then
            0 ≤ b ∧ b < c.column ∧
            (∀ k, b ≤ k → k ≤ c.column → d.isInWord c.line k = true) ∧
            (0 < b → d.isInWord c.line (b - 1) = false)
           else b = c.column) := by
        by_cases hin : c.column > 0 ∧ c.column < d.lineLength c.line
            ∧ d.isInWord c.line c.column = true
            ∧ d.isInWord c.line (c.column - 1) = true
        · refine ⟨wordStartScan d c.line (c.column - 1).toNat (c.column - 2) + 1, ?_, ?_⟩
          · rw [if_pos (by simp [hin.1, hin.2.1, hin.2.2.1, hin.2.2.2])]
          · rw [if_pos hin]
            obtain ⟨s1, s2, s3, s4⟩ :=
              wordStartScan_spec d c.line (c.column - 1).toNat (c.column - 2) (by omega)
            have s2 := s2 (by omega)
            refine ⟨by omega, by omega, fun k hk1 hk2 => ?_, fun hpos => ?_⟩
            · by_cases hk : k ≤ c.column - 2
              · exact s4 k (by omega) hk
              · by_cases hk3 : k = c.column
                · rw [hk3]; exact hin.2.2.1
                · have : k = c.column - 1 := by omega
                  rw [this]; exact hin.2.2.2
            · have hr : wordStartScan d c.line (c.column - 1).toNat (c.column - 2) + 1 - 1
                  = wordStartScan d c.line (c.column - 1).toNat (c.column - 2) := by omega
              rw [hr]
              exact s3 (by omega)
        · refine ⟨c.column, ?_, ?_⟩
          · rw [if_neg]
            simp only [Bool.and_eq_true, decide_eq_true_eq, and_assoc]
            exact hin
          · rw [if_neg hin]
      rw [hb]
      have hB1 : b ≤ c.column := by
        split_ifs at hspec with hin
        · omega
        · omega
      have hof : Range.of st.m_selectionCached.end_ ⟨c.line, b⟩
          = ⟨⟨c.line, b⟩, st.m_selectionCached.end_⟩ := by
        unfold Range.of
        rw [if_neg]
        rw [Cursor.lt_iff]
        show ¬ (st.m_selectionCached.end_.line < c.line ∨
          (st.m_selectionCached.end_.line = c.line ∧ st.m_selectionCached.end_.column < b))
        omega
      rw [hof]
      refine ⟨fun h => absurd h hgt, fun _ => ⟨b, rfl, rfl, hspec⟩, fun h => ?_, ?_, rfl⟩
      · rw [h] at hlt2; omega
      · show Range.containsRange ⟨⟨c.line, b⟩, st.m_selectionCached.end_⟩
          st.m_selectionCached = true
        simp only [Range.containsRange, Cursor.le, Bool.and_eq_true, Bool.not_eq_true',
          ← Bool.not_eq_true, Cursor.lt_iff]
        constructor
        · show ¬ (st.m_selectionCached.start.line < c.line ∨
            (st.m_selectionCached.start.line = c.line ∧ st.m_selectionCached.start.column < b))
          omega
        · omega
    · -- the cursor is the start of the cached word
      rw [if_neg hlt]
      refine ⟨fun h => absurd h hgt, fun h => absurd h hlt, fun _ => ⟨rfl, rfl⟩, ?_, rfl⟩
      show Range.containsRange st.m_selectionCached st.m_selectionCached = true
      simp only [Range.containsRange, Cursor.le, Bool.and_eq_true, Bool.not_eq_true',
        ← Bool.not_eq_true, Cursor.lt_iff]
      constructor <;> omega

theorem updateSelection_word_witness :
    (updateSelection (eightLines false) (wordSelected ⟨3, 6⟩) ⟨4, 3⟩ true).selection
      = ⟨⟨3, 2⟩, ⟨4, 6⟩⟩ ∧
    (updateSelection (eightLines false) (wordSelected ⟨3, 6⟩) ⟨3, 4⟩ true).selection
      = ⟨⟨3, 2⟩, ⟨3, 6⟩⟩ ∧
    (updateSelection (eightLines false) (wordSelected ⟨3, 6⟩) ⟨2, 4⟩ true).selection
      = ⟨⟨2, 2⟩, ⟨3, 6⟩⟩ ∧
    (updateSelection (eightLines false) (wordSelected ⟨3, 6⟩) ⟨4, 3⟩ true).selection.containsRange
      (wordSelected ⟨3, 6⟩).m_selectionCached = true :=
  ⟨by decide, by decide, by decide,
   (updateSelection_word (eightLines false) (wordSelected ⟨3, 6⟩) ⟨4, 3⟩
      (by decide) (by decide) (by decide) (by decide) (by decide) (by decide)
      (fun k h1 h2 => by
        simp only [eightLines, wordSelected] at *
        simp only [Bool.and_eq_true, decide_eq_true_eq]
        omega)).2.2.2.1⟩

/-! ## Dirty regions -/

theorem updateDirtyScan_runs (h w : Int) (hh : 0 < h) (l : List Bool) (n : Nat)
    (o : Option Nat) (start end_ : Int)
    (hnone : o = none → start = -1)
    (hsome : ∀ s, o = some s → s < n ∧ start = h * s ∧ end_ = h * (n - s)) :
    updateDirtyScan h w l n start end_ = (runsFrom l n o).map (runRect h w) := by
  induction l generalizing n o start end_ with
  | nil =>
    cases o with
    | none => simp [updateDirtyScan, runsFrom, hnone rfl]
    | some s =>
      obtain ⟨h1, h2, h3⟩ := hsome s rfl
      have hs : (0 : Int) ≤ h * s := by positivity
      have hne : start ≠ -1 := by omega
      simp only [updateDirtyScan, runsFrom, if_pos hne, List.map, runRect]
      congr 2
      rw [h3]
      congr 1
      omega
  | cons x rest ih =>
    cases o with
    | none =>
      have hst := hnone rfl
      cases x with
      | true =>
        simp only [updateDirtyScan, runsFrom, if_true, hst]
        have := ih (n + 1) (some n) (h * n) h (by simp)
          (fun s hs => by
            simp only [Option.some.injEq] at hs
            subst hs
            refine ⟨by omega, rfl, ?_⟩
            push_cast; ring)
        simpa using this
      | false =>
        simp only [updateDirtyScan, runsFrom, Bool.false_eq_true, if_false, hst, ne_eq,
          not_true_eq_false]
        have := ih (n + 1) none (-1) end_ (fun _ => rfl) (fun s hs => by simp at hs)
        simpa using this
    | some s =>
      obtain ⟨h1, h2, h3⟩ := hsome s rfl
      have hs : (0 : Int) ≤ h * s := by positivity
      have hne : start ≠ -1 := by omega
      cases x with
      | true =>
        simp only [updateDirtyScan, runsFrom, if_true, if_neg hne]
        have := ih (n + 1) (some s) start (end_ + h) (by simp)
          (fun s2 hs2 => by
            simp only [Option.some.injEq] at hs2
            subst hs2
            refine ⟨by omega, h2, ?_⟩
            rw [h3]; push_cast; ring)
        simpa using this
      | false =>
        simp only [updateDirtyScan, runsFrom, Bool.false_eq_true, if_false, if_pos hne,
          List.map]
        have := ih (n + 1) none (-1) (-1) (fun _ => rfl) (fun s hs => by simp at hs)
        have e : (⟨0, start, w, end_⟩ : Rect) = runRect h w (s, n - 1) := by
          simp only [runRect]
          congr 1
          rw [h3]
          congr 1
          omega
        rw [e]
        exact congrArg (List.cons _) (by simpa using this)

theorem dirtyAt_of_drop_cons (flags : List Bool) (i : Nat) (x : Bool) (rest : List Bool)
    (h : flags.drop i = x :: rest) : dirtyAt flags i = x ∧ flags.drop (i + 1) = rest := by
  constructor
  · have h0 : (flags.drop i)[0]? = some x := by rw [h]; simp
    rw [List.getElem?_drop] at h0
    simp only [dirtyAt, List.getD_eq_getElem?_getD]
    simp only [add_zero] at h0
    rw [h0]; rfl
  · have : flags.drop (i + 1) = (flags.drop i).drop 1 := by
      rw [List.drop_drop]
    rw [this, h]; rfl

theorem dirtyAt_of_drop_nil (flags : List Bool) (i : Nat) (h : flags.drop i = [])
    (k : Nat) (hk : i ≤ k) : dirtyAt flags k = false := by
  have hl : flags.length ≤ i := List.drop_eq_nil_iff.mp h
  simp only [dirtyAt, List.getD_eq_getElem?_getD]
  rw [List.getElem?_eq_none (by omega)]
  rfl

theorem runsFrom_mem (flags : List Bool) (l : List Bool) (i : Nat) (o : Option Nat)
    (hl : flags.drop i = l) (hinv : runsInv flags i o) (a b : Nat) :
    (a, b) ∈ runsFrom l i o ↔ isMaximalRun flags a b ∧ i ≤ b + 1 := by
  induction l generalizing i o with
  | nil =>
    have hclean := dirtyAt_of_drop_nil flags i hl
    cases o with
    | none =>
      simp only [runsFrom, List.not_mem_nil, false_iff, not_and]
      intro hm hb
      obtain ⟨m1, m2, m3, m4⟩ := hm
      have hbd := m2 b (by omega) (by omega)
      by_cases hbi : i ≤ b
      · rw [hclean b hbi] at hbd; exact absurd hbd (by simp)
      · have : b = i - 1 := by omega
        rcases hinv with h0 | h0
        · omega
        · rw [this, h0] at hbd; exact absurd hbd (by simp)
    | some s =>
      obtain ⟨i1, i2, i3⟩ := hinv
      simp only [runsFrom, List.mem_singleton, Prod.mk.injEq]
      constructor
      · rintro ⟨rfl, rfl⟩
        refine ⟨⟨by omega, fun k h1 h2 => i2 k h1 (by omega), i3, ?_⟩, by omega⟩
        exact hclean _ (by omega)
      · rintro ⟨⟨m1, m2, m3, m4⟩, hb⟩
        have hbd := m2 b (by omega) (by omega)
        have hbi : b = i - 1 := by
          by_contra hne
          rw [hclean b (by omega)] at hbd; exact absurd hbd (by simp)
        refine ⟨?_, hbi⟩
        by_contra hne
        rcases Nat.lt_or_gt_of_ne hne with hlt | hgt
        · rcases i3 with h0 | h0
          · omega
          · have := m2 (s - 1) (by omega) (by omega)
            rw [h0] at this; exact absurd this (by simp)
        · rcases m3 with h0 | h0
          · omega
          · have := i2 (a - 1) (by omega) (by omega)
            rw [h0] at this; exact absurd this (by simp)
  | cons x rest ih =>
    obtain ⟨hx, hrest⟩ := dirtyAt_of_drop_cons flags i x rest hl
    cases o with
    | none =>
      have hnb : ∀ b, isMaximalRun flags a b → i ≤ b + 1 → i ≤ b := by
        intro b hm hb
        by_contra hlt
        have hbi : b = i - 1 := by omega
        have hbd := hm.2.1 b hm.1 (by omega)
        rcases hinv with h0 | h0
        · omega
        · rw [hbi, h0] at hbd; exact absurd hbd (by simp)
      cases x with
      | true =>
        simp only [runsFrom]
        rw [ih (i + 1) (some i) hrest ⟨by omega, fun k h1 h2 => by
          have : k = i := by omega
          rw [this]; exact hx, by simpa using hinv⟩]
        constructor
        · rintro ⟨hm, hb⟩; exact ⟨hm, by omega⟩
        · rintro ⟨hm, hb⟩; exact ⟨hm, by have := hnb b hm hb; omega⟩
      | false =>
        simp only [runsFrom]
        rw [ih (i + 1) none hrest (Or.inr (by simpa using hx))]
        constructor
        · rintro ⟨hm, hb⟩; exact ⟨hm, by omega⟩
        · rintro ⟨hm, hb⟩; exact ⟨hm, by have := hnb b hm hb; omega⟩
    | some s =>
      obtain ⟨i1, i2, i3⟩ := hinv
      cases x with
      | true =>
        simp only [runsFrom]
        rw [ih (i + 1) (some s) hrest ⟨by omega, fun k h1 h2 => by
          by_cases hk : k = i
          · rw [hk]; exact hx
          · exact i2 k h1 (by omega), i3⟩]
        constructor
        · rintro ⟨hm, hb⟩; exact ⟨hm, by omega⟩
        · rintro ⟨hm, hb⟩
          refine ⟨hm, ?_⟩
          by_contra hlt
          have hbi : b + 1 = i := by omega
          have := hm.2.2.2
          rw [hbi, hx] at this; exact absurd this (by simp)
      | false =>
        simp only [runsFrom, List.mem_cons, Prod.mk.injEq]
        rw [ih (i + 1) none hrest (Or.inr (by simpa using hx))]
        constructor
        · rintro (⟨rfl, rfl⟩ | ⟨hm, hb⟩)
          · refine ⟨⟨by omega, fun k h1 h2 => i2 k h1 (by omega), i3, ?_⟩, by omega⟩
            have : i - 1 + 1 = i := by omega
            rw [this]; exact hx
          · exact ⟨hm, by omega⟩
        · rintro ⟨hm, hb⟩
          by_cases hbi : i ≤ b
          · by_cases hbe : b = i
            · have := hm.2.1 b hm.1 (by omega)
              rw [hbe, hx] at this; exact absurd this (by simp)
            · exact Or.inr ⟨hm, by omega⟩
          · left
            have hbe : b = i - 1 := by omega
            refine ⟨?_, hbe⟩
            obtain ⟨m1, m2, m3, m4⟩ := hm
            by_contra hne
            rcases Nat.lt_or_gt_of_ne hne with hlt | hgt
            · rcases i3 with h0 | h0
              · omega
              · have := m2 (s - 1) (by omega) (by omega)
                rw [h0] at this; exact absurd this (by simp)
            · rcases m3 with h0 | h0
              · omega
              · have := i2 (a - 1) (by omega) (by omega)
                rw [h0] at this; exact absurd this (by simp)

theorem runsFrom_lower (l : List Bool) (i : Nat) (o : Option Nat)
    (ho : ∀ s, o = some s → s < i) (p : Nat × Nat) (hp : p ∈ runsFrom l i o) :
    o.getD i ≤ p.1 := by
  induction l generalizing i o with
  | nil =>
    cases o with
    | none => simp [runsFrom] at hp
    | some s =>
      simp only [runsFrom, List.mem_singleton] at hp
      subst hp; simp
  | cons x rest ih =>
    cases o with
    | none =>
      cases x with
      | true =>
        simp only [runsFrom] at hp
        have := ih (i + 1) (some i) (fun s hs => by simp at hs; omega) hp
        simpa using this
      | false =>
        simp only [runsFrom] at hp
        have := ih (i + 1) none (fun s hs => by simp at hs) hp
        simp only [Option.getD_none] at this ⊢
        omega
    | some s =>
      have hs := ho s rfl
      cases x with
      | true =>
        simp only [runsFrom] at hp
        have := ih (i + 1) (some s) (fun s2 hs2 => by simp at hs2; omega) hp
        simpa using this
      | false =>
        simp only [runsFrom, List.mem_cons] at hp
        rcases hp with rfl | hp
        · simp
        · have := ih (i + 1) none (fun s hs => by simp at hs) hp
          simp only [Option.getD_none, Option.getD_some] at this ⊢
          omega

theorem runsFrom_pairwise (l : List Bool) (i : Nat) (o : Option Nat)
    (ho : ∀ s, o = some s → s < i) :
    (runsFrom l i o).Pairwise (fun p q => p.2 + 1 < q.1) := by
  induction l generalizing i o with
  | nil =>
    cases o with
    | none => simp [runsFrom]
    | some s => simp [runsFrom]
  | cons x rest ih =>
    cases o with
    | none =>
      cases x with
      | true =>
        simp only [runsFrom]
        exact ih (i + 1) (some i) (fun s hs => by simp at hs; omega)
      | false =>
        simp only [runsFrom]
        exact ih (i + 1) none (fun s hs => by simp at hs)
    | some s =>
      have hs := ho s rfl
      cases x with
      | true =>
        simp only [runsFrom]
        exact ih (i + 1) (some s) (fun s2 hs2 => by simp at hs2; omega)
      | false =>
        simp only [runsFrom, List.pairwise_cons]
        refine ⟨fun q hq => ?_, ih (i + 1) none (fun s hs => by simp at hs)⟩
        have := runsFrom_lower rest (i + 1) none (fun s hs => by simp at hs) q hq
        simp only [Option.getD_none] at this
        show i - 1 + 1 < q.1
        omega

theorem runsFrom_cover (flags : List Bool) (l : List Bool) (i : Nat) (o : Option Nat)
    (hl : flags.drop i = l) (ho : ∀ s, o = some s → s < i) (k : Nat)
    (hk : o.getD i ≤ k) (hd : dirtyAt flags k = true) :
    ∃ p ∈ runsFrom l i o, p.1 ≤ k ∧ k ≤ p.2 := by
  induction l generalizing i o with
  | nil =>
    have hclean := dirtyAt_of_drop_nil flags i hl
    have hki : k < i := by
      by_contra hge
      rw [hclean k (by omega)] at hd; exact absurd hd (by simp)
    cases o with
    | none => simp only [Option.getD_none] at hk; omega
    | some s =>
      simp only [Option.getD_some] at hk
      exact ⟨(s, i - 1), by simp [runsFrom], hk, by show k ≤ i - 1; omega⟩
  | cons x rest ih =>
    obtain ⟨hx, hrest⟩ := dirtyAt_of_drop_cons flags i x rest hl
    cases o with
    | none =>
      simp only [Option.getD_none] at hk
      cases x with
      | true =>
        simp only [runsFrom]
        exact ih (i + 1) (some i) hrest (fun s hs => by simp at hs; omega) (by simpa using hk)
      | false =>
        simp only [runsFrom]
        have hne : k ≠ i := by
          intro h; rw [h, hx] at hd; exact absurd hd (by simp)
        exact ih (i + 1) none hrest (fun s hs => by simp at hs)
          (by simp only [Option.getD_none]; omega)
    | some s =>
      have hs := ho s rfl
      simp only [Option.getD_some] at hk
      cases x with
      | true =>
        simp only [runsFrom]
        exact ih (i + 1) (some s) hrest (fun s2 hs2 => by simp at hs2; omega)
          (by simpa using hk)
      | false =>
        simp only [runsFrom, List.mem_cons]
        have hne : k ≠ i := by
          intro h; rw [h, hx] at hd; exact absurd hd (by simp)
        by_cases hki : k < i
        · exact ⟨(s, i - 1), Or.inl rfl, hk, by show k ≤ i - 1; omega⟩
        · obtain ⟨p, hp, h1, h2⟩ := ih (i + 1) none hrest (fun s hs => by simp at hs)
            (by simp only [Option.getD_none]; omega)
          exact ⟨p, Or.inr hp, h1, h2⟩

/-- C18, amended: for every list of dirty flags of the rows of the view cache,
every positive line height `h` and every width `w`, the rectangles `updateDirty` adds
to its region are, in order, the rectangles `(0, h*i, w, h*(j - i + 1))` of a
list of runs `[i, j]` that holds exactly the maximal runs of dirty rows, each
once and in increasing order; the rectangles lie strictly below one another, a
row is dirty exactly when one of them contains it, none of them meets a row
that is not dirty, no update is requested when no row is dirty, and with a
positive width the update of exactly these rectangles is requested when some
row is. -/
theorem updateDirty_runs (h w : Int) (flags : List Bool) (hh : 0 < h) :
    ∃ runs : List (Nat × Nat),
      updateDirtyScan h w flags 0 (-1) (-1)
        = runs.map (fun p => (⟨0, h * p.1, w, h * (p.2 - p.1 + 1)⟩ : Rect)) ∧
      (∀ i j, (i, j) ∈ runs ↔ isMaximalRun flags i j) ∧
      runs.Pairwise (fun p q => p.2 + 1 < q.1) ∧
      (updateDirtyScan h w flags 0 (-1) (-1)).Pairwise (fun a b => a.y + a.height < b.y) ∧
      (∀ k, dirtyAt flags k = true ↔
        ∃ r ∈ updateDirtyScan h w flags 0 (-1) (-1),
          r.y ≤ h * k ∧ h * (k + 1) ≤ r.y + r.height) ∧
      (∀ k, dirtyAt flags k = false →
        ∀ r ∈ updateDirtyScan h w flags 0 (-1) (-1),
          h * (k + 1) ≤ r.y ∨ r.y + r.height ≤ h * k) ∧
      ((∀ k, dirtyAt flags k = false) → updateDirty h w flags = none) ∧
      (0 < w → (∃ k, dirtyAt flags k = true) →
        updateDirty h w flags = some (updateDirtyScan h w flags 0 (-1) (-1))) := by
  have hscan : updateDirtyScan h w flags 0 (-1) (-1)
      = (runsFrom flags 0 none).map (runRect h w) := by
    have := updateDirtyScan_runs h w hh flags 0 none (-1) (-1) (fun _ => rfl)
      (fun s hs => by simp at hs)
    simpa using this
  have hmem : ∀ i j, (i, j) ∈ runsFrom flags 0 none ↔ isMaximalRun flags i j := by
    intro i j
    rw [runsFrom_mem flags flags 0 none rfl (Or.inl rfl) i j]
    simp
  have hpw := runsFrom_pairwise flags 0 none (fun s hs => by simp at hs)
  have hord : ∀ p ∈ runsFrom flags 0 none, p.1 ≤ p.2 := by
    intro p hp
    exact ((hmem p.1 p.2).mp hp).1
  have hcov : ∀ k, dirtyAt flags k = true ↔
      ∃ p ∈ runsFrom flags 0 none, p.1 ≤ k ∧ k ≤ p.2 := by
    intro k
    constructor
    · intro hd
      exact runsFrom_cover flags flags 0 none rfl (fun s hs => by simp at hs) k
        (by simp) hd
    · rintro ⟨p, hp, h1, h2⟩
      exact ((hmem p.1 p.2).mp hp).2.1 k h1 (by omega)
  have hbottom : ∀ p : Nat × Nat, p.1 ≤ p.2 →
      (runRect h w p).y + (runRect h w p).height = h * ((p.2 : Int) + 1) := by
    intro p _
    simp only [runRect]; ring
  refine ⟨runsFrom flags 0 none, hscan, hmem, hpw, ?_, ?_, ?_, ?_, ?_⟩
  · rw [hscan, List.pairwise_map]
    refine hpw.imp_of_mem ?_
    intro p q hp _ hpq
    rw [hbottom p (hord p hp)]
    show h * ((p.2 : Int) + 1) < h * (q.1 : Int)
    have : ((p.2 : Int) + 1) < (q.1 : Int) := by exact_mod_cast hpq
    exact mul_lt_mul_of_pos_left this hh
  · intro k
    rw [hcov k, hscan]
    simp only [List.mem_map, exists_exists_and_eq_and]
    constructor
    · rintro ⟨p, hp, h1, h2⟩
      refine ⟨p, hp, ?_, ?_⟩
      · show h * (p.1 : Int) ≤ h * k
        exact mul_le_mul_of_nonneg_left (by exact_mod_cast h1) hh.le
      · rw [hbottom p (hord p hp)]
        exact mul_le_mul_of_nonneg_left (by exact_mod_cast Nat.succ_le_succ h2) hh.le
    · rintro ⟨p, hp, h1, h2⟩
      refine ⟨p, hp, ?_, ?_⟩
      · have h1 : h * (p.1 : Int) ≤ h * k := h1
        have := le_of_mul_le_mul_left h1 hh
        exact_mod_cast this
      · rw [hbottom p (hord p hp)] at h2
        have := le_of_mul_le_mul_left h2 hh
        have : (k : Int) + 1 ≤ (p.2 : Int) + 1 := this
        omega
  · intro k hk r hr
    rw [hscan] at hr
    simp only [List.mem_map] at hr
    obtain ⟨p, hp, rfl⟩ := hr
    rw [hbottom p (hord p hp)]
    show h * ((k : Int) + 1) ≤ h * (p.1 : Int) ∨ h * ((p.2 : Int) + 1) ≤ h * k
    have hnot : ¬ (p.1 ≤ k ∧ k ≤ p.2) := by
      intro hin
      have := (hcov k).mpr ⟨p, hp, hin⟩
      rw [hk] at this; exact absurd this (by simp)
    by_cases h1 : k < p.1
    · left
      exact mul_le_mul_of_nonneg_left (by exact_mod_cast h1) hh.le
    · right
      have : p.2 + 1 ≤ k := by omega
      exact mul_le_mul_of_nonneg_left (by exact_mod_cast this) hh.le
  · intro hclean
    have hnil : runsFrom flags 0 none = [] := by
      apply List.eq_nil_iff_forall_not_mem.mpr
      intro p hp
      have := ((hmem p.1 p.2).mp hp).2.1 p.1 (le_refl _) (by have := hord p hp; omega)
      rw [hclean] at this; exact absurd this (by simp)
    simp [updateDirty, hscan, hnil]
  · intro hw ⟨k, hk⟩
    obtain ⟨p, hp, _, _⟩ := (hcov k).mp hk
    have hne : (List.all (updateDirtyScan h w flags 0 (-1) (-1)) Rect.isEmpty) = false := by
      rw [hscan]
      simp only [List.all_eq_false, List.mem_map, exists_exists_and_eq_and]
      refine ⟨p, hp, ?_⟩
      simp only [Rect.isEmpty, runRect, Bool.or_eq_true, decide_eq_true_eq, not_or, not_le]
      refine ⟨hw, ?_⟩
      have : (0 : Int) < (p.2 : Int) - p.1 + 1 := by
        have := hord p hp
        omega
      exact mul_pos hh this
    simp only [updateDirty, hne, Bool.false_eq_true, if_false]

theorem updateDirty_runs_witness :
    updateDirtyScan 10 100 [true, true, false, true, false] 0 (-1) (-1)
      = [⟨0, 0, 100, 20⟩, ⟨0, 30, 100, 10⟩] ∧
    isMaximalRun [true, true, false, true, false] 0 1 ∧
    isMaximalRun [true, true, false, true, false] 3 3 ∧
    updateDirty 10 100 [true, true, false, true, false]
      = some (updateDirtyScan 10 100 [true, true, false, true, false] 0 (-1) (-1)) :=
  ⟨by decide, by decide, by decide,
   (updateDirty_runs 10 100 [true, true, false, true, false] (by decide)).elim
     (fun _ h => h.2.2.2.2.2.2.2 (by decide) ⟨0, by decide⟩)⟩

/-! ## Coordinates -/

/-- C19: `cursorToCoordinate` gives the point `(-1, -1)` whenever the line of the
cursor is at or behind the number of lines of the document, or its display row
is negative or not a row of the view cache, or its column is behind the end of
its line; in every other case it gives `y = row * lineHeight`, which is not
`-1` for a line height that is not negative, and `x = cursorToX(column)`, or 0
when the layout of the row is invalid, plus the width of the border when it is
included, minus `startX()`. -/
theorem cursorToCoordinate_sentinel (v : View) (s : ViewState) (g : Geometry)
    (cursor : Cursor) (realCursor includeBorder : Bool) (row : Int)
    (hrow : row
      = displayViewLineLimited v s (if realCursor then toVirtualCursor v cursor else cursor)) :
    ((cursor.line ≥ v.lines ∨ row < 0 ∨ row ≥ viewCacheLineCount s
        ∨ cursor.column > v.lineLength cursor.line) →
      cursorToCoordinate v s g cursor realCursor includeBorder = ⟨-1, -1⟩) ∧
    (¬ (cursor.line ≥ v.lines ∨ row < 0 ∨ row ≥ viewCacheLineCount s
        ∨ cursor.column > v.lineLength cursor.line) →
      cursorToCoordinate v s g cursor realCursor includeBorder
        = ⟨(if (cacheRow s row.toNat).isValid then
              g.cursorToX (cacheRow s row.toNat) cursor.column else 0)
            + (if includeBorder then g.leftBorderWidth else 0) - g.startX,
           row * v.lineHeight⟩ ∧
      (0 ≤ v.lineHeight →
        (cursorToCoordinate v s g cursor realCursor includeBorder).y ≠ -1)) := by
  subst hrow
  constructor
  · intro h
    unfold cursorToCoordinate
    by_cases h1 : cursor.line ≥ v.lines
    · rw [if_pos h1]
    · rw [if_neg h1]
      simp only []
      by_cases h2 : displayViewLineLimited v s
          (if realCursor then toVirtualCursor v cursor else cursor) < 0 ∨
          displayViewLineLimited v s
            (if realCursor then toVirtualCursor v cursor else cursor) ≥ viewCacheLineCount s
      · rw [if_pos h2]
      · rw [if_neg h2]
        have h3 : cursor.column > v.lineLength cursor.line := by
          rcases h with h | h | h | h
          · exact absurd h h1
          · exact absurd (Or.inl h) h2
          · exact absurd (Or.inr h) h2
          · exact h
        rw [if_pos h3]
  · intro h
    have h1 : ¬ cursor.line ≥ v.lines := fun c => h (Or.inl c)
    have h2 : ¬ (displayViewLineLimited v s
          (if realCursor then toVirtualCursor v cursor else cursor) < 0 ∨
          displayViewLineLimited v s
            (if realCursor then toVirtualCursor v cursor else cursor) ≥ viewCacheLineCount s) := by
      rintro (c | c)
      · exact h (Or.inr (Or.inl c))
      · exact h (Or.inr (Or.inr (Or.inl c)))
    have h3 : ¬ cursor.column > v.lineLength cursor.line :=
      fun c => h (Or.inr (Or.inr (Or.inr c)))
    have hval : cursorToCoordinate v s g cursor realCursor includeBorder
        = ⟨(if (cacheRow s (displayViewLineLimited v s
                (if realCursor then toVirtualCursor v cursor else cursor)).toNat).isValid then
              g.cursorToX (cacheRow s (displayViewLineLimited v s
                (if realCursor then toVirtualCursor v cursor else cursor)).toNat) cursor.column
            else 0)
            + (if includeBorder then g.leftBorderWidth else 0) - g.startX,
           displayViewLineLimited v s
              (if realCursor then toVirtualCursor v cursor else cursor) * v.lineHeight⟩ := by
      unfold cursorToCoordinate
      rw [if_neg h1]
      simp only []
      rw [if_neg h2, if_neg h3]
      cases includeBorder <;> simp
    refine ⟨hval, fun hh => ?_⟩
    rw [hval]
    show displayViewLineLimited v s
      (if realCursor then toVirtualCursor v cursor else cursor) * v.lineHeight ≠ -1
    have hr : 0 ≤ displayViewLineLimited v s
        (if realCursor then toVirtualCursor v cursor else cursor) := by
      by_contra c
      exact h2 (Or.inl (by omega))
    have := mul_nonneg hr hh
    omega

theorem cursorToCoordinate_sentinel_witness :
    cursorToCoordinate (plainView false false 30 100) (settledState (plainView false false 30 100))
      plainGeometry ⟨3, 7⟩ true true = ⟨95, 30⟩ ∧
    cursorToCoordinate (plainView false false 30 100) (settledState (plainView false false 30 100))
      plainGeometry ⟨40, 0⟩ true true = ⟨-1, -1⟩ ∧
    cursorToCoordinate (plainView false false 30 100) (settledState (plainView false false 30 100))
      plainGeometry ⟨3, 26⟩ true true = ⟨-1, -1⟩ :=
  ⟨((cursorToCoordinate_sentinel (plainView false false 30 100)
      (settledState (plainView false false 30 100)) plainGeometry ⟨3, 7⟩ true true 3
      (by decide)).2 (by decide)).1.trans (by decide),
   (cursorToCoordinate_sentinel (plainView false false 30 100)
      (settledState (plainView false false 30 100)) plainGeometry ⟨40, 0⟩ true true _
      rfl).1 (Or.inl (by decide)),
   by decide⟩

theorem yToKateTextLayout_eq (v : View) (s : ViewState) (y : Int) (hh : 0 < v.lineHeight) :
    yToKateTextLayout v s y
      = if y < 0 ∨ y > v.height ∨ y.tdiv v.lineHeight ≥ viewCacheLineCount s then
          TextLayout.invalid
        else cacheRow s (y.tdiv v.lineHeight).toNat := by
  unfold yToKateTextLayout
  by_cases h1 : y < 0 ∨ y > v.height
  · rw [if_pos h1, if_pos (by tauto)]
  · rw [if_neg h1]
    have hy : 0 ≤ y := by
      by_contra c; exact h1 (Or.inl (by omega))
    have hr : 0 ≤ y.tdiv v.lineHeight := by
      rw [Int.tdiv_eq_ediv hy hh.le]
      exact Int.ediv_nonneg hy hh.le
    simp only []
    by_cases h2 : y.tdiv v.lineHeight ≥ viewCacheLineCount s
    · rw [if_neg (by omega), if_pos (by tauto)]
    · rw [if_pos ⟨hr, by omega⟩, if_neg (by tauto)]

/-- C20: with a positive line height, for every pixel `y`, `yToKateTextLayout`
gives the invalid layout when `y < 0`, when `y` is greater than the height of
the widget, or when the row `y / lineHeight` is not a row of the view cache;
otherwise it gives the row `y / lineHeight` of the view cache, the row whose
pixels hold `y`.  `coordinatesToCursor` gives the invalid cursor for every
point of such a `y`, and for every point in a row whose cached layout is
invalid. -/
theorem yToKateTextLayout_rows (v : View) (s : ViewState) (y : Int)
    (hh : 0 < v.lineHeight) :
    ((y < 0 ∨ y > v.height ∨ y.tdiv v.lineHeight ≥ viewCacheLineCount s) →
      yToKateTextLayout v s y = TextLayout.invalid) ∧
    (¬ (y < 0 ∨ y > v.height ∨ y.tdiv v.lineHeight ≥ viewCacheLineCount s) →
      yToKateTextLayout v s y = cacheRow s (y.tdiv v.lineHeight).toNat ∧
      0 ≤ y.tdiv v.lineHeight ∧
      v.lineHeight * y.tdiv v.lineHeight ≤ y ∧
      y < v.lineHeight * (y.tdiv v.lineHeight + 1)) ∧
    (∀ (g : Geometry) (x : Int) (includeBorder : Bool),
      (y < 0 ∨ y > v.height ∨ y.tdiv v.lineHeight ≥ viewCacheLineCount s
        ∨ (cacheRow s (y.tdiv v.lineHeight).toNat).isValid = false) →
      coordinatesToCursor v s g ⟨x, y⟩ includeBorder = Cursor.invalid) := by
  refine ⟨fun h => ?_, fun h => ?_, fun g x includeBorder h => ?_⟩
  · rw [yToKateTextLayout_eq v s y hh, if_pos h]
  · rw [yToKateTextLayout_eq v s y hh, if_neg h]
    have hy : 0 ≤ y := by
      by_contra c; exact h (Or.inl (by omega))
    rw [Int.tdiv_eq_ediv hy hh.le]
    refine ⟨rfl, Int.ediv_nonneg hy hh.le, ?_, ?_⟩
    · have := Int.ediv_mul_le y (ne_of_gt hh)
      rw [mul_comm]; exact this
    · have := Int.lt_ediv_add_one_mul_self y hh
      rw [mul_comm]; exact this
  · have hinv : (yToKateTextLayout v s y).isValid = false := by
      rw [yToKateTextLayout_eq v s y hh]
      by_cases h1 : y < 0 ∨ y > v.height ∨ y.tdiv v.lineHeight ≥ viewCacheLineCount s
      · rw [if_pos h1]; rfl
      · rw [if_neg h1]
        rcases h with h | h | h | h
        · exact absurd (Or.inl h) h1
        · exact absurd (Or.inr (Or.inl h)) h1
        · exact absurd (Or.inr (Or.inr h)) h1
        · exact h
    unfold coordinatesToCursor
    cases includeBorder
    · simp only [Bool.false_eq_true, if_false, hinv]
      split_ifs <;> rfl
    · simp only [if_true, hinv, Bool.false_eq_true, if_false]
      split_ifs <;> rfl

theorem yToKateTextLayout_rows_witness :
    yToKateTextLayout (plainView false false 30 100)
      (settledState (plainView false false 30 100)) 47
      = cacheRow (settledState (plainView false false 30 100)) 4 ∧
    (cacheRow (settledState (plainView false false 30 100)) 4).line = 4 ∧
    yToKateTextLayout (plainView false false 30 100)
      (settledState (plainView false false 30 100)) 101 = TextLayout.invalid ∧
    coordinatesToCursor (plainView false false 30 100)
      (settledState (plainView false false 30 100)) plainGeometry ⟨12, -3⟩ true
      = Cursor.invalid ∧
    coordinatesToCursor (plainView false false 30 100)
      (settledState (plainView false false 30 100)) plainGeometry ⟨97, 47⟩ true = ⟨4, 7⟩ :=
  ⟨((yToKateTextLayout_rows (plainView false false 30 100)
      (settledState (plainView false false 30 100)) 47 (by decide)).2.1 (by decide)).1,
   by decide, by decide, by decide, by decide⟩

/-! ## makeVisible with centering -/

theorem makeVisible_center_startPos (v : View) (s : ViewState) (c : Cursor) (ce : Bool)
    (hoff : (Cursor.lt c (startPos s) || Cursor.gt c (endPos v s)) = true) :
    (makeVisible v s c false true ce).m_startPos
      = (scrollPos v s (viewLineOffset v c ((-(linesDisplayed v)).tdiv 2) false)
          false ce true).1.m_startPos := by
  simp only [makeVisible, Bool.false_eq_true, if_false, Bool.true_and, hoff, if_true]

theorem rangeAffectsView_ordered (v : View) (s : ViewState) (range : Range)
    (hr : range.start.line ≤ range.end_.line) (hcount : 0 ≤ s.m_visibleLineCount) :
    rangeAffectsView v s range false = true := by
  simp only [rangeAffectsView, Bool.false_eq_true, if_false, Bool.or_eq_true,
    decide_eq_true_eq]
  omega

/-- C23: in a view that shows the lines 10 to 15, `rangeAffectsView` with virtual
cursors gives `true` for the range of the lines 0 to 2, which lies above the
window, and for the range of the lines 20 to 22, which lies below it: the
result is the disjunction of the two comparisons that tell whether the line
spans meet, not their conjunction. -/
theorem rangeAffectsView_outside :
    startLine (windowState 10 5) = 10 ∧
    startLine (windowState 10 5) + (windowState 10 5).m_visibleLineCount = 15 ∧
    rangeAffectsView (plainView false false 30 100) (windowState 10 5)
      ⟨⟨0, 0⟩, ⟨2, 0⟩⟩ false = true ∧
    rangeAffectsView (plainView false false 30 100) (windowState 10 5)
      ⟨⟨20, 0⟩, ⟨22, 0⟩⟩ false = true := by
  decide

/-! ## Selection with the mouse -/

theorem updateSelection_mouse_eq (d : SelectionDoc) (st : SelectionState) (c : Cursor)
    (hg : startsSelection d st = false) (hm : st.m_selectionMode = SelectionMode.Mouse)
    (hv : st.m_selectionCached.isValid = true) :
    updateSelection d st c true =
      if Cursor.gt c st.m_selectionCached.end_ then
        { st with
          m_selectAnchor := st.m_selectionCached.start
          selection := Range.of st.m_selectionCached.start c
          m_selChangedByUser := true }
      else if Cursor.lt c st.m_selectionCached.start then
        { st with
          m_selectAnchor := st.m_selectionCached.end_
          selection := Range.of st.m_selectionCached.end_ c
          m_selChangedByUser := true }
      else { st with selection := st.m_selectionCached, m_selChangedByUser := true } := by
  simp only [updateSelection, if_true, hg, Bool.false_eq_true, if_false, hm,
    updateSelectionMouse, hv, Bool.not_true]
  split_ifs <;> simp [finishSelection, hv, hm]

/-- C24, as stated: in mode `Mouse` with the valid cached selection `(3, 2)` to
`(3, 6)`, but no selection in the view, `updateSelection((4, 3), true)` makes
the primary cursor `(3, 8)` the anchor, which is neither end of the cached
selection nor the anchor of before, and selects nothing. -/
theorem updateSelection_mouse_no_selection :
    ({ mouseSelected ⟨3, 8⟩ with selection := Range.invalid } : SelectionState).m_selectionCached.isValid
      = true ∧
    (updateSelection (eightLines false)
      { mouseSelected ⟨3, 8⟩ with selection := Range.invalid } ⟨4, 3⟩ true).m_selectAnchor
      = ⟨3, 8⟩ ∧
    ({ mouseSelected ⟨3, 8⟩ with selection := Range.invalid } : SelectionState).m_selectAnchor
      = ⟨3, 2⟩ ∧
    (updateSelection (eightLines false)
      { mouseSelected ⟨3, 8⟩ with selection := Range.invalid } ⟨4, 3⟩ true).selection
      = Range.invalid ∧
    (updateSelection (eightLines false)
      { mouseSelected ⟨3, 8⟩ with selection := Range.invalid } ⟨4, 3⟩ true).selection.containsRange
        (mouseSelected ⟨3, 8⟩).m_selectionCached = false := by
  decide

/-- C24, amended: when `updateSelection(c, true)` in mode `Mouse` extends the
selection (there is a selection and an anchor and, with persistent selections,
the primary cursor is in the selection or at its boundary) and the cached
selection `S` is valid with `S.start <= S.end`: for `c > S.end` the selection
becomes `S.start` to `c` with the anchor at `S.start`; for `c < S.start` it
becomes `c` to `S.end` with the anchor at `S.end`; otherwise it becomes `S` and
the anchor stays.  The selection contains `S` in every case, the anchor is an
end of `S` or the anchor of before, and `S` stays cached. -/
theorem updateSelection_mouse (d : SelectionDoc) (st : SelectionState) (c : Cursor)
    (hg : startsSelection d st = false) (hm : st.m_selectionMode = SelectionMode.Mouse)
    (hv : st.m_selectionCached.isValid = true)
    (hord : Cursor.le st.m_selectionCached.start st.m_selectionCached.end_ = true) :
    (Cursor.gt c st.m_selectionCached.end_ = true →
      (updateSelection d st c true).m_selectAnchor = st.m_selectionCached.start ∧
      (updateSelection d st c true).selection = ⟨st.m_selectionCached.start, c⟩) ∧
    (Cursor.lt c st.m_selectionCached.start = true →
      (updateSelection d st c true).m_selectAnchor = st.m_selectionCached.end_ ∧
      (updateSelection d st c true).selection = ⟨c, st.m_selectionCached.end_⟩) ∧
    (Cursor.le st.m_selectionCached.start c = true →
      Cursor.le c st.m_selectionCached.end_ = true →
      (updateSelection d st c true).m_selectAnchor = st.m_selectAnchor ∧
      (updateSelection d st c true).selection = st.m_selectionCached) ∧
    (updateSelection d st c true).selection.containsRange st.m_selectionCached = true ∧
    ((updateSelection d st c true).m_selectAnchor = st.m_selectionCached.start ∨
      (updateSelection d st c true).m_selectAnchor = st.m_selectionCached.end_ ∨
      (updateSelection d st c true).m_selectAnchor = st.m_selectAnchor) ∧
    (updateSelection d st c true).m_selectionCached = st.m_selectionCached := by
  have hord2 : ¬ (st.m_selectionCached.end_.line < st.m_selectionCached.start.line ∨
      (st.m_selectionCached.end_.line = st.m_selectionCached.start.line ∧
        st.m_selectionCached.end_.column < st.m_selectionCached.start.column)) := by
    rw [← Cursor.lt_iff]
    simpa [Cursor.le] using hord
  rw [updateSelection_mouse_eq d st c hg hm hv]
  by_cases hgt : Cursor.gt c st.m_selectionCached.end_ = true
  · rw [if_pos hgt]
    have hgt2 : st.m_selectionCached.end_.line < c.line ∨
        (st.m_selectionCached.end_.line = c.line ∧ st.m_selectionCached.end_.column < c.column) :=
      (Cursor.lt_iff _ _).mp hgt
    have hof : Range.of st.m_selectionCached.start c = ⟨st.m_selectionCached.start, c⟩ := by
      unfold Range.of
      rw [if_pos]
      rw [Cursor.lt_iff]
      omega
    rw [hof]
    refine ⟨fun _ => ⟨rfl, rfl⟩, fun h => ?_, fun h1 h2 => ?_, ?_, Or.inl rfl, rfl⟩
    · have := (Cursor.lt_iff _ _).mp h
      omega
    · have h2 : ¬ (st.m_selectionCached.end_.line < c.line ∨
          (st.m_selectionCached.end_.line = c.line ∧
            st.m_selectionCached.end_.column < c.column)) := by
        rw [← Cursor.lt_iff]
        simpa [Cursor.le] using h2
      exact absurd hgt2 h2
    · show Range.containsRange ⟨st.m_selectionCached.start, c⟩ st.m_selectionCached = true
      simp only [Range.containsRange, Cursor.le, Bool.and_eq_true, Bool.not_eq_true',
        ← Bool.not_eq_true, Cursor.lt_iff]
      constructor <;> omega
  · rw [if_neg hgt]
    have hgt2 : ¬ (st.m_selectionCached.end_.line < c.line ∨
        (st.m_selectionCached.end_.line = c.line ∧
          st.m_selectionCached.end_.column < c.column)) := by
      rw [← Cursor.lt_iff]; exact hgt
    by_cases hlt : Cursor.lt c st.m_selectionCached.start = true
    · rw [if_pos hlt]
      have hlt2 := (Cursor.lt_iff _ _).mp hlt
      have hof : Range.of st.m_selectionCached.end_ c = ⟨c, st.m_selectionCached.end_⟩ := by
        unfold Range.of
        rw [if_neg]
        rw [Cursor.lt_iff]
        omega
      rw [hof]
      refine ⟨fun h => absurd h hgt, fun _ => ⟨rfl, rfl⟩, fun h1 _ => ?_, ?_, Or.inr (Or.inl rfl),
        rfl⟩
      · have h1 : ¬ (c.line < st.m_selectionCached.start.line ∨
            (c.line = st.m_selectionCached.start.line ∧
              c.column < st.m_selectionCached.start.column)) := by
          rw [← Cursor.lt_iff]
          simpa [Cursor.le] using h1
        exact absurd hlt2 h1
      · show Range.containsRange ⟨c, st.m_selectionCached.end_⟩ st.m_selectionCached = true
        simp only [Range.containsRange, Cursor.le, Bool.and_eq_true, Bool.not_eq_true',
          ← Bool.not_eq_true, Cursor.lt_iff]
        constructor <;> omega
    · rw [if_neg hlt]
      refine ⟨fun h => absurd h hgt, fun h => absurd h hlt, fun _ _ => ⟨rfl, rfl⟩, ?_,
        Or.inr (Or.inr rfl), rfl⟩
      show Range.containsRange st.m_selectionCached st.m_selectionCached = true
      simp only [Range.containsRange, Cursor.le, Bool.and_eq_true, Bool.not_eq_true',
        ← Bool.not_eq_true, Cursor.lt_iff]
      constructor <;> omega

theorem updateSelection_mouse_witness :
    (updateSelection (eightLines false) (mouseSelected ⟨3, 6⟩) ⟨4, 3⟩ true).selection
      = ⟨⟨3, 2⟩, ⟨4, 3⟩⟩ ∧
    (updateSelection (eightLines false) (mouseSelected ⟨3, 6⟩) ⟨1, 7⟩ true).selection
      = ⟨⟨1, 7⟩, ⟨3, 6⟩⟩ ∧
    (updateSelection (eightLines false) (mouseSelected ⟨3, 6⟩) ⟨3, 4⟩ true).selection
      = ⟨⟨3, 2⟩, ⟨3, 6⟩⟩ :=
  ⟨((updateSelection_mouse (eightLines false) (mouseSelected ⟨3, 6⟩) ⟨4, 3⟩
      (by decide) (by decide) (by decide) (by decide)).1 (by decide)).2,
   by decide, by decide⟩

/-! ## Margins -/

@[simp] theorem updateView_effects_mem (v : View) (s : ViewState) (n : Int) :
    Effect.updateView true n ∈ (updateView v s true n).effects := by
  simp only [updateView, Bool.not_true, Bool.and_false, Bool.false_eq_true, if_false,
    maxStartPos_effects]
  simp

/-- C25: after `setAutoCenterLines(v, updateView)`, `m_autoCenterLines` is `v`
and `m_minLinesVisible` is `min((linesDisplayed() - 1) / 2, v)`; for `v >= 0`
the margin is between 0 and `v`, twice the margin is at most
`linesDisplayed() - 1`, and the row after the top margin is before the first
row of the bottom margin. -/
theorem setAutoCenterLines_margin (v : View) (k : ViewInternal) (viewLines : Int)
    (update : Bool) :
    (setAutoCenterLines v k viewLines update).m_autoCenterLines = viewLines ∧
    (setAutoCenterLines v k viewLines update).view.m_minLinesVisible
      = min ((linesDisplayed v - 1).tdiv 2) viewLines ∧
    (0 ≤ viewLines →
      0 ≤ (setAutoCenterLines v k viewLines update).view.m_minLinesVisible ∧
      (setAutoCenterLines v k viewLines update).view.m_minLinesVisible ≤ viewLines ∧
      2 * (setAutoCenterLines v k viewLines update).view.m_minLinesVisible
        ≤ linesDisplayed v - 1 ∧
      (setAutoCenterLines v k viewLines update).view.m_minLinesVisible
        < linesDisplayed v - (setAutoCenterLines v k viewLines update).view.m_minLinesVisible) := by
  have hL := linesDisplayed_ge_one v
  have hq : (linesDisplayed v - 1).tdiv 2 = (linesDisplayed v - 1) / 2 :=
    Int.tdiv_eq_ediv (by omega) (by decide)
  have h1 : (setAutoCenterLines v k viewLines update).m_autoCenterLines = viewLines := by
    cases update <;> simp [setAutoCenterLines]
  have h2 : (setAutoCenterLines v k viewLines update).view.m_minLinesVisible
      = min ((linesDisplayed v - 1).tdiv 2) viewLines := by
    cases update <;> simp [setAutoCenterLines]
  refine ⟨h1, h2, fun hv => ?_⟩
  rw [h2, hq]
  omega

theorem setAutoCenterLines_margin_witness :
    (setAutoCenterLines (plainView false false 30 100) initialInternal 7 true).view.m_minLinesVisible
      = 4 ∧
    (setAutoCenterLines (plainView false false 30 100) initialInternal 3 false).view.m_minLinesVisible
      = 3 ∧
    2 * (setAutoCenterLines (plainView false false 30 100) initialInternal 7 true).view.m_minLinesVisible
      ≤ linesDisplayed (plainView false false 30 100) - 1 :=
  ⟨by decide, by decide,
   ((setAutoCenterLines_margin (plainView false false 30 100) initialInternal 7 true).2.2
      (by decide)).2.2.1⟩

/-! ## Edit sessions -/

@[simp] theorem editEndTag_depth (v : View) (k : ViewInternal) (a b : Int) (tagFrom : Bool) :
    (editEndTag v k a b tagFrom).editSessionNumber = k.editSessionNumber := by
  unfold editEndTag
  by_cases ht : (tagFrom && decide (a ≤ v.visibleLineToLine (startLine k.view))) = true
  · rw [if_pos ht]
  · rw [if_neg ht]

@[simp] theorem editEndTag_view (v : View) (k : ViewInternal) (a b : Int) (tagFrom : Bool) :
    (editEndTag v k a b tagFrom).view = k.view := by
  unfold editEndTag
  by_cases ht : (tagFrom && decide (a ≤ v.visibleLineToLine (startLine k.view))) = true
  · rw [if_pos ht]
  · rw [if_neg ht]

theorem editEndTag_effects (v : View) (k : ViewInternal) (a b : Int) (tagFrom : Bool) :
    EditEffect.tagAll ∈ (editEndTag v k a b tagFrom).editEffects ∨
      ∃ e, EditEffect.tagLines a e true ∈ (editEndTag v k a b tagFrom).editEffects := by
  unfold editEndTag
  by_cases ht : (tagFrom && decide (a ≤ v.visibleLineToLine (startLine k.view))) = true
  · rw [if_pos ht]
    left; simp
  · rw [if_neg ht]
    right
    exact ⟨if tagFrom then max (v.lines - 1 + 1) b else b, by simp⟩

@[simp] theorem editEndBrackets_depth (k : ViewInternal) :
    (editEndBrackets k).editSessionNumber = k.editSessionNumber := by
  unfold editEndBrackets; split_ifs <;> rfl

@[simp] theorem editEndBrackets_view (k : ViewInternal) :
    (editEndBrackets k).view = k.view := by
  unfold editEndBrackets; split_ifs <;> rfl

theorem editEndBrackets_effects (k : ViewInternal) (e : EditEffect) (h : e ∈ k.editEffects) :
    e ∈ (editEndBrackets k).editEffects := by
  unfold editEndBrackets; split_ifs <;> simp [h]

@[simp] theorem editEndNotify_depth (k : ViewInternal) (a b : Int) (active : Bool) :
    (editEndNotify k a b active).editSessionNumber = k.editSessionNumber := by
  unfold editEndNotify; split_ifs <;> rfl

@[simp] theorem editEndNotify_view_effects (k : ViewInternal) (a b : Int) (active : Bool) :
    (editEndNotify k a b active).view.effects = k.view.effects := by
  unfold editEndNotify; split_ifs <;> rfl

theorem editEndNotify_effects (k : ViewInternal) (a b : Int) (active : Bool) (e : EditEffect)
    (h : e ∈ k.editEffects) : e ∈ (editEndNotify k a b active).editEffects := by
  unfold editEndNotify; split_ifs <;> simp [h]

@[simp] theorem editEndSelection_depth (k : ViewInternal) (a b : Int) :
    (editEndSelection k a b).editSessionNumber = k.editSessionNumber := by
  unfold editEndSelection; split_ifs <;> rfl

@[simp] theorem editEndSelection_view (k : ViewInternal) (a b : Int) :
    (editEndSelection k a b).view = k.view := by
  unfold editEndSelection; split_ifs <;> rfl

theorem editEndSelection_effects (k : ViewInternal) (a b : Int) (e : EditEffect)
    (h : e ∈ k.editEffects) : e ∈ (editEndSelection k a b).editEffects := by
  unfold editEndSelection; split_ifs <;> simp [h]

theorem editEndOutermost_depth (v : View) (k : ViewInternal) (a b : Int)
    (tagFrom active : Bool) :
    (editEndOutermost v k a b tagFrom active).editSessionNumber = k.editSessionNumber := by
  simp [editEndOutermost]

theorem editEndOutermost_running (v : View) (k : ViewInternal) (a b : Int)
    (tagFrom active : Bool) :
    (editEndOutermost v k a b tagFrom active).editIsRunning = false := by
  simp [editEndOutermost]

theorem editEndOutermost_updates (v : View) (k : ViewInternal) (a b : Int)
    (tagFrom active : Bool) :
    Effect.updateView true 0 ∈ (editEndOutermost v k a b tagFrom active).view.effects := by
  simp only [editEndOutermost, editEndSelection_view, editEndNotify_view_effects]
  exact updateView_effects_mem v _ 0

theorem editEndOutermost_tags (v : View) (k : ViewInternal) (a b : Int)
    (tagFrom active : Bool) :
    EditEffect.tagAll ∈ (editEndOutermost v k a b tagFrom active).editEffects ∨
      ∃ e, EditEffect.tagLines a e true
        ∈ (editEndOutermost v k a b tagFrom active).editEffects := by
  have lift : ∀ e : EditEffect,
      e ∈ (editEndTag v
            { k with view := { k.view with
                m_startPos := ⟨startLine k.view, editEndColumn v k.view⟩ } }
            a b tagFrom).editEffects →
      e ∈ (editEndOutermost v k a b tagFrom active).editEffects := by
    intro e he
    simp only [editEndOutermost]
    apply editEndSelection_effects
    apply editEndNotify_effects
    exact editEndBrackets_effects _ e he
  rcases editEndTag_effects v
      { k with view := { k.view with
          m_startPos := ⟨startLine k.view, editEndColumn v k.view⟩ } } a b tagFrom with h | ⟨e, h⟩
  · exact Or.inl (lift _ h)
  · exact Or.inr ⟨e, lift _ h⟩

theorem editStart_depth (k : ViewInternal) :
    (editStart k).editSessionNumber = k.editSessionNumber + 1 := by
  simp only [editStart]
  split_ifs <;> rfl

theorem editEnd_depth (v : View) (k : ViewInternal) (a b : Int) (tagFrom active : Bool) :
    (editEnd v k a b tagFrom active).editSessionNumber
      = if k.editSessionNumber = 0 then 0 else k.editSessionNumber - 1 := by
  unfold editEnd
  by_cases h0 : k.editSessionNumber = 0
  · rw [if_pos h0, if_pos h0]; exact h0
  · rw [if_neg h0, if_neg h0]
    simp only []
    split_ifs
    · rfl
    · rw [editEndOutermost_depth]

theorem runEditCalls_depth (v : View) (active : Bool) (calls : List EditCall)
    (k : ViewInternal) (h : 0 ≤ k.editSessionNumber) :
    0 ≤ (runEditCalls v active calls k).editSessionNumber := by
  induction calls generalizing k with
  | nil => exact h
  | cons call rest ih =>
    cases call with
    | editStart =>
      simp only [runEditCalls]
      exact ih _ (by rw [editStart_depth]; omega)
    | editEnd a b tagFrom =>
      simp only [runEditCalls]
      refine ih _ ?_
      rw [editEnd_depth]
      split_ifs <;> omega

/-- C26: `editEnd` at depth 0 leaves the state as it is; `editStart` inside a
session only counts up and keeps the snapshot, while the outermost `editStart`
sets `editIsRunning` and takes the snapshot of the cursor and the selection; an
`editEnd` at a depth above 1 only counts down; the `editEnd` at depth 1 brings
the depth to 0, resets `editIsRunning`, tags (all, or the lines from the first
tagged line on) and updates the view; and after every sequence of calls from a
depth that is not negative the depth is not negative. -/
theorem editSession_nesting (v : View) (k : ViewInternal) (a b : Int)
    (tagFrom active : Bool) :
    (k.editSessionNumber = 0 → editEnd v k a b tagFrom active = k) ∧
    (0 < k.editSessionNumber →
      editStart k = { k with editSessionNumber := k.editSessionNumber + 1 }) ∧
    (k.editSessionNumber = 0 →
      editStart k = { k with
        editSessionNumber := 1
        editIsRunning := true
        editOldCursor := k.primaryCursor
        editOldSelection := k.selection }) ∧
    (1 < k.editSessionNumber →
      editEnd v k a b tagFrom active = { k with editSessionNumber := k.editSessionNumber - 1 }) ∧
    (k.editSessionNumber = 1 →
      (editEnd v k a b tagFrom active).editSessionNumber = 0 ∧
      (editEnd v k a b tagFrom active).editIsRunning = false ∧
      Effect.updateView true 0 ∈ (editEnd v k a b tagFrom active).view.effects ∧
      (EditEffect.tagAll ∈ (editEnd v k a b tagFrom active).editEffects ∨
        ∃ e, EditEffect.tagLines a e true ∈ (editEnd v k a b tagFrom active).editEffects)) ∧
    (∀ calls : List EditCall, 0 ≤ k.editSessionNumber →
      0 ≤ (runEditCalls v active calls k).editSessionNumber) := by
  refine ⟨fun h => ?_, fun h => ?_, fun h => ?_, fun h => ?_, fun h => ?_,
    fun calls h => runEditCalls_depth v active calls k h⟩
  · unfold editEnd; rw [if_pos h]
  · unfold editStart
    simp only []
    rw [if_pos (by omega)]
  · unfold editStart
    simp only []
    rw [if_neg (by omega), h]
    rfl
  · unfold editEnd
    rw [if_neg (by omega)]
    simp only []
    rw [if_pos (by omega)]
  · have he : editEnd v k a b tagFrom active
        = editEndOutermost v { k with editSessionNumber := k.editSessionNumber - 1 }
            a b tagFrom active := by
      unfold editEnd
      rw [if_neg (by omega)]
      simp only []
      rw [if_neg (by omega)]
    rw [he]
    refine ⟨?_, editEndOutermost_running _ _ _ _ _ _, editEndOutermost_updates _ _ _ _ _ _,
      editEndOutermost_tags _ _ _ _ _ _⟩
    rw [editEndOutermost_depth]
    show k.editSessionNumber - 1 = 0
    omega

theorem editSession_nesting_witness :
    (runEditCalls (plainView false false 30 100) true
      [EditCall.editStart, EditCall.editStart, EditCall.editEnd 0 1 false]
      initialInternal).editSessionNumber = 1 ∧
    (runEditCalls (plainView false false 30 100) true
      [EditCall.editStart, EditCall.editStart, EditCall.editEnd 0 1 false]
      initialInternal).editEffects = [] ∧
    (runEditCalls (plainView false false 30 100) true
      [EditCall.editStart, EditCall.editStart, EditCall.editEnd 0 1 false,
        EditCall.editEnd 0 1 false, EditCall.editEnd 0 1 false]
      initialInternal).editSessionNumber = 0 ∧
    editEnd (plainView false false 30 100) initialInternal 0 1 false true = initialInternal :=
  ⟨by decide, by decide, by decide,
   (editSession_nesting (plainView false false 30 100) initialInternal 0 1 false true).1
     (by decide)⟩

/-! ## Configuration sessions -/

theorem KateConfig.configStart_depth (c : KateConfig) :
    c.configStart.configSessionNumber = c.configSessionNumber + 1 := by
  simp only [KateConfig.configStart]
  split_ifs <;> rfl

theorem KateConfig.configStart_calls (c : KateConfig) :
    c.configStart.updateConfigCalls = c.updateConfigCalls := by
  simp only [KateConfig.configStart]
  split_ifs <;> rfl

theorem KateConfig.configStart_ok (c : KateConfig) (h : configOk c) : configOk c.configStart := by
  obtain ⟨h0, hr⟩ := h
  simp only [KateConfig.configStart]
  by_cases h1 : c.configSessionNumber + 1 > 1
  · rw [if_pos h1]
    exact ⟨by show 0 ≤ c.configSessionNumber + 1; omega,
      by show c.configIsRunning = true ↔ 0 < c.configSessionNumber + 1
         rw [hr]; omega⟩
  · rw [if_neg h1]
    exact ⟨by show 0 ≤ c.configSessionNumber + 1; omega,
      by show true = true ↔ 0 < c.configSessionNumber + 1
         simp; omega⟩

theorem KateConfig.configEnd_ok (c : KateConfig) (h : configOk c) : configOk c.configEnd := by
  obtain ⟨h0, hr⟩ := h
  simp only [KateConfig.configEnd]
  by_cases h1 : c.configSessionNumber = 0
  · rw [if_pos h1]; exact ⟨h0, hr⟩
  · rw [if_neg h1]
    by_cases h2 : c.configSessionNumber - 1 > 0
    · rw [if_pos h2]
      exact ⟨by show 0 ≤ c.configSessionNumber - 1; omega,
        by show c.configIsRunning = true ↔ 0 < c.configSessionNumber - 1
           rw [hr]; omega⟩
    · rw [if_neg h2]
      exact ⟨by show 0 ≤ c.configSessionNumber - 1; omega,
        by show false = true ↔ 0 < c.configSessionNumber - 1
           simp; omega⟩

theorem KateConfig.configEnd_depth (c : KateConfig) :
    c.configEnd.configSessionNumber
      = if c.configSessionNumber = 0 then 0 else c.configSessionNumber - 1 := by
  simp only [KateConfig.configEnd]
  by_cases h1 : c.configSessionNumber = 0
  · rw [if_pos h1, if_pos h1]; exact h1
  · rw [if_neg h1, if_neg h1]
    split_ifs <;> rfl

theorem KateConfig.configEnd_calls (c : KateConfig) (h0 : 0 ≤ c.configSessionNumber) :
    c.configEnd.updateConfigCalls
      = if c.configSessionNumber = 1 then c.updateConfigCalls + 1 else c.updateConfigCalls := by
  simp only [KateConfig.configEnd]
  by_cases h1 : c.configSessionNumber = 0
  · rw [if_pos h1, if_neg (by omega)]
  · rw [if_neg h1]
    by_cases h2 : c.configSessionNumber - 1 > 0
    · rw [if_pos h2, if_neg (by omega)]
    · rw [if_neg h2]
      by_cases h3 : c.configSessionNumber = 1
      · rw [if_pos h3]
      · omega

theorem KateConfig.configStart_nested (c : KateConfig) (h : 1 ≤ c.configSessionNumber) :
    c.configStart = { c with configSessionNumber := c.configSessionNumber + 1 } := by
  simp only [KateConfig.configStart]
  rw [if_pos (by omega)]

theorem KateConfig.configEnd_nested (c : KateConfig) (h : 1 < c.configSessionNumber) :
    c.configEnd = { c with configSessionNumber := c.configSessionNumber - 1 } := by
  simp only [KateConfig.configEnd]
  rw [if_neg (by omega), if_pos (by omega)]

theorem KateConfig.configStart_outer (c : KateConfig) (h : c.configSessionNumber = 0) :
    c.configStart = { c with configSessionNumber := 1, configIsRunning := true } := by
  simp only [KateConfig.configStart]
  rw [if_neg (by omega), h]
  rfl

theorem KateConfig.configEnd_outer (c : KateConfig) (h : c.configSessionNumber = 1) :
    c.configEnd = { c with
      configSessionNumber := 0
      configIsRunning := false
      updateConfigCalls := c.updateConfigCalls + 1 } := by
  simp only [KateConfig.configEnd]
  rw [if_neg (by omega), if_neg (by omega), h]
  rfl

theorem KateConfig.nested_pair (c : KateConfig) (h : 1 ≤ c.configSessionNumber) :
    c.configStart.configEnd = c := by
  rw [KateConfig.configStart_nested c h, KateConfig.configEnd_nested _ (by show 1 < c.configSessionNumber + 1; omega)]
  simp

theorem runConfigCalls_ok (calls : List ConfigCall) (c : KateConfig) (h : configOk c) :
    configOk (runConfigCalls calls c) := by
  induction calls generalizing c with
  | nil => exact h
  | cons call rest ih =>
    cases call with
    | configStart => exact ih _ (KateConfig.configStart_ok c h)
    | configEnd => exact ih _ (KateConfig.configEnd_ok c h)

theorem runConfigCalls_calls (calls : List ConfigCall) (c : KateConfig)
    (h : 0 ≤ c.configSessionNumber) :
    (runConfigCalls calls c).updateConfigCalls
      = c.updateConfigCalls + closingEnds calls c.configSessionNumber := by
  induction calls generalizing c with
  | nil => rfl
  | cons call rest ih =>
    cases call with
    | configStart =>
      simp only [runConfigCalls, closingEnds]
      rw [ih _ (by rw [KateConfig.configStart_depth]; omega), KateConfig.configStart_depth,
        KateConfig.configStart_calls]
    | configEnd =>
      simp only [runConfigCalls, closingEnds]
      rw [ih _ (by rw [KateConfig.configEnd_depth]; split_ifs <;> omega),
        KateConfig.configEnd_depth, KateConfig.configEnd_calls c h]
      by_cases h1 : c.configSessionNumber = 0
      · rw [if_pos h1, if_pos h1, if_neg (by omega)]
      · rw [if_neg h1, if_neg h1]
        by_cases h2 : c.configSessionNumber = 1
        · rw [if_pos h2, if_pos h2, h2]
          show c.updateConfigCalls + 1 + closingEnds rest 0 = _
          omega
        · rw [if_neg h2, if_neg h2]

@[simp] theorem DocumentConfigs.get_modify (w : DocumentConfigs) (this : ConfigRef)
    (f : KateDocumentConfig → KateDocumentConfig) :
    (w.modify this f).get this = f (w.get this) := by
  cases this <;> rfl

theorem DocumentConfigs.get_modify_other (w : DocumentConfigs) (this other : ConfigRef)
    (f : KateDocumentConfig → KateDocumentConfig) (h : other ≠ this) :
    (w.modify this f).get other = w.get other := by
  cases this <;> cases other <;> first | rfl | exact absurd rfl h

theorem KateDocumentConfig.setTabWidth_base (w : DocumentConfigs) (this : ConfigRef)
    (tabWidth : Int) (h : 1 ≤ (w.get this).base.configSessionNumber) :
    ((setTabWidth w this tabWidth).get this).base = (w.get this).base := by
  unfold setTabWidth
  split_ifs
  · rfl
  · rfl
  · simp only [DocumentConfigs.get_modify]
    exact KateConfig.nested_pair _ h

theorem KateDocumentConfig.setIndentationWidth_base (w : DocumentConfigs) (this : ConfigRef)
    (indentationWidth : Int) (h : 1 ≤ (w.get this).base.configSessionNumber) :
    ((setIndentationWidth w this indentationWidth).get this).base = (w.get this).base := by
  unfold setIndentationWidth
  split_ifs
  · rfl
  · rfl
  · simp only [DocumentConfigs.get_modify]
    exact KateConfig.nested_pair _ h

theorem KateDocumentConfig.setWordWrapAt_base (w : DocumentConfigs) (this : ConfigRef)
    (col : Int) (h : 1 ≤ (w.get this).base.configSessionNumber) :
    ((setWordWrapAt w this col).get this).base = (w.get this).base := by
  unfold setWordWrapAt
  split_ifs
  · rfl
  · rfl
  · simp only [DocumentConfigs.get_modify]
    exact KateConfig.nested_pair _ h

theorem KateDocumentConfig.readConfig_base (w : DocumentConfigs) (this : ConfigRef)
    (tabWidth indentationWidth wordWrapAt : Int)
    (h0 : 0 ≤ (w.get this).base.configSessionNumber) :
    ((readConfig w this tabWidth indentationWidth wordWrapAt).get this).base
      = (w.get this).base.configStart.configEnd := by
  have h1 : 1 ≤ (w.get this).base.configStart.configSessionNumber := by
    rw [KateConfig.configStart_depth]; omega
  unfold readConfig
  simp only [DocumentConfigs.get_modify]
  rw [setWordWrapAt_base, setIndentationWidth_base, setTabWidth_base]
  · simp only [DocumentConfigs.get_modify]
  · simp only [DocumentConfigs.get_modify]; exact h1
  · rw [setTabWidth_base] <;> simp only [DocumentConfigs.get_modify] <;> exact h1
  · rw [setIndentationWidth_base, setTabWidth_base] <;>
      first
      | (simp only [DocumentConfigs.get_modify]; exact h1)
      | (rw [setTabWidth_base] <;> simp only [DocumentConfigs.get_modify] <;> exact h1)

/-- C27: for a config object whose depth is not negative and whose
`configIsRunning` is set exactly while the depth is positive, `configEnd` at
depth 0 changes nothing; after every sequence of calls of `configStart` and
`configEnd` the depth is not negative and `configIsRunning` is set exactly
while it is positive, and `updateConfig()` has been called once for each
`configEnd` that found the depth at 1; a `configEnd` at a depth above 1 only
counts down, the one at depth 1 resets `configIsRunning` and calls
`updateConfig()` once; and `readConfig` at depth 0 calls `updateConfig()`
exactly once, whatever the setters in it do. -/
theorem configSession_nesting (c : KateConfig) (hok : configOk c) :
    (c.configSessionNumber = 0 → c.configEnd = c) ∧
    (∀ calls : List ConfigCall,
      0 ≤ (runConfigCalls calls c).configSessionNumber ∧
      ((runConfigCalls calls c).configIsRunning = true
        ↔ 0 < (runConfigCalls calls c).configSessionNumber) ∧
      (runConfigCalls calls c).updateConfigCalls
        = c.updateConfigCalls + closingEnds calls c.configSessionNumber) ∧
    (1 < c.configSessionNumber →
      c.configEnd = { c with configSessionNumber := c.configSessionNumber - 1 }) ∧
    (c.configSessionNumber = 1 →
      c.configEnd = { c with
        configSessionNumber := 0
        configIsRunning := false
        updateConfigCalls := c.updateConfigCalls + 1 }) ∧
    (∀ (w : DocumentConfigs) (this : ConfigRef) (tabWidth indentationWidth wordWrapAt : Int),
      (w.get this).base = c → c.configSessionNumber = 0 →
      ((KateDocumentConfig.readConfig w this tabWidth indentationWidth wordWrapAt).get
          this).base = { c with updateConfigCalls := c.updateConfigCalls + 1 }) := by
  refine ⟨fun h => ?_, fun calls => ?_, fun h => KateConfig.configEnd_nested c h, fun h => ?_,
    fun w this a b d hw h => ?_⟩
  · simp only [KateConfig.configEnd]
    rw [if_pos h]
  · obtain ⟨h1, h2⟩ := runConfigCalls_ok calls c hok
    exact ⟨h1, h2, runConfigCalls_calls calls c hok.1⟩
  · exact KateConfig.configEnd_outer c h
  · rw [KateDocumentConfig.readConfig_base w this a b d (by rw [hw]; exact hok.1), hw]
    have hrun : c.configIsRunning = false := by
      have := hok.2
      cases hr : c.configIsRunning with
      | false => rfl
      | true => exact absurd (this.mp hr) (by omega)
    rw [KateConfig.configStart_outer c h, KateConfig.configEnd_outer _ rfl]
    cases c
    simp only [KateConfig.mk.injEq] at *
    exact ⟨h.symm, hrun.symm, trivial⟩

theorem configSession_nesting_witness :
    (runConfigCalls
      [ConfigCall.configStart, ConfigCall.configStart, ConfigCall.configEnd,
        ConfigCall.configEnd, ConfigCall.configEnd] KateConfig.fresh)
      = { configSessionNumber := 0, configIsRunning := false, updateConfigCalls := 1 } ∧
    ((KateDocumentConfig.readConfig freshDocumentConfigs ConfigRef.object 8 4 100).get
        ConfigRef.object).base.updateConfigCalls = 1 ∧
    (runConfigCalls
      [ConfigCall.configStart, ConfigCall.configEnd, ConfigCall.configStart,
        ConfigCall.configEnd] KateConfig.fresh).updateConfigCalls
      = KateConfig.fresh.updateConfigCalls
        + closingEnds [ConfigCall.configStart, ConfigCall.configEnd, ConfigCall.configStart,
            ConfigCall.configEnd] KateConfig.fresh.configSessionNumber :=
  ⟨by decide, by decide,
   ((configSession_nesting KateConfig.fresh (by decide)).2.1 _).2.2⟩

/-! ## Layered configuration -/

theorem KateDocumentConfig.setTabWidth_get (w : DocumentConfigs) (v : Int) (h : 1 ≤ v) :
    tabWidth (setTabWidth w ConfigRef.object v) ConfigRef.object = v ∧
    (setTabWidth w ConfigRef.object v).s_global = w.s_global := by
  unfold setTabWidth
  rw [if_neg (by omega)]
  by_cases he : ((w.get ConfigRef.object).m_tabWidthSet
      && decide ((w.get ConfigRef.object).m_tabWidth = v)) = true
  · rw [if_pos he]
    simp only [Bool.and_eq_true, decide_eq_true_eq] at he
    simp [tabWidth, he.1, he.2]
  · rw [if_neg he]
    simp [tabWidth, DocumentConfigs.modify, DocumentConfigs.get]

theorem KateDocumentConfig.setIndentationWidth_get (w : DocumentConfigs) (v : Int)
    (h : 1 ≤ v) :
    indentationWidth (setIndentationWidth w ConfigRef.object v) ConfigRef.object = v ∧
    (setIndentationWidth w ConfigRef.object v).s_global = w.s_global := by
  unfold setIndentationWidth
  rw [if_neg (by omega)]
  by_cases he : ((w.get ConfigRef.object).m_indentationWidthSet
      && decide ((w.get ConfigRef.object).m_indentationWidth = v)) = true
  · rw [if_pos he]
    simp only [Bool.and_eq_true, decide_eq_true_eq] at he
    simp [indentationWidth, he.1, he.2]
  · rw [if_neg he]
    simp [indentationWidth, DocumentConfigs.modify, DocumentConfigs.get]

theorem KateDocumentConfig.setWordWrapAt_get (w : DocumentConfigs) (v : Int) (h : 1 ≤ v) :
    wordWrapAt (setWordWrapAt w ConfigRef.object v) ConfigRef.object = v ∧
    (setWordWrapAt w ConfigRef.object v).s_global = w.s_global := by
  unfold setWordWrapAt
  rw [if_neg (by omega)]
  by_cases he : ((w.get ConfigRef.object).m_wordWrapAtSet
      && decide ((w.get ConfigRef.object).m_wordWrapAt = v)) = true
  · rw [if_pos he]
    simp only [Bool.and_eq_true, decide_eq_true_eq] at he
    simp [wordWrapAt, he.1, he.2]
  · rw [if_neg he]
    simp [wordWrapAt, DocumentConfigs.modify, DocumentConfigs.get]

theorem KateViewConfig.setDynWordWrap_get (w : ViewConfigs) (v : Bool) :
    dynWordWrap (setDynWordWrap w ConfigRef.object v) ConfigRef.object = v ∧
    (setDynWordWrap w ConfigRef.object v).s_global = w.s_global := by
  unfold setDynWordWrap
  by_cases he : ((w.get ConfigRef.object).m_dynWordWrapSet
      && decide ((w.get ConfigRef.object).m_dynWordWrap = v)) = true
  · rw [if_pos he]
    simp only [Bool.and_eq_true, decide_eq_true_eq] at he
    simp [dynWordWrap, he.1, he.2]
  · rw [if_neg he]
    simp [dynWordWrap, ViewConfigs.modify, ViewConfigs.get]

theorem KateViewConfig.setScrollPastEnd_get (w : ViewConfigs) (v : Bool) :
    scrollPastEnd (setScrollPastEnd w ConfigRef.object v) ConfigRef.object = v ∧
    (setScrollPastEnd w ConfigRef.object v).s_global = w.s_global := by
  unfold setScrollPastEnd
  by_cases he : ((w.get ConfigRef.object).m_scrollPastEndSet
      && decide ((w.get ConfigRef.object).m_scrollPastEnd = v)) = true
  · rw [if_pos he]
    simp only [Bool.and_eq_true, decide_eq_true_eq] at he
    simp [scrollPastEnd, he.1, he.2]
  · rw [if_neg he]
    simp [scrollPastEnd, ViewConfigs.modify, ViewConfigs.get]

theorem KateViewConfig.setPersistentSelection_get (w : ViewConfigs) (v : Bool) :
    persistentSelection (setPersistentSelection w ConfigRef.object v) ConfigRef.object = v ∧
    (setPersistentSelection w ConfigRef.object v).s_global = w.s_global := by
  unfold setPersistentSelection
  by_cases he : ((w.get ConfigRef.object).m_persistentSelectionSet
      && decide ((w.get ConfigRef.object).m_persistentSelection = v)) = true
  · rw [if_pos he]
    simp only [Bool.and_eq_true, decide_eq_true_eq] at he
    simp [persistentSelection, he.1, he.2]
  · rw [if_neg he]
    simp [persistentSelection, ViewConfigs.modify, ViewConfigs.get]

theorem KateViewConfig.setAutoCenterLines_get (w : ViewConfigs) (v : Int) (h : 0 ≤ v) :
    autoCenterLines (setAutoCenterLines w ConfigRef.object v) ConfigRef.object = v ∧
    (setAutoCenterLines w ConfigRef.object v).s_global = w.s_global := by
  unfold setAutoCenterLines
  rw [if_neg (by omega)]
  by_cases he : ((w.get ConfigRef.object).m_autoCenterLinesSet
      && decide ((w.get ConfigRef.object).m_autoCenterLines = v)) = true
  · rw [if_pos he]
    simp only [Bool.and_eq_true, decide_eq_true_eq] at he
    simp [autoCenterLines, he.1, he.2]
  · rw [if_neg he]
    simp [autoCenterLines, ViewConfigs.modify, ViewConfigs.get]

theorem KateViewConfig.setDynWordWrapIndicators_get (w : ViewConfigs) (v : Int)
    (h0 : 0 ≤ v) (h80 : v ≤ 80) :
    dynWordWrapIndicators (setDynWordWrapIndicators w ConfigRef.object v) ConfigRef.object = v ∧
    (setDynWordWrapIndicators w ConfigRef.object v).s_global = w.s_global := by
  have hq : qBound 0 v 80 = v := by unfold qBound; omega
  unfold setDynWordWrapIndicators
  by_cases he : ((w.get ConfigRef.object).m_dynWordWrapIndicatorsSet
      && decide ((w.get ConfigRef.object).m_dynWordWrapIndicators = v)) = true
  · rw [if_pos he]
    simp only [Bool.and_eq_true, decide_eq_true_eq] at he
    simp [dynWordWrapIndicators, he.1, he.2]
  · rw [if_neg he]
    simp [dynWordWrapIndicators, ViewConfigs.modify, ViewConfigs.get, hq]

theorem KateViewConfig.setShowScrollbars_get (w : ViewConfigs) (v : Int)
    (h0 : 0 ≤ v) (h80 : v ≤ 80) :
    showScrollbars (setShowScrollbars w ConfigRef.object v) ConfigRef.object = v ∧
    (setShowScrollbars w ConfigRef.object v).s_global = w.s_global := by
  have hq : qBound 0 v 80 = v := by unfold qBound; omega
  unfold setShowScrollbars
  by_cases he : ((w.get ConfigRef.object).m_showScrollbarsSet
      && decide ((w.get ConfigRef.object).m_showScrollbars = v)) = true
  · rw [if_pos he]
    simp only [Bool.and_eq_true, decide_eq_true_eq] at he
    simp [showScrollbars, he.1, he.2]
  · rw [if_neg he]
    simp [showScrollbars, ViewConfigs.modify, ViewConfigs.get, hq]

/-- C22: for the document settings `tabWidth`, `indentationWidth`, `wordWrapAt`
and the view settings `dynWordWrap`, `scrollPastEnd`, `autoCenterLines`,
`persistentSelection`, on the global config and on the config of a document or
view: the getter gives the stored value of the object when its `Set` flag is
set or the object is the global config, and the value the getter gives on the
global config otherwise, which is the value stored there; after a setter call
on the config of the document or view with a value that passes the test of the
setter (at least 1 for the three document settings, at least 0 for
`autoCenterLines`), the getter on that object gives the value, and the global
config is as before; so it is for `dynWordWrapIndicators` and `showScrollbars`
with a value within the `[0, 80]` their setters bound it to. -/
theorem layered_config (w : DocumentConfigs) (x : ViewConfigs) (this : ConfigRef) :
    (KateDocumentConfig.tabWidth w this
      = if (w.get this).m_tabWidthSet = true ∨ this = ConfigRef.global then
          (w.get this).m_tabWidth
        else KateDocumentConfig.tabWidth w ConfigRef.global) ∧
    (KateDocumentConfig.indentationWidth w this
      = if (w.get this).m_indentationWidthSet = true ∨ this = ConfigRef.global then
          (w.get this).m_indentationWidth
        else KateDocumentConfig.indentationWidth w ConfigRef.global) ∧
    (KateDocumentConfig.wordWrapAt w this
      = if (w.get this).m_wordWrapAtSet = true ∨ this = ConfigRef.global then
          (w.get this).m_wordWrapAt
        else KateDocumentConfig.wordWrapAt w ConfigRef.global) ∧
    (KateViewConfig.dynWordWrap x this
      = if (x.get this).m_dynWordWrapSet = true ∨ this = ConfigRef.global then
          (x.get this).m_dynWordWrap
        else KateViewConfig.dynWordWrap x ConfigRef.global) ∧
    (KateViewConfig.scrollPastEnd x this
      = if (x.get this).m_scrollPastEndSet = true ∨ this = ConfigRef.global then
          (x.get this).m_scrollPastEnd
        else KateViewConfig.scrollPastEnd x ConfigRef.global) ∧
    (KateViewConfig.autoCenterLines x this
      = if (x.get this).m_autoCenterLinesSet = true ∨ this = ConfigRef.global then
          (x.get this).m_autoCenterLines
        else KateViewConfig.autoCenterLines x ConfigRef.global) ∧
    (KateViewConfig.persistentSelection x this
      = if (x.get this).m_persistentSelectionSet = true ∨ this = ConfigRef.global then
          (x.get this).m_persistentSelection
        else KateViewConfig.persistentSelection x ConfigRef.global) ∧
    (∀ v : Int, 1 ≤ v →
      KateDocumentConfig.tabWidth (KateDocumentConfig.setTabWidth w ConfigRef.object v)
        ConfigRef.object = v ∧
      (KateDocumentConfig.setTabWidth w ConfigRef.object v).s_global = w.s_global) ∧
    (∀ v : Int, 1 ≤ v →
      KateDocumentConfig.indentationWidth
        (KateDocumentConfig.setIndentationWidth w ConfigRef.object v) ConfigRef.object = v ∧
      (KateDocumentConfig.setIndentationWidth w ConfigRef.object v).s_global = w.s_global) ∧
    (∀ v : Int, 1 ≤ v →
      KateDocumentConfig.wordWrapAt (KateDocumentConfig.setWordWrapAt w ConfigRef.object v)
        ConfigRef.object = v ∧
      (KateDocumentConfig.setWordWrapAt w ConfigRef.object v).s_global = w.s_global) ∧
    (∀ v : Bool,
      KateViewConfig.dynWordWrap (KateViewConfig.setDynWordWrap x ConfigRef.object v)
        ConfigRef.object = v ∧
      (KateViewConfig.setDynWordWrap x ConfigRef.object v).s_global = x.s_global) ∧
    (∀ v : Bool,
      KateViewConfig.scrollPastEnd (KateViewConfig.setScrollPastEnd x ConfigRef.object v)
        ConfigRef.object = v ∧
      (KateViewConfig.setScrollPastEnd x ConfigRef.object v).s_global = x.s_global) ∧
    (∀ v : Int, 0 ≤ v →
      KateViewConfig.autoCenterLines (KateViewConfig.setAutoCenterLines x ConfigRef.object v)
        ConfigRef.object = v ∧
      (KateViewConfig.setAutoCenterLines x ConfigRef.object v).s_global = x.s_global) ∧
    (∀ v : Bool,
      KateViewConfig.persistentSelection
        (KateViewConfig.setPersistentSelection x ConfigRef.object v) ConfigRef.object = v ∧
      (KateViewConfig.setPersistentSelection x ConfigRef.object v).s_global = x.s_global) ∧
    (∀ v : Int, 0 ≤ v → v ≤ 80 →
      KateViewConfig.dynWordWrapIndicators
        (KateViewConfig.setDynWordWrapIndicators x ConfigRef.object v) ConfigRef.object = v ∧
      (KateViewConfig.setDynWordWrapIndicators x ConfigRef.object v).s_global = x.s_global) ∧
    (∀ v : Int, 0 ≤ v → v ≤ 80 →
      KateViewConfig.showScrollbars
        (KateViewConfig.setShowScrollbars x ConfigRef.object v) ConfigRef.object = v ∧
      (KateViewConfig.setShowScrollbars x ConfigRef.object v).s_global = x.s_global) := by
  refine ⟨?_, ?_, ?_, ?_, ?_, ?_, ?_,
    fun v h => KateDocumentConfig.setTabWidth_get w v h,
    fun v h => KateDocumentConfig.setIndentationWidth_get w v h,
    fun v h => KateDocumentConfig.setWordWrapAt_get w v h,
    fun v => KateViewConfig.setDynWordWrap_get x v,
    fun v => KateViewConfig.setScrollPastEnd_get x v,
    fun v h => KateViewConfig.setAutoCenterLines_get x v h,
    fun v => KateViewConfig.setPersistentSelection_get x v,
    fun v h0 h80 => KateViewConfig.setDynWordWrapIndicators_get x v h0 h80,
    fun v h0 h80 => KateViewConfig.setShowScrollbars_get x v h0 h80⟩
  · cases this <;>
      simp [KateDocumentConfig.tabWidth, ConfigRef.isGlobal, DocumentConfigs.get]
  · cases this <;>
      simp [KateDocumentConfig.indentationWidth, ConfigRef.isGlobal, DocumentConfigs.get]
  · cases this <;>
      simp [KateDocumentConfig.wordWrapAt, ConfigRef.isGlobal, DocumentConfigs.get]
  · cases this <;>
      simp [KateViewConfig.dynWordWrap, ConfigRef.isGlobal, ViewConfigs.get]
  · cases this <;>
      simp [KateViewConfig.scrollPastEnd, ConfigRef.isGlobal, ViewConfigs.get]
  · cases this <;>
      simp [KateViewConfig.autoCenterLines, ConfigRef.isGlobal, ViewConfigs.get]
  · cases this <;>
      simp [KateViewConfig.persistentSelection, ConfigRef.isGlobal, ViewConfigs.get]

theorem layered_config_witness :
    KateDocumentConfig.tabWidth freshDocumentConfigs ConfigRef.object = 4 ∧
    KateDocumentConfig.tabWidth
      (KateDocumentConfig.setTabWidth freshDocumentConfigs ConfigRef.object 8)
      ConfigRef.object = 8 ∧
    KateDocumentConfig.tabWidth
      (KateDocumentConfig.setTabWidth freshDocumentConfigs ConfigRef.object 8)
      ConfigRef.global = 4 ∧
    KateViewConfig.autoCenterLines
      (KateViewConfig.setAutoCenterLines freshViewConfigs ConfigRef.object 3)
      ConfigRef.object = 3 :=
  ⟨by decide,
   ((layered_config freshDocumentConfigs freshViewConfigs ConfigRef.object).2.2.2.2.2.2.2.1 8
      (by decide)).1,
   by decide, by decide⟩

/-! ## Setters that test their argument -/

@[simp] theorem ViewConfigs.get_modify_view (w : ViewConfigs) (this : ConfigRef)
    (f : KateViewConfig → KateViewConfig) :
    (w.modify this f).get this = f (w.get this) := by
  cases this <;> rfl

theorem KateDocumentConfig.setTabWidth_ok (w : DocumentConfigs) (this r : ConfigRef) (v : Int)
    (h : documentValuesOk (w.get r)) : documentValuesOk ((setTabWidth w this v).get r) := by
  unfold setTabWidth
  by_cases h1 : v < 1
  · rw [if_pos h1]; exact h
  · rw [if_neg h1]
    split_ifs
    · exact h
    · cases this <;> cases r <;>
        simp only [DocumentConfigs.modify, DocumentConfigs.get, documentValuesOk] at h ⊢ <;>
        first
        | exact h
        | exact ⟨fun _ => by omega, h.2.1, h.2.2⟩

theorem KateDocumentConfig.setIndentationWidth_ok (w : DocumentConfigs) (this r : ConfigRef)
    (v : Int) (h : documentValuesOk (w.get r)) :
    documentValuesOk ((setIndentationWidth w this v).get r) := by
  unfold setIndentationWidth
  by_cases h1 : v < 1
  · rw [if_pos h1]; exact h
  · rw [if_neg h1]
    split_ifs
    · exact h
    · cases this <;> cases r <;>
        simp only [DocumentConfigs.modify, DocumentConfigs.get, documentValuesOk] at h ⊢ <;>
        first
        | exact h
        | exact ⟨h.1, fun _ => by omega, h.2.2⟩

theorem KateDocumentConfig.setWordWrapAt_ok (w : DocumentConfigs) (this r : ConfigRef) (v : Int)
    (h : documentValuesOk (w.get r)) : documentValuesOk ((setWordWrapAt w this v).get r) := by
  unfold setWordWrapAt
  by_cases h1 : v < 1
  · rw [if_pos h1]; exact h
  · rw [if_neg h1]
    split_ifs
    · exact h
    · cases this <;> cases r <;>
        simp only [DocumentConfigs.modify, DocumentConfigs.get, documentValuesOk] at h ⊢ <;>
        first
        | exact h
        | exact ⟨h.1, h.2.1, fun _ => by omega⟩

theorem runDocumentSetters_ok (calls : List DocumentSetterCall) (w : DocumentConfigs)
    (h : ∀ r, documentValuesOk (w.get r)) (r : ConfigRef) :
    documentValuesOk ((runDocumentSetters calls w).get r) := by
  induction calls generalizing w with
  | nil => exact h r
  | cons call rest ih =>
    cases call with
    | setTabWidth this v =>
      exact ih _ (fun r => KateDocumentConfig.setTabWidth_ok w this r v (h r))
    | setIndentationWidth this v =>
      exact ih _ (fun r => KateDocumentConfig.setIndentationWidth_ok w this r v (h r))
    | setWordWrapAt this v =>
      exact ih _ (fun r => KateDocumentConfig.setWordWrapAt_ok w this r v (h r))

theorem qBound_range (lo val hi : Int) (h : lo ≤ hi) :
    lo ≤ qBound lo val hi ∧ qBound lo val hi ≤ hi := by
  unfold qBound; omega

theorem KateViewConfig.setAutoCenterLines_ok (w : ViewConfigs) (this r : ConfigRef) (v : Int)
    (h : viewValuesOk (w.get r)) : viewValuesOk ((setAutoCenterLines w this v).get r) := by
  unfold setAutoCenterLines
  by_cases h1 : v < 0
  · rw [if_pos h1]; exact h
  · rw [if_neg h1]
    split_ifs
    · exact h
    · cases this <;> cases r <;>
        simp only [ViewConfigs.modify, ViewConfigs.get, viewValuesOk] at h ⊢ <;>
        first
        | exact h
        | exact ⟨fun _ => by omega, h.2.1, h.2.2⟩

theorem KateViewConfig.setDynWordWrapIndicators_ok (w : ViewConfigs) (this r : ConfigRef)
    (v : Int) (h : viewValuesOk (w.get r)) :
    viewValuesOk ((setDynWordWrapIndicators w this v).get r) := by
  unfold setDynWordWrapIndicators
  split_ifs
  · exact h
  · cases this <;> cases r <;>
      simp only [ViewConfigs.modify, ViewConfigs.get, viewValuesOk] at h ⊢ <;>
      first
      | exact h
      | exact ⟨h.1, fun _ => qBound_range 0 v 80 (by decide), h.2.2⟩

theorem KateViewConfig.setShowScrollbars_ok (w : ViewConfigs) (this r : ConfigRef)
    (v : Int) (h : viewValuesOk (w.get r)) :
    viewValuesOk ((setShowScrollbars w this v).get r) := by
  unfold setShowScrollbars
  split_ifs
  · exact h
  · cases this <;> cases r <;>
      simp only [ViewConfigs.modify, ViewConfigs.get, viewValuesOk] at h ⊢ <;>
      first
      | exact h
      | exact ⟨h.1, h.2.1, fun _ => qBound_range 0 v 80 (by decide)⟩

theorem runViewSetters_ok (calls : List ViewSetterCall) (w : ViewConfigs)
    (h : ∀ r, viewValuesOk (w.get r)) (r : ConfigRef) :
    viewValuesOk ((runViewSetters calls w).get r) := by
  induction calls generalizing w with
  | nil => exact h r
  | cons call rest ih =>
    cases call with
    | setAutoCenterLines this v =>
      exact ih _ (fun r => KateViewConfig.setAutoCenterLines_ok w this r v (h r))
    | setDynWordWrapIndicators this v =>
      exact ih _ (fun r => KateViewConfig.setDynWordWrapIndicators_ok w this r v (h r))
    | setShowScrollbars this v =>
      exact ih _ (fun r => KateViewConfig.setShowScrollbars_ok w this r v (h r))

/-- C28: `setTabWidth`, `setIndentationWidth` and `setWordWrapAt` with an
argument below 1 and `setAutoCenterLines` with an argument below 0 leave the
configs as they are: the stored value, its `Set` flag, the session depth and
the number of `updateConfig()` calls; when the values set on the objects are
in range before a sequence of setter calls (as they are with no value set),
they are after it: a set tab width, indentation width and wrap column is at
least 1, set lines to center on are not negative, and set word wrap indicators
and scroll bar modes are within `[0, 80]`; `setDynWordWrapIndicators` and
`setShowScrollbars` either return at once because the argument is the value
set, or set the value to the argument bounded to `[0, 80]`. -/
theorem setters_reject (w : DocumentConfigs) (x : ViewConfigs) (this : ConfigRef) (v : Int) :
    (v < 1 → KateDocumentConfig.setTabWidth w this v = w) ∧
    (v < 1 → KateDocumentConfig.setIndentationWidth w this v = w) ∧
    (v < 1 → KateDocumentConfig.setWordWrapAt w this v = w) ∧
    (v < 0 → KateViewConfig.setAutoCenterLines x this v = x) ∧
    ((∀ r, documentValuesOk (w.get r)) →
      ∀ (calls : List DocumentSetterCall) (r : ConfigRef),
        documentValuesOk ((runDocumentSetters calls w).get r)) ∧
    ((∀ r, viewValuesOk (x.get r)) →
      ∀ (calls : List ViewSetterCall) (r : ConfigRef),
        viewValuesOk ((runViewSetters calls x).get r)) ∧
    (KateViewConfig.setDynWordWrapIndicators x this v = x ∨
      (((KateViewConfig.setDynWordWrapIndicators x this v).get this).m_dynWordWrapIndicatorsSet
          = true ∧
        ((KateViewConfig.setDynWordWrapIndicators x this v).get this).m_dynWordWrapIndicators
          = qBound 0 v 80 ∧
        0 ≤ ((KateViewConfig.setDynWordWrapIndicators x this v).get this).m_dynWordWrapIndicators ∧
        ((KateViewConfig.setDynWordWrapIndicators x this v).get this).m_dynWordWrapIndicators
          ≤ 80)) ∧
    (KateViewConfig.setShowScrollbars x this v = x ∨
      (((KateViewConfig.setShowScrollbars x this v).get this).m_showScrollbarsSet = true ∧
        ((KateViewConfig.setShowScrollbars x this v).get this).m_showScrollbars
          = qBound 0 v 80 ∧
        0 ≤ ((KateViewConfig.setShowScrollbars x this v).get this).m_showScrollbars ∧
        ((KateViewConfig.setShowScrollbars x this v).get this).m_showScrollbars ≤ 80)) := by
  have hq := qBound_range 0 v 80 (by decide)
  refine ⟨fun h => ?_, fun h => ?_, fun h => ?_, fun h => ?_,
    fun h calls r => runDocumentSetters_ok calls w h r,
    fun h calls r => runViewSetters_ok calls x h r, ?_, ?_⟩
  · unfold KateDocumentConfig.setTabWidth; rw [if_pos h]
  · unfold KateDocumentConfig.setIndentationWidth; rw [if_pos h]
  · unfold KateDocumentConfig.setWordWrapAt; rw [if_pos h]
  · unfold KateViewConfig.setAutoCenterLines; rw [if_pos h]
  · unfold KateViewConfig.setDynWordWrapIndicators
    split_ifs
    · exact Or.inl rfl
    · right
      simp only [ViewConfigs.get_modify_view]
      exact ⟨trivial, trivial, hq.1, hq.2⟩
  · unfold KateViewConfig.setShowScrollbars
    split_ifs
    · exact Or.inl rfl
    · right
      simp only [ViewConfigs.get_modify_view]
      exact ⟨trivial, trivial, hq.1, hq.2⟩

theorem setters_reject_witness :
    KateDocumentConfig.setTabWidth freshDocumentConfigs ConfigRef.object 0
      = freshDocumentConfigs ∧
    documentValuesOk ((runDocumentSetters
      [DocumentSetterCall.setTabWidth ConfigRef.object 0,
        DocumentSetterCall.setTabWidth ConfigRef.object 8,
        DocumentSetterCall.setWordWrapAt ConfigRef.object (-5)]
      freshDocumentConfigs).get ConfigRef.object) ∧
    ((runDocumentSetters
      [DocumentSetterCall.setTabWidth ConfigRef.object 0,
        DocumentSetterCall.setTabWidth ConfigRef.object 8,
        DocumentSetterCall.setWordWrapAt ConfigRef.object (-5)]
      freshDocumentConfigs).get ConfigRef.object).m_tabWidth = 8 ∧
    ((KateViewConfig.setShowScrollbars freshViewConfigs ConfigRef.object 100).get
      ConfigRef.object).m_showScrollbars = 80 :=
  ⟨(setters_reject freshDocumentConfigs freshViewConfigs ConfigRef.object 0).1 (by decide),
   by decide, by decide, by decide⟩

/-! ## Line marker colours -/

theorem markerIndexScan_spec (type : Int) (k : Nat) (hlo : (2 : Int) ^ k ≤ type)
    (hhi : type < (2 : Int) ^ (k + 1)) (rounds index : Nat) (hi : index ≤ k)
    (hr : k - index < rounds) :
    markerIndexScan type rounds index = some (k + 1) := by
  induction rounds generalizing index with
  | zero => omega
  | succ n ih =>
    rw [markerIndexScan]
    have hpos : (0 : Int) < 2 ^ index := by positivity
    by_cases hik : index = k
    · subst hik
      have h1 : type / 2 ^ index = 1 := by
        apply le_antisymm
        · have : type / 2 ^ index < 2 := by
            apply Int.ediv_lt_of_lt_mul hpos
            rw [pow_succ] at hhi
            linarith
          omega
        · apply Int.le_ediv_of_mul_le hpos
          linarith
      rw [if_neg (by rw [h1]; simp)]
    · have hlt : index < k := by omega
      have h2 : (2 : Int) ≤ type / 2 ^ index := by
        apply Int.le_ediv_of_mul_le hpos
        have hp : (2 : Int) ^ (index + 1) ≤ 2 ^ k :=
          pow_le_pow_right₀ (by decide) (by omega)
        rw [pow_succ] at hp
        linarith
      rw [if_pos (by omega)]
      exact ih (index + 1) (by omega) (by omega)

theorem markerIndex_slot (type : Int) (k : Nat) (hk : k < 32) (hlo : (2 : Int) ^ k ≤ type)
    (hhi : type < (2 : Int) ^ (k + 1)) : markerIndex type = some (k : Int) := by
  have hpos : (0 : Int) < type := lt_of_lt_of_le (by positivity) hlo
  unfold markerIndex
  rw [if_pos hpos, markerIndexScan_spec type k hlo hhi 32 0 (by omega) (by omega)]
  simp

theorem markerIndex_some (type : Int) (h0 : 0 < type) (h : type < (2 : Int) ^ 32) :
    ∃ k : Nat, k < 32 ∧ (2 : Int) ^ k ≤ type ∧ type < (2 : Int) ^ (k + 1) ∧
      markerIndex type = some (k : Int) := by
  have hn : type.toNat ≠ 0 := by omega
  have hcast : ((type.toNat : Nat) : Int) = type := Int.toNat_of_nonneg (by omega)
  have h1 : 2 ^ Nat.log 2 type.toNat ≤ type.toNat := Nat.pow_log_le_self 2 hn
  have h2 : type.toNat < 2 ^ (Nat.log 2 type.toNat + 1) :=
    Nat.lt_pow_succ_log_self (by decide) _
  have hlo : (2 : Int) ^ Nat.log 2 type.toNat ≤ type := by
    rw [← hcast]; exact_mod_cast h1
  have hhi : type < (2 : Int) ^ (Nat.log 2 type.toNat + 1) := by
    rw [← hcast]; exact_mod_cast h2
  have hk : Nat.log 2 type.toNat < 32 := by
    by_contra hge
    have hp : (2 : Int) ^ 32 ≤ 2 ^ Nat.log 2 type.toNat :=
      pow_le_pow_right₀ (by decide) (by omega)
    linarith
  exact ⟨_, hk, hlo, hhi, markerIndex_slot type _ hk hlo hhi⟩

theorem lineMarkerColor_of_index (w : RendererConfigs) (this : ConfigRef) (type index : Int)
    (hi : markerIndex type = some index) :
    lineMarkerColor w this type =
      if index < 0 ∨ index ≥ w.reservedMarkersCount then some Color.dummy
      else
        match (w.get this).m_lineMarkerColorSet[index.toNat]? with
        | none => none
        | some isSet =>
          if isSet || this.isGlobal then (w.get this).m_lineMarkerColor[index.toNat]?
          else
            match w.s_global.m_lineMarkerColorSet[index.toNat]? with
            | none => none
            | some _ => w.s_global.m_lineMarkerColor[index.toNat]? := by
  unfold lineMarkerColor
  rw [hi]

theorem lineMarkerColor_in_range (w : RendererConfigs) (hok : rendererConfigsOk w)
    (type index : Int) (hi : markerIndex type = some index) (h0 : 0 ≤ index)
    (hN : index < w.reservedMarkersCount) :
    lineMarkerColor w ConfigRef.global type
      = some (w.s_global.m_lineMarkerColor.getD index.toNat Color.dummy) ∧
    (w.renderer.m_lineMarkerColorSet.getD index.toNat false = true →
      lineMarkerColor w ConfigRef.object type
        = some (w.renderer.m_lineMarkerColor.getD index.toNat Color.dummy)) ∧
    (w.renderer.m_lineMarkerColorSet.getD index.toNat false = false →
      lineMarkerColor w ConfigRef.object type = lineMarkerColor w ConfigRef.global type) := by
  obtain ⟨g1, g2⟩ := hok ConfigRef.global
  obtain ⟨r1, r2⟩ := hok ConfigRef.object
  simp only [RendererConfigs.get] at g1 g2 r1 r2
  have hg1 : index.toNat < w.s_global.m_lineMarkerColor.length := by omega
  have hg2 : index.toNat < w.s_global.m_lineMarkerColorSet.length := by omega
  have hr1 : index.toNat < w.renderer.m_lineMarkerColor.length := by omega
  have hr2 : index.toNat < w.renderer.m_lineMarkerColorSet.length := by omega
  have hglobal : lineMarkerColor w ConfigRef.global type
      = some (w.s_global.m_lineMarkerColor.getD index.toNat Color.dummy) := by
    rw [lineMarkerColor_of_index w _ type index hi, if_neg (by omega)]
    simp only [RendererConfigs.get, ConfigRef.isGlobal, Bool.or_true, if_true,
      List.getElem?_eq_getElem hg2, List.getElem?_eq_getElem hg1,
      List.getD_eq_getElem?_getD, Option.getD_some]
  refine ⟨hglobal, fun hs => ?_, fun hs => ?_⟩
  · rw [lineMarkerColor_of_index w _ type index hi, if_neg (by omega)]
    simp only [List.getD_eq_getElem?_getD, List.getElem?_eq_getElem hr2,
      Option.getD_some] at hs
    simp only [RendererConfigs.get, ConfigRef.isGlobal, Bool.or_false,
      List.getElem?_eq_getElem hr2, List.getElem?_eq_getElem hr1, hs, if_true,
      List.getD_eq_getElem?_getD, Option.getD_some]
  · rw [hglobal, lineMarkerColor_of_index w _ type index hi, if_neg (by omega)]
    simp only [List.getD_eq_getElem?_getD, List.getElem?_eq_getElem hr2,
      Option.getD_some] at hs
    simp only [RendererConfigs.get, ConfigRef.isGlobal, Bool.or_false,
      List.getElem?_eq_getElem hr2, List.getElem?_eq_getElem hg2,
      List.getElem?_eq_getElem hg1, hs, Bool.false_eq_true, if_false,
      List.getD_eq_getElem?_getD, Option.getD_some]

/-- C29: for a mark type `t` with `2^k <= t < 2^(k+1)` and `k < 32` the loop of
`lineMarkerColor` ends within 32 rounds and the index is `k`; every positive
`t` below `2^32` is such a `t`, and `2^k` gives `k`; for `t <= 0`, and when the
index is not within `[0, reservedMarkersCount())`, the colour returned is the
dummy colour; with arrays of `reservedMarkersCount()` entries no call with
`t < 2^32` reads an array out of bounds; and for an index in range the global
config gives its colour of the slot, a renderer config that has set the slot
gives its own, and one that has not gives what the global config gives for the
type. -/
theorem lineMarkerColor_slot (w : RendererConfigs) (type : Int) :
    (∀ k : Nat, k < 32 → (2 : Int) ^ k ≤ type → type < (2 : Int) ^ (k + 1) →
      markerIndex type = some (k : Int)) ∧
    (0 < type → type < (2 : Int) ^ 32 →
      ∃ k : Nat, k < 32 ∧ (2 : Int) ^ k ≤ type ∧ type < (2 : Int) ^ (k + 1) ∧
        markerIndex type = some (k : Int)) ∧
    (∀ k : Nat, k < 32 → markerIndex ((2 : Int) ^ k) = some (k : Int)) ∧
    (type ≤ 0 → ∀ this, lineMarkerColor w this type = some Color.dummy) ∧
    (∀ (index : Int) (this : ConfigRef), markerIndex type = some index →
      (index < 0 ∨ index ≥ w.reservedMarkersCount) →
      lineMarkerColor w this type = some Color.dummy) ∧
    (rendererConfigsOk w → type < (2 : Int) ^ 32 →
      ∀ this, lineMarkerColor w this type ≠ none) ∧
    (rendererConfigsOk w →
      ∀ index : Int, markerIndex type = some index → 0 ≤ index →
        index < w.reservedMarkersCount →
        lineMarkerColor w ConfigRef.global type
          = some (w.s_global.m_lineMarkerColor.getD index.toNat Color.dummy) ∧
        (w.renderer.m_lineMarkerColorSet.getD index.toNat false = true →
          lineMarkerColor w ConfigRef.object type
            = some (w.renderer.m_lineMarkerColor.getD index.toNat Color.dummy)) ∧
        (w.renderer.m_lineMarkerColorSet.getD index.toNat false = false →
          lineMarkerColor w ConfigRef.object type
            = lineMarkerColor w ConfigRef.global type)) := by
  have hneg : type ≤ 0 → markerIndex type = some (0 - 1) := by
    intro h
    unfold markerIndex
    rw [if_neg (by omega)]
  have hdummy : ∀ (index : Int) (this : ConfigRef), markerIndex type = some index →
      (index < 0 ∨ index ≥ w.reservedMarkersCount) →
      lineMarkerColor w this type = some Color.dummy := by
    intro index this hi hout
    rw [lineMarkerColor_of_index w this type index hi, if_pos hout]
  refine ⟨fun k hk hlo hhi => markerIndex_slot type k hk hlo hhi,
    fun h0 h => markerIndex_some type h0 h,
    fun k hk => markerIndex_slot _ k hk (le_refl _)
      (pow_lt_pow_right₀ (by decide) (by omega)),
    fun h this => hdummy _ this (hneg h) (Or.inl (by decide)),
    hdummy,
    fun hok h this => ?_,
    fun hok index hi h0 hN => lineMarkerColor_in_range w hok type index hi h0 hN⟩
  obtain ⟨index, hi⟩ : ∃ index : Int, markerIndex type = some index := by
    by_cases h0 : 0 < type
    · obtain ⟨k, _, _, _, hk⟩ := markerIndex_some type h0 h
      exact ⟨_, hk⟩
    · exact ⟨_, hneg (by omega)⟩
  by_cases hout : index < 0 ∨ index ≥ w.reservedMarkersCount
  · rw [hdummy index this hi hout]; simp
  · obtain ⟨e1, e2, e3⟩ := lineMarkerColor_in_range w hok type index hi (by omega) (by omega)
    cases this with
    | global => rw [e1]; simp
    | object =>
      cases hs : w.renderer.m_lineMarkerColorSet.getD index.toNat false with
      | true => rw [e2 hs]; simp
      | false => rw [e3 hs, e1]; simp

theorem lineMarkerColor_slot_witness :
    markerIndex 4 = some 2 ∧
    markerIndex 5 = some 2 ∧
    lineMarkerColor sevenMarkers ConfigRef.object 4 = some ⟨true, 99⟩ ∧
    lineMarkerColor sevenMarkers ConfigRef.object 8 = some ⟨true, 13⟩ ∧
    lineMarkerColor sevenMarkers ConfigRef.object 128 = some Color.dummy ∧
    lineMarkerColor sevenMarkers ConfigRef.object 0 = some Color.dummy :=
  ⟨(lineMarkerColor_slot sevenMarkers 4).1 2 (by decide) (by decide) (by decide),
   by decide, by decide, by decide, by decide, by decide⟩

theorem BoundedCursor.forward_edge_valid (d : CursorDoc) (hok : cursorDocOk d) (line : Int)
    (hline : 0 ≤ line ∧ line < d.lines)
    (hedge : d.wrapCursor = true ∨ d.dynWordWrap = false ∨
      0 ≤ d.lineLength line + (d.width - d.widthOfLastLine line).tdiv d.spaceWidth - 1)
    (steps : Nat) (column maxColumn : Int)
    (hmax : maxColumn = -1 ∨
      maxColumn = d.lineLength line + (d.width - d.widthOfLastLine line).tdiv d.spaceWidth - 1)
    (hv : CalculatingCursor.valid d ⟨line, column⟩ = true) :
    CalculatingCursor.valid d ⟨line, BoundedCursor.forward d line steps column maxColumn⟩
      = true := by
  obtain ⟨_, hnext, _⟩ := hok
  induction steps generalizing column maxColumn with
  | zero => exact hv
  | succ k ih =>
    have hc := (valid_iff d _).mp hv
    have hcol : 0 ≤ column := hc.2.2.1
    rw [BoundedCursor.forward]
    by_cases h1 : column ≥ d.lineLength line
    · rw [if_pos h1]
      cases hw : d.wrapCursor with
      | true =>
        simp only [if_true]
        exact hv
      | false =>
        simp only [Bool.false_eq_true, if_false]
        cases hd : d.dynWordWrap with
        | true =>
          simp only [if_true]
          have hM : 0 ≤ d.lineLength line
              + (d.width - d.widthOfLastLine line).tdiv d.spaceWidth - 1 := by
            rcases hedge with h | h | h
            · rw [hw] at h; exact absurd h (by simp)
            · rw [hd] at h; exact absurd h (by simp)
            · exact h
          have hnew : (if maxColumn = -1 then
              d.lineLength line + (d.width - d.widthOfLastLine line).tdiv d.spaceWidth - 1
              else maxColumn)
              = d.lineLength line + (d.width - d.widthOfLastLine line).tdiv d.spaceWidth - 1 := by
            rcases hmax with h | h
            · rw [if_pos h]
            · split_ifs
              · rfl
              · exact h
          rw [hnew]
          by_cases h2 : column ≥ d.lineLength line
              + (d.width - d.widthOfLastLine line).tdiv d.spaceWidth - 1
          · rw [if_pos h2]
            rw [valid_iff]
            exact ⟨hline.1, hline.2, hM, fun h => by rw [hw] at h; exact absurd h (by simp)⟩
          · rw [if_neg h2]
            refine ih (column + 1) _ (Or.inr rfl) ?_
            rw [valid_iff]
            exact ⟨hline.1, hline.2, by show 0 ≤ column + 1; omega,
              fun h => by rw [hw] at h; exact absurd h (by simp)⟩
        | false =>
          simp only [Bool.false_eq_true, if_false]
          refine ih (column + 1) maxColumn hmax ?_
          rw [valid_iff]
          exact ⟨hline.1, hline.2, by show 0 ≤ column + 1; omega,
            fun h => by rw [hw] at h; exact absurd h (by simp)⟩
    · rw [if_neg h1]
      refine ih _ maxColumn hmax ?_
      rw [valid_iff]
      exact ⟨hline.1, hline.2, (hnext line column).1, fun _ => (hnext line column).2⟩

/-- C18, as stated: with a widget width of 0, or with a line height of 0, rows
are dirty and `updateDirty` requests no update: the rectangles of the runs are
empty, and with a line height of 0 the rectangles of the two runs of
`[dirty, clean, dirty]` are one and the same. -/
theorem updateDirty_empty_rects :
    dirtyAt [true] 0 = true ∧
    updateDirty 10 0 [true] = none ∧
    isMaximalRun [true, false, true] 0 0 ∧
    isMaximalRun [true, false, true] 2 2 ∧
    updateDirtyScan 0 100 [true, false, true] 0 (-1) (-1)
      = [⟨0, 0, 100, 0⟩, ⟨0, 0, 100, 0⟩] ∧
    updateDirty 0 100 [true, false, true] = none := by
  decide

/-! ## Scroll bar with minimap -/

theorem wrap32_of_range (x : Int) (h : isInt32 x) : wrap32 x = x := by
  unfold isInt32 at h
  unfold wrap32
  omega

theorem minimapYToStdY_outside (std map : Rect) (y : Int)
    (h : std.height = map.height ∨ y < std.top ∨ y > std.bottom) :
    minimapYToStdY std map y = y := by
  unfold minimapYToStdY
  by_cases h1 : std.height = map.height
  · rw [if_pos h1]
  · rw [if_neg h1, if_pos (by tauto)]

theorem minimapYToStdY_inside (std map : Rect) (y : Int) (hne : std.height ≠ map.height)
    (hst : isInt32 std.top) (hsb : isInt32 std.bottom)
    (hprod : (map.height - 1) * std.height < 2147483648)
    (h1 : std.top ≤ y) (h2 : y ≤ std.bottom) (h3 : map.top ≤ y) (h4 : y ≤ map.bottom) :
    map.height ≠ 0 ∧
    minimapYToStdY std map y
      = std.top + ((y - map.top) * std.height).tdiv map.height ∧
    minimapYToStdY std map y = std.top + ((y - map.top) * std.height) / map.height ∧
    std.top ≤ minimapYToStdY std map y ∧ minimapYToStdY std map y ≤ std.bottom := by
  simp only [Rect.bottom, Rect.top, isInt32] at h1 h2 h3 h4 hst hsb ⊢
  have hmh : 0 < map.height := by omega
  have hsh : 0 < std.height := by omega
  have hnum : 0 ≤ (y - map.y) * std.height := mul_nonneg (by omega) hsh.le
  have hnumle : (y - map.y) * std.height ≤ (map.height - 1) * std.height :=
    mul_le_mul_of_nonneg_right (by omega) hsh.le
  have hdiff : y - map.y ≤ (map.height - 1) * std.height := by
    have : (y - map.y) * 1 ≤ (y - map.y) * std.height :=
      mul_le_mul_of_nonneg_left (by omega) (by omega)
    omega
  have hw1 : wrap32 (y - map.y) = y - map.y :=
    wrap32_of_range _ ⟨by omega, by omega⟩
  have hw2 : wrap32 ((y - map.y) * std.height) = (y - map.y) * std.height :=
    wrap32_of_range _ ⟨by omega, by omega⟩
  have hq : ((y - map.y) * std.height).tdiv map.height = ((y - map.y) * std.height) / map.height :=
    Int.tdiv_eq_ediv hnum hmh.le
  have hq0 : 0 ≤ ((y - map.y) * std.height) / map.height := Int.ediv_nonneg hnum hmh.le
  have hq1 : ((y - map.y) * std.height) / map.height < std.height := by
    apply Int.ediv_lt_of_lt_mul hmh
    have : y - map.y < map.height := by omega
    calc (y - map.y) * std.height < map.height * std.height :=
          mul_lt_mul_of_pos_right this hsh
      _ = std.height * map.height := mul_comm _ _
  have hw3 : wrap32 (((y - map.y) * std.height).tdiv map.height + std.y)
      = ((y - map.y) * std.height).tdiv map.height + std.y :=
    wrap32_of_range _ ⟨by rw [hq]; omega, by rw [hq]; omega⟩
  have hval : minimapYToStdY std map y
      = std.y + ((y - map.y) * std.height).tdiv map.height := by
    unfold minimapYToStdY
    simp only [Rect.bottom, Rect.top]
    rw [if_neg hne, if_neg (by omega), if_neg (by omega), if_neg (by omega), if_neg (by omega)]
    show wrap32 ((wrap32 (wrap32 (y - map.y) * std.height)).tdiv map.height + std.y) = _
    rw [hw1, hw2, hw3]
    exact Int.add_comm _ _
  refine ⟨by omega, hval, by rw [hval, hq], ?_, ?_⟩
  · rw [hval, hq]; omega
  · rw [hval, hq]; omega

theorem minimapYToStdY_mono (std map : Rect) (y1 y2 : Int)
    (hst : isInt32 std.top) (hsb : isInt32 std.bottom)
    (hprod : (map.height - 1) * std.height < 2147483648) (h12 : y1 ≤ y2)
    (m1 : map.top ≤ y1) (m2 : y2 ≤ map.bottom) :
    minimapYToStdY std map y1 ≤ minimapYToStdY std map y2 := by
  by_cases hne : std.height = map.height
  · rw [minimapYToStdY_outside std map y1 (Or.inl hne),
      minimapYToStdY_outside std map y2 (Or.inl hne)]
    exact h12
  · by_cases o1 : y1 < std.top ∨ y1 > std.bottom
    · rw [minimapYToStdY_outside std map y1 (Or.inr o1)]
      by_cases o2 : y2 < std.top ∨ y2 > std.bottom
      · rw [minimapYToStdY_outside std map y2 (Or.inr o2)]
        exact h12
      · obtain ⟨_, _, _, b1, b2⟩ := minimapYToStdY_inside std map y2 hne hst hsb hprod
          (by omega) (by omega) (by omega) m2
        omega
    · obtain ⟨_, _, e1, b1, b2⟩ := minimapYToStdY_inside std map y1 hne hst hsb hprod
        (by omega) (by omega) m1 (by omega)
      by_cases o2 : y2 < std.top ∨ y2 > std.bottom
      · rw [minimapYToStdY_outside std map y2 (Or.inr o2)]
        omega
      · obtain ⟨hm0, _, e2, _, _⟩ := minimapYToStdY_inside std map y2 hne hst hsb hprod
          (by omega) (by omega) (by omega) m2
        rw [e1, e2]
        have hmh : 0 < map.height := by
          simp only [Rect.bottom, Rect.top] at m1 m2; omega
        have hsh : 0 ≤ std.height := by
          simp only [Rect.bottom, Rect.top] at o1; omega
        have hle : (y1 - map.top) * std.height ≤ (y2 - map.top) * std.height :=
          mul_le_mul_of_nonneg_right (by omega) hsh
        have := Int.ediv_le_ediv hmh hle
        omega

/-- C30, as stated: with a standard groove of 70000 rows and a minimap groove
of 60000 rows, both from row 0 on, the product `(y - mapTop) * stdHeight` at
`y = 50000` is behind the range of `int`, and `minimapYToStdY` gives `-13249`,
which is not within the standard groove and is below the `35000` it gives at
`y = 30000`. -/
theorem minimapYToStdY_overflow :
    minimapYToStdY ⟨0, 0, 10, 70000⟩ ⟨0, 0, 10, 60000⟩ 50000 = -13249 ∧
    minimapYToStdY ⟨0, 0, 10, 70000⟩ ⟨0, 0, 10, 60000⟩ 30000 = 35000 ∧
    (⟨0, 0, 10, 70000⟩ : Rect).top ≤ 50000 ∧
    (50000 : Int) ≤ (⟨0, 0, 10, 70000⟩ : Rect).bottom ∧
    (⟨0, 0, 10, 60000⟩ : Rect).top ≤ 30000 ∧
    (50000 : Int) ≤ (⟨0, 0, 10, 60000⟩ : Rect).bottom ∧
    ¬ ((⟨0, 0, 10, 70000⟩ : Rect).top
        ≤ minimapYToStdY ⟨0, 0, 10, 70000⟩ ⟨0, 0, 10, 60000⟩ 50000) ∧
    ¬ (minimapYToStdY ⟨0, 0, 10, 70000⟩ ⟨0, 0, 10, 60000⟩ 30000
        ≤ minimapYToStdY ⟨0, 0, 10, 70000⟩ ⟨0, 0, 10, 60000⟩ 50000) := by
  decide

/-- C30, amended: for groove rectangles whose tops and bottoms are in the range
of `int`, `minimapYToStdY` gives `y` when the two grooves have the same height
or `y` is not within the standard groove `[stdTop, stdBottom]`; otherwise it
gives `stdTop + 1` for `y` above the minimap groove and `stdBottom - 1` for `y`
below it (and not above it, as a groove of negative height would have it); and
where `(mapHeight - 1) * stdHeight < 2^31`, so that the product does not leave
the range of `int`: it gives `stdTop + (y - mapTop) * stdHeight / mapHeight`
for `y` within the minimap groove, where the height of that groove is not 0;
for `y` in `[stdTop, stdBottom]` with `stdHeight >= 2` the result is in
`[stdTop, stdBottom]`; and the result does not decrease when `y` grows within
the minimap groove. -/
theorem minimapYToStdY_groove (std map : Rect) (y : Int)
    (hst : isInt32 std.top) (hsb : isInt32 std.bottom) (hmt : isInt32 map.top)
    (hmb : isInt32 map.bottom) :
    ((std.height = map.height ∨ y < std.top ∨ y > std.bottom) →
      minimapYToStdY std map y = y) ∧
    (¬ (std.height = map.height ∨ y < std.top ∨ y > std.bottom) →
      (y < map.top → minimapYToStdY std map y = std.top + 1) ∧
      (map.top ≤ y → y > map.bottom → minimapYToStdY std map y = std.bottom - 1) ∧
      ((map.height - 1) * std.height < 2147483648 → map.top ≤ y → y ≤ map.bottom →
        map.height ≠ 0 ∧
        minimapYToStdY std map y
          = std.top + ((y - map.top) * std.height).tdiv map.height ∧
        minimapYToStdY std map y
          = std.top + ((y - map.top) * std.height) / map.height)) ∧
    ((map.height - 1) * std.height < 2147483648 →
      std.top ≤ y → y ≤ std.bottom → 2 ≤ std.height →
      std.top ≤ minimapYToStdY std map y ∧ minimapYToStdY std map y ≤ std.bottom) ∧
    ((map.height - 1) * std.height < 2147483648 →
      ∀ y2 : Int, map.top ≤ y → y ≤ y2 → y2 ≤ map.bottom →
        minimapYToStdY std map y ≤ minimapYToStdY std map y2) := by
  have habove : std.height ≠ map.height → std.top ≤ y → y ≤ std.bottom → y < map.top →
      minimapYToStdY std map y = std.top + 1 := by
    intro hne h1 h2 h3
    unfold minimapYToStdY
    rw [if_neg hne, if_neg (by omega), if_pos h3]
    exact wrap32_of_range _ ⟨by have := hst.1; omega, by have := hmt.2; omega⟩
  have hbelow : std.height ≠ map.height → std.top ≤ y → y ≤ std.bottom → map.top ≤ y →
      y > map.bottom → minimapYToStdY std map y = std.bottom - 1 := by
    intro hne h1 h2 h4 h3
    unfold minimapYToStdY
    rw [if_neg hne, if_neg (by omega), if_neg (by omega), if_pos h3]
    exact wrap32_of_range _ ⟨by have := hmb.1; omega, by have := hsb.2; omega⟩
  refine ⟨minimapYToStdY_outside std map y, fun h => ?_, fun hprod h1 h2 h3 => ?_,
    fun hprod y2 m1 h12 m2 => minimapYToStdY_mono std map y y2 hst hsb hprod h12 m1 m2⟩
  · have hne : std.height ≠ map.height := fun c => h (Or.inl c)
    have h1 : std.top ≤ y := by
      by_contra c; exact h (Or.inr (Or.inl (by omega)))
    have h2 : y ≤ std.bottom := by
      by_contra c; exact h (Or.inr (Or.inr (by omega)))
    refine ⟨habove hne h1 h2, hbelow hne h1 h2, fun hprod h3 h4 => ?_⟩
    obtain ⟨a, b, c, _, _⟩ := minimapYToStdY_inside std map y hne hst hsb hprod h1 h2 h3 h4
    exact ⟨a, b, c⟩
  · by_cases hne : std.height = map.height
    · rw [minimapYToStdY_outside std map y (Or.inl hne)]; exact ⟨h1, h2⟩
    · by_cases h4 : y < map.top
      · rw [habove hne h1 h2 h4]
        simp only [Rect.bottom, Rect.top] at h1 h2 ⊢; omega
      · by_cases h5 : y > map.bottom
        · rw [hbelow hne h1 h2 (by omega) h5]
          simp only [Rect.bottom, Rect.top] at h1 h2 ⊢; omega
        · obtain ⟨_, _, _, b1, b2⟩ := minimapYToStdY_inside std map y hne hst hsb hprod
            h1 h2 (by omega) (by omega)
          exact ⟨b1, b2⟩

theorem minimapYToStdY_groove_witness :
    minimapYToStdY ⟨0, 20, 10, 100⟩ ⟨0, 0, 10, 140⟩ 69 = 69 ∧
    minimapYToStdY ⟨0, 20, 10, 100⟩ ⟨0, 0, 10, 140⟩ 70 = 70 ∧
    minimapYToStdY ⟨0, 20, 10, 100⟩ ⟨0, 0, 10, 140⟩ 10 = 10 ∧
    minimapYToStdY ⟨0, 20, 10, 100⟩ ⟨0, 40, 10, 50⟩ 30 = 21 ∧
    minimapYToStdY ⟨0, 20, 10, 100⟩ ⟨0, 40, 10, 50⟩ 100 = 118 ∧
    ((⟨0, 20, 10, 100⟩ : Rect).top ≤ minimapYToStdY ⟨0, 20, 10, 100⟩ ⟨0, 0, 10, 140⟩ 69 ∧
      minimapYToStdY ⟨0, 20, 10, 100⟩ ⟨0, 0, 10, 140⟩ 69 ≤ (⟨0, 20, 10, 100⟩ : Rect).bottom) :=
  ⟨by decide,
   by decide,
   (minimapYToStdY_groove ⟨0, 20, 10, 100⟩ ⟨0, 0, 10, 140⟩ 10 (by decide) (by decide)
      (by decide) (by decide)).1 (Or.inr (Or.inl (by decide))),
   by decide, by decide,
   (minimapYToStdY_groove ⟨0, 20, 10, 100⟩ ⟨0, 0, 10, 140⟩ 69 (by decide) (by decide)
      (by decide) (by decide)).2.2.1 (by decide) (by decide) (by decide) (by decide)⟩

end Kate
